import Mathlib

/-!
# Movie recommendation system (`RecommenderSystem.cpp`)

A shallow embedding of the query engine of `RecommenderSystem`: the cosine
similarity with memoised norms (`getSimilierValue`, `getNormAndKeepIfNotExit`),
the content based recommender (`recommendByContent`), the k-nearest-neighbour
predictor (`predictMovieScoreForUser`) and the collaborative filtering
recommender (`recommendByCF`).

Modelling conventions.

* the arithmetic of `double` is a parameter of the definitions: the operations
  `+`, `-`, `*`, `/`, the comparison `<`, the conversion from `size_t` and the
  library function `sqrt` (`HasSqrt`).  A theorem over `LinearOrderedField` is
  about exact arithmetic, an arbitrary linear ordered field with a square root;
  a theorem over the bare operations holds in every arithmetic, that of doubles
  included.  In a field `x / 0 = 0`, whereas IEEE division gives an infinity or
  a NaN: statements whose truth depends on a zero denominator carry a
  hypothesis that excludes it.  `Binary64` is the arithmetic of IEEE 754
  doubles (round to nearest, ties to even, every operation rounded on its own);
  the queries are evaluated in it where a statement of exact arithmetic does
  not survive rounding.
* `std::unordered_map` is an association list of key/value pairs.  The order of
  the list is the iteration order of the container; `find`, `operator[]`
  (which inserts a value-initialised entry for a missing key) and assignment
  through `operator[]` are `find`, `subscript` and `assign`.
* `std::vector<double>` is a list; `v[i]` is `List.getD v i 0` (reading beyond
  the end is undefined in C++).
* `std::multimap<double, string>` is a list of pairs kept in ascending key
  order, a new pair being placed after the pairs with an equal key.
* member functions are functions from the object state to a result and the
  new object state.
-/

set_option linter.unusedSectionVars false
set_option linter.unusedVariables false

namespace RecSys

/-! ## Containers -/

section Containers

variable {κ β : Type} [DecidableEq κ]

/-- The value stored under `k` (`unordered_map::find`), `none` standing for `end()`. -/
def find : List (κ × β) → κ → Option β
  | [], _ => none
  | (k', v) :: m, k => if k' = k then some v else find m k

/-- The container access `m[k]`: the value under `k` and the container afterwards; a
missing key is inserted with the value-initialised `dflt`. -/
def subscript (dflt : β) (m : List (κ × β)) (k : κ) : β × List (κ × β) :=
  match find m k with
  | some v => (v, m)
  | none => (dflt, m ++ [(k, dflt)])

/-- Replace the value of the first entry with key `k`, if there is one. -/
def replaceValue : List (κ × β) → κ → β → List (κ × β)
  | [], _, _ => []
  | (k', v') :: m, k, v => if k' = k then (k', v) :: m else (k', v') :: replaceValue m k v

/-- The assignment `m[k] = v`. -/
def assign (m : List (κ × β)) (k : κ) (v : β) : List (κ × β) :=
  match find m k with
  | some _ => replaceValue m k v
  | none => m ++ [(k, v)]

end Containers

/-- The square root of the C library, which the norm computation calls. -/
class HasSqrt (α : Type) where
  /-- The function `sqrt`. -/
  sqrt : α → α

/-- The comparison `<` is a strict total order on the values of the list `ks`: no value is
below itself, the comparison is transitive, and of two different values one is below the
other.  Of doubles this holds when no value is a NaN. -/
def StrictTotalOn {α : Type} [LT α] (ks : List α) : Prop :=
  (∀ x ∈ ks, ¬ x < x) ∧
  (∀ x ∈ ks, ∀ y ∈ ks, ∀ z ∈ ks, x < y → y < z → x < z) ∧
  (∀ x ∈ ks, ∀ y ∈ ks, x ≠ y → x < y ∨ y < x)

/-- The data members of the class `RecommenderSystem`. -/
structure RecommenderSystem (α : Type) where
  /-- All movies with their feature vectors. -/
  _dataCharacteristics : List (String × List α)
  /-- All users, each with the movies they rated and the ratings. -/
  _userRating : List (String × List (String × α))
  /-- The movies in the order of the rating file, by index. -/
  _movieNamesByOrder : List (Nat × String)
  /-- The number of movies. -/
  _numOfMovies : Nat
  /-- The number of features of a movie. -/
  _numOfCharacteristics : Nat
  /-- The norms computed so far, by movie name. -/
  _keepsNorms : List (String × α)

namespace RecommenderSystem

variable {α : Type} [Zero α] [One α] [Add α] [Sub α] [Mul α] [Div α] [Neg α] [NatCast α]
  [LT α] [LE α] [DecidableRel (fun a b : α => a < b)] [HasSqrt α]

/-- The macro `MSG_ERROR_NOT_FOUND`. -/
def MSG_ERROR_NOT_FOUND : String := "USER NOT FOUND"

/-- The macro `NOT_MOVIE`. -/
def NOT_MOVIE : String := "NOT_MOVIE"

/-- The macro `INIT_SIMILIER`, the number -1.1. -/
def INIT_SIMILIER : α := -(11 / 10)

/-- The macro `NOT_FOUND`, the number -1.0. -/
def NOT_FOUND : α := -1

/-- The dot product of the first `n` components of two vectors. -/
def _dotProduct (vec1 vec2 : List α) (n : Nat) : α :=
  (List.range n).foldl (fun sum i => sum + vec1.getD i 0 * vec2.getD i 0) 0

/-- The access `_userRating[userName]`. -/
def userRatingAt (s : RecommenderSystem α) (userName : String) :
    List (String × α) × RecommenderSystem α :=
  let r := subscript [] s._userRating userName
  (r.1, { s with _userRating := r.2 })

/-- The access `_dataCharacteristics[movieName]`. -/
def dataCharacteristicsAt (s : RecommenderSystem α) (movieName : String) :
    List α × RecommenderSystem α :=
  let r := subscript [] s._dataCharacteristics movieName
  (r.1, { s with _dataCharacteristics := r.2 })

/-- The access `_movieNamesByOrder[i]`. -/
def movieNamesByOrderAt (s : RecommenderSystem α) (i : Nat) : String × RecommenderSystem α :=
  let r := subscript "" s._movieNamesByOrder i
  (r.1, { s with _movieNamesByOrder := r.2 })

/-- The access `_userRating[userName][movieName]`. -/
def ratingAt (s : RecommenderSystem α) (userName movieName : String) :
    α × RecommenderSystem α :=
  let u := userRatingAt s userName
  let r := subscript 0 u.1 movieName
  (r.1, { u.2 with _userRating := assign u.2._userRating userName r.2 })

/-- The test `_userRating[userName].find(movieName) == _userRating[userName].end()`. -/
def notRated (s : RecommenderSystem α) (userName movieName : String) :
    Bool × RecommenderSystem α :=
  let u := userRatingAt s userName
  ((find u.1 movieName).isNone, u.2)

/-- The norm of `vec`, taken from `_keepsNorms` when `movieName` has an entry there,
computed otherwise and then stored unless the name is `NOT_MOVIE`. -/
def getNormAndKeepIfNotExit (s : RecommenderSystem α) (vec : List α) (movieName : String) :
    α × RecommenderSystem α :=
  match find s._keepsNorms movieName with
  | some norm => (norm, s)
  | none =>
    let normInSquered := _dotProduct vec vec s._numOfCharacteristics
    let norm := HasSqrt.sqrt normInSquered
    if movieName ≠ NOT_MOVIE then
      (norm, { s with _keepsNorms := assign s._keepsNorms movieName norm })
    else
      (norm, s)

/-- The similarity of two vectors; the norm of `vec1` is requested first, then that of
`vec2`. -/
def getSimilierValue (s : RecommenderSystem α) (vec1 : List α) (movie1 : String)
    (vec2 : List α) (movie2 : String) : α × RecommenderSystem α :=
  let n := s._numOfCharacteristics
  let dotProductScalar := _dotProduct vec1 vec2 n
  let n1 := getNormAndKeepIfNotExit s vec1 movie1
  let n2 := getNormAndKeepIfNotExit n1.2 vec2 movie2
  let multuplyNorms := n1.1 * n2.1
  (dotProductScalar / multuplyNorms, n2.2)

/-- One round of the inner loop of `recommendByContent` that builds the preference
vector: `vecPreferences[i] += (rating.second - average) * _dataCharacteristics[rating.first][i]`. -/
def preferenceStep (average : α) (rating : String × α)
    (acc : List α × RecommenderSystem α) (i : Nat) : List α × RecommenderSystem α :=
  let f := dataCharacteristicsAt acc.2 rating.1
  (acc.1.set i (acc.1.getD i 0 + (rating.2 - average) * f.1.getD i 0), f.2)

/-- The preference vector of `recommendByContent`: the loop over the ratings of the user
around the loop over the components. -/
def preferenceVector (s : RecommenderSystem α) (ratings : List (String × α)) (average : α) :
    List α × RecommenderSystem α :=
  ratings.foldl
    (fun acc rating =>
      (List.range s._numOfCharacteristics).foldl (preferenceStep average rating) acc)
    (List.replicate s._numOfCharacteristics 0, s)

/-- One round of the scan of `recommendByContent`; the accumulator is `winMovie`, `max`
and the object state. -/
def contentStep (userName : String) (vecPreferences : List α)
    (acc : String × α × RecommenderSystem α) (i : Nat) : String × α × RecommenderSystem α :=
  let c := movieNamesByOrderAt acc.2.2 i
  let curMovie := c.1
  let t := notRated c.2 userName curMovie
  if t.1 then
    let f := dataCharacteristicsAt t.2 curMovie
    let curent := getSimilierValue f.2 vecPreferences NOT_MOVIE f.1 curMovie
    if curent.1 > acc.2.1 then (curMovie, curent.1, curent.2) else (acc.1, acc.2.1, curent.2)
  else
    (acc.1, acc.2.1, t.2)

/-- The method `recommendByContent`. -/
def recommendByContent (s : RecommenderSystem α) (userName : String) :
    String × RecommenderSystem α :=
  if (find s._userRating userName).isNone then
    (MSG_ERROR_NOT_FOUND, s)
  else
    let u := userRatingAt s userName
    let average := u.1.foldl (fun value p => value + p.2) 0 / (u.1.length : α)
    let v := preferenceVector u.2 u.1 average
    let r := (List.range v.2._numOfMovies).foldl (contentStep userName v.1)
      ("", INIT_SIMILIER, v.2)
    (r.1, r.2.2)

/-- The insertion `setK.insert(p)` into a multimap: before the first pair with a larger
key. -/
def multimapInsert (p : α × String) : List (α × String) → List (α × String)
  | [] => [p]
  | q :: m => if p.1 < q.1 then p :: q :: m else q :: multimapInsert p m

/-- One round of the first loop of `predictMovieScoreForUser`: the similarity of the movie
and a rated movie goes into `setK`. -/
def similarityStep (movieName : String)
    (acc : List (α × String) × RecommenderSystem α) (it : String × α) :
    List (α × String) × RecommenderSystem α :=
  let f1 := dataCharacteristicsAt acc.2 movieName
  let f2 := dataCharacteristicsAt f1.2 it.1
  let similier := getSimilierValue f2.2 f1.1 movieName f2.1 it.1
  (multimapInsert (similier.1, it.1) acc.1, similier.2)

/-- One round of the second loop of `predictMovieScoreForUser`; the accumulator is `mone`,
`mechane` and the object state. -/
def weightStep (userName : String) (acc : α × α × RecommenderSystem α) (it : α × String) :
    α × α × RecommenderSystem α :=
  let r := ratingAt acc.2.2 userName it.2
  (acc.1 + it.1 * r.1, acc.2.1 + it.1, r.2)

/-- The method `predictMovieScoreForUser`. -/
def predictMovieScoreForUser (s : RecommenderSystem α) (movieName userName : String)
    (k : Nat) : α × RecommenderSystem α :=
  if (find s._dataCharacteristics movieName).isNone ∨ (find s._userRating userName).isNone then
    (NOT_FOUND, s)
  else
    let u := userRatingAt s userName
    let setK := u.1.foldl (similarityStep movieName) ([], u.2)
    let w := (setK.1.reverse.take k).foldl (weightStep userName) (0, 0, setK.2)
    (w.1 / w.2.1, w.2.2)

/-- One round of the scan of `recommendByCF`; the accumulator is `currentMovieReturn`,
`curSum` and the object state. -/
def cfStep (userName : String) (k : Nat)
    (acc : String × α × RecommenderSystem α) (i : Nat) : String × α × RecommenderSystem α :=
  let c := movieNamesByOrderAt acc.2.2 i
  let curMovie := c.1
  let t := notRated c.2 userName curMovie
  if t.1 then
    let similier := predictMovieScoreForUser t.2 curMovie userName k
    if similier.1 > acc.2.1 then (curMovie, similier.1, similier.2)
    else (acc.1, acc.2.1, similier.2)
  else
    (acc.1, acc.2.1, t.2)

/-- The method `recommendByCF`. -/
def recommendByCF (s : RecommenderSystem α) (userName : String) (k : Nat) :
    String × RecommenderSystem α :=
  if (find s._userRating userName).isNone then
    (MSG_ERROR_NOT_FOUND, s)
  else
    let r := (List.range s._numOfMovies).foldl (cfStep userName k) ("", 0, s)
    (r.1, r.2.2)

/-! ## What a query can observe of the object state

The accesses through `operator[]` may insert value-initialised entries and the norm
computation fills `_keepsNorms`.  The functions below are the values these accesses
yield; they are the same before and after such insertions. -/

/-- The vector that `_dataCharacteristics[movieName]` yields. -/
def feat (s : RecommenderSystem α) (movieName : String) : List α :=
  (find s._dataCharacteristics movieName).getD []

/-- The name that `_movieNamesByOrder[i]` yields. -/
def movieAt (s : RecommenderSystem α) (i : Nat) : String :=
  (find s._movieNamesByOrder i).getD ""

/-- The ratings that `_userRating[userName]` yields. -/
def ratingsOf (s : RecommenderSystem α) (userName : String) : List (String × α) :=
  (find s._userRating userName).getD []

/-- The norm that `getNormAndKeepIfNotExit` yields for `vec` under the name `movieName`. -/
def normOf (s : RecommenderSystem α) (vec : List α) (movieName : String) : α :=
  match find s._keepsNorms movieName with
  | some norm => norm
  | none => HasSqrt.sqrt (_dotProduct vec vec s._numOfCharacteristics)

/-- The similarity that `getSimilierValue` yields for two stored movies. -/
def similarity (s : RecommenderSystem α) (movie1 movie2 : String) : α :=
  _dotProduct (feat s movie1) (feat s movie2) s._numOfCharacteristics /
    (normOf s (feat s movie1) movie1 * normOf s (feat s movie2) movie2)

/-- The similarity that `getSimilierValue` yields for the preference vector, passed under
the name `NOT_MOVIE`, and a stored movie. -/
def tasteSimilarity (s : RecommenderSystem α) (vecPreferences : List α) (movie : String) : α :=
  _dotProduct vecPreferences (feat s movie) s._numOfCharacteristics /
    (normOf s vecPreferences NOT_MOVIE * normOf s (feat s movie) movie)

/-- Two object states that no query can tell apart. -/
def Same (s s' : RecommenderSystem α) : Prop :=
  s'._userRating = s._userRating ∧ s'._numOfMovies = s._numOfMovies ∧
  s'._numOfCharacteristics = s._numOfCharacteristics ∧
  (∀ name, feat s' name = feat s name) ∧ (∀ i, movieAt s' i = movieAt s i) ∧
  (∀ name, normOf s' (feat s name) name = normOf s (feat s name) name) ∧
  find s'._keepsNorms NOT_MOVIE = find s._keepsNorms NOT_MOVIE

/-- The state `s'` has the feature vectors of `s` and possibly empty vectors for
movies that `userName` rated and that `s` does not have. -/
def SameFor (userName : String) (s s' : RecommenderSystem α) : Prop :=
  Same s s' ∧ ∀ name, find (ratingsOf s userName) name = none →
    find s'._dataCharacteristics name = find s._dataCharacteristics name

/-! ## The queries as functions of the observations -/

/-- One round of a scan for the best candidate: the candidate `i` replaces the current
choice when it is admissible and its score is strictly larger. -/
def scanStep (name : Nat → String) (ok : Nat → Bool) (score : Nat → α)
    (acc : String × α) (i : Nat) : String × α :=
  if ok i then (if score i > acc.2 then (name i, score i) else acc) else acc

/-- The scan for the best candidate among the indices below `n`, from the empty name and
the score `init`. -/
def scan (name : Nat → String) (ok : Nat → Bool) (score : Nat → α) (init : α) (n : Nat) :
    String × α :=
  (List.range n).foldl (scanStep name ok score) ("", init)

/-- The multimap `setK` of `predictMovieScoreForUser` after its first loop. -/
def neighbours (s : RecommenderSystem α) (movieName : String) (ratings : List (String × α)) :
    List (α × String) :=
  ratings.foldl (fun setK it => multimapInsert (similarity s movieName it.1, it.1) setK) []

/-- The sums `mone` and `mechane` of `predictMovieScoreForUser` over the pairs `sel`. -/
def weighted (ratings : List (String × α)) (sel : List (α × String)) : α × α :=
  sel.foldl (fun acc it => (acc.1 + it.1 * (find ratings it.2).getD 0, acc.2 + it.1)) (0, 0)

/-- The number that `predictMovieScoreForUser` returns. -/
def predictScore (s : RecommenderSystem α) (movieName userName : String) (k : Nat) : α :=
  if (find s._dataCharacteristics movieName).isNone ∨ (find s._userRating userName).isNone then
    NOT_FOUND
  else
    let w := weighted (ratingsOf s userName)
      ((neighbours s movieName (ratingsOf s userName)).reverse.take k)
    w.1 / w.2

/-- The preference vector that `recommendByContent` builds for a user. -/
def tasteVector (s : RecommenderSystem α) (userName : String) : List α :=
  let ratings := ratingsOf s userName
  (preferenceVector s ratings
    (ratings.foldl (fun value p => value + p.2) 0 / (ratings.length : α))).1

/-- The user has no rating for the movie. -/
def unrated (s : RecommenderSystem α) (userName movieName : String) : Bool :=
  (find (ratingsOf s userName) movieName).isNone

/-! ## Exact arithmetic and coherent caches -/

/-- The square root is exact at `x`: it is the non-negative number whose square is `x`. -/
def ExactSqrt (x : α) : Prop :=
  0 ≤ HasSqrt.sqrt x ∧ HasSqrt.sqrt x * HasSqrt.sqrt x = x

/-- The cosine of the angle of two vectors of dimension `n`, computed without a cache. -/
def cosine (n : Nat) (a b : List α) : α :=
  _dotProduct a b n / (HasSqrt.sqrt (_dotProduct a a n) * HasSqrt.sqrt (_dotProduct b b n))

/-- Every entry of `_keepsNorms` is the norm of the stored feature vector of its movie, and
there is no entry under the name `NOT_MOVIE`. -/
def CacheCoherent (s : RecommenderSystem α) : Prop :=
  find s._keepsNorms NOT_MOVIE = none ∧
  ∀ name x, find s._keepsNorms name = some x →
    x = HasSqrt.sqrt (_dotProduct (feat s name) (feat s name) s._numOfCharacteristics)

/-! ## Store invariants and what a query may change -/

/-- The invariants of loaded tables: every rated movie and every movie of
`_movieNamesByOrder` has a feature vector, and `_movieNamesByOrder` has a name at every
index below `_numOfMovies`. -/
def StoresValid (s : RecommenderSystem α) : Prop :=
  (∀ e ∈ s._userRating, ∀ p ∈ e.2, find s._dataCharacteristics p.1 ≠ none) ∧
  (∀ e ∈ s._movieNamesByOrder, find s._dataCharacteristics e.2 ≠ none) ∧
  (∀ i < s._numOfMovies, find s._movieNamesByOrder i ≠ none)

/-- The state `s'` has the tables of `s`, and every entry of the norm cache of `s` is in
the norm cache of `s'` with the same value. -/
def Frame (s s' : RecommenderSystem α) : Prop :=
  s'._dataCharacteristics = s._dataCharacteristics ∧ s'._userRating = s._userRating ∧
  s'._movieNamesByOrder = s._movieNamesByOrder ∧ s'._numOfMovies = s._numOfMovies ∧
  s'._numOfCharacteristics = s._numOfCharacteristics ∧
  ∀ name x, find s._keepsNorms name = some x → find s'._keepsNorms name = some x

/-! ## The queries with the cosine computed afresh

The reference against which the memoised norms are compared: the same steps as the
queries, every similarity being `dot(a, b) / (sqrt(dot(a, a)) * sqrt(dot(b, b)))`. -/

/-- The pairs of similarity and rated movie in ascending order of similarity, the
similarity computed without a cache. -/
def uncachedNeighbours (s : RecommenderSystem α) (movieName : String)
    (ratings : List (String × α)) : List (α × String) :=
  ratings.foldl (fun setK it => multimapInsert
    (cosine s._numOfCharacteristics (feat s movieName) (feat s it.1), it.1) setK) []

/-- The predicted score with the similarities computed without a cache: -1 for a missing
movie or user, otherwise the weighted average over the `k` nearest rated movies. -/
def uncachedPredictScore (s : RecommenderSystem α) (movieName userName : String) (k : Nat) :
    α :=
  if (find s._dataCharacteristics movieName).isNone ∨ (find s._userRating userName).isNone then
    NOT_FOUND
  else
    let w := weighted (ratingsOf s userName)
      ((uncachedNeighbours s movieName (ratingsOf s userName)).reverse.take k)
    w.1 / w.2

/-- The content based recommendation with the similarities computed without a cache. -/
def uncachedRecommendByContent (s : RecommenderSystem α) (userName : String) : String :=
  if (find s._userRating userName).isNone then
    MSG_ERROR_NOT_FOUND
  else
    (scan (movieAt s) (fun j => unrated s userName (movieAt s j))
      (fun j => cosine s._numOfCharacteristics (tasteVector s userName) (feat s (movieAt s j)))
      INIT_SIMILIER s._numOfMovies).1

/-- The collaborative filtering recommendation with the similarities computed without a
cache. -/
def uncachedRecommendByCF (s : RecommenderSystem α) (userName : String) (k : Nat) : String :=
  if (find s._userRating userName).isNone then
    MSG_ERROR_NOT_FOUND
  else
    (scan (movieAt s) (fun j => unrated s userName (movieAt s j))
      (fun j => uncachedPredictScore s (movieAt s j) userName k) 0 s._numOfMovies).1

end RecommenderSystem

/-! ## Sequences of calls -/

/-- A call of one of the three queries. -/
inductive Query where
  /-- The call `recommendByContent(userName)`. -/
  | content (userName : String)
  /-- The call `predictMovieScoreForUser(movieName, userName, k)`. -/
  | predict (movieName userName : String) (k : Nat)
  /-- The call `recommendByCF(userName, k)`. -/
  | cf (userName : String) (k : Nat)

/-- A call of one of the five public methods that work on the loaded tables. -/
inductive Call (α : Type) where
  /-- The call `getNormAndKeepIfNotExit(vec, movieName)`. -/
  | norm (vec : List α) (movieName : String)
  /-- The call `getSimilierValue(vec1, movie1, vec2, movie2)`. -/
  | similarity (vec1 : List α) (movie1 : String) (vec2 : List α) (movie2 : String)
  /-- A call of a query. -/
  | query (q : Query)

namespace RecommenderSystem

variable {α : Type} [Zero α] [One α] [Add α] [Sub α] [Mul α] [Div α] [Neg α] [NatCast α]
  [LT α] [LE α] [DecidableRel (fun a b : α => a < b)] [HasSqrt α]

/-- The object state after a query. -/
def runQuery (s : RecommenderSystem α) : Query → RecommenderSystem α
  | .content userName => (recommendByContent s userName).2
  | .predict movieName userName k => (predictMovieScoreForUser s movieName userName k).2
  | .cf userName k => (recommendByCF s userName k).2

/-- The object state after a sequence of queries. -/
def runQueries (s : RecommenderSystem α) (qs : List Query) : RecommenderSystem α :=
  qs.foldl runQuery s

/-- The object state after a call. -/
def runCall (s : RecommenderSystem α) : Call α → RecommenderSystem α
  | .norm vec movieName => (getNormAndKeepIfNotExit s vec movieName).2
  | .similarity vec1 movie1 vec2 movie2 => (getSimilierValue s vec1 movie1 vec2 movie2).2
  | .query q => runQuery s q

/-- The object state after a sequence of calls. -/
def runCalls (s : RecommenderSystem α) (cs : List (Call α)) : RecommenderSystem α :=
  cs.foldl runCall s

end RecommenderSystem

/-! ## The arithmetic of doubles

The values and the operations of IEEE 754 binary64 with the default rounding, as far as the
queries use them.  The negative zero is not told from the positive one. -/

/-- A value of the type `double` of IEEE 754 (binary64): a finite number, an infinity or a
NaN.  The two zeros are one value. -/
inductive Binary64 where
  /-- A finite value. -/
  | finite (q : ℚ)
  /-- Positive infinity. -/
  | posInf
  /-- Negative infinity. -/
  | negInf
  /-- Not a number. -/
  | nan
  deriving DecidableEq

namespace Binary64

/-- The power `2 ^ e` for an integer `e`. -/
def pow2 (e : ℤ) : ℚ :=
  if 0 ≤ e then ((2 ^ e.toNat : ℕ) : ℚ) else 1 / ((2 ^ (-e).toNat : ℕ) : ℚ)

/-- The number of halvings that bring `n` below 2, at most `fuel` of them. -/
def log2Fuel : ℕ → ℕ → ℕ
  | 0, _ => 0
  | fuel + 1, n => if 2 ≤ n then log2Fuel fuel (n / 2) + 1 else 0

/-- The integer `e` with `2 ^ e ≤ n < 2 ^ (e + 1)`, for a positive `n`. -/
def log2 (n : ℕ) : ℕ := log2Fuel n n

/-- The integer `e` with `2 ^ e ≤ a < 2 ^ (e + 1)`, for a positive `a`. -/
def exponent (a : ℚ) : ℤ :=
  let e0 : ℤ := (log2 a.num.toNat : ℤ) - (log2 a.den : ℤ)
  if pow2 e0 ≤ a then e0 else e0 - 1

/-- The integer nearest to a non-negative `m`, the even one of two nearest. -/
def roundHalfEven (m : ℚ) : ℕ :=
  let f : ℕ := m.num.toNat / m.den
  let d : ℚ := m - (f : ℚ)
  if d < 1 / 2 then f else if 1 / 2 < d then f + 1 else if f % 2 = 0 then f else f + 1

/-- The value nearest to a non-negative number: 53 significant bits, exponents from
-1022, ties to even, overflow to infinity. -/
def roundNonneg (a : ℚ) : Binary64 :=
  if a = 0 then finite 0
  else
    let e : ℤ := max (exponent a) (-1022)
    let u : ℚ := pow2 (e - 52)
    let r : ℚ := (roundHalfEven (a / u) : ℚ) * u
    if pow2 1024 ≤ r then posInf else finite r

/-- The negation. -/
def neg : Binary64 → Binary64
  | finite q => finite (-q)
  | posInf => negInf
  | negInf => posInf
  | nan => nan

/-- The value nearest to a number (round to nearest, ties to even). -/
def round (q : ℚ) : Binary64 :=
  if 0 ≤ q then roundNonneg q else neg (roundNonneg (-q))

/-- The sum. -/
def add : Binary64 → Binary64 → Binary64
  | nan, _ => nan
  | _, nan => nan
  | posInf, negInf => nan
  | negInf, posInf => nan
  | posInf, _ => posInf
  | _, posInf => posInf
  | negInf, _ => negInf
  | _, negInf => negInf
  | finite a, finite b => round (a + b)

/-- The infinity with the sign of the product of two signs, `nan` when one is 0. -/
def signedInf (a b : ℚ) : Binary64 :=
  if a = 0 ∨ b = 0 then nan else if (0 < a) = (0 < b) then posInf else negInf

/-- The product. -/
def mul : Binary64 → Binary64 → Binary64
  | nan, _ => nan
  | _, nan => nan
  | finite a, finite b => round (a * b)
  | finite a, posInf => signedInf a 1
  | finite a, negInf => signedInf a (-1)
  | posInf, finite b => signedInf 1 b
  | negInf, finite b => signedInf (-1) b
  | posInf, posInf => posInf
  | negInf, negInf => posInf
  | posInf, negInf => negInf
  | negInf, posInf => negInf

/-- The quotient; a zero divisor counts as positive. -/
def div : Binary64 → Binary64 → Binary64
  | nan, _ => nan
  | _, nan => nan
  | finite a, finite b =>
    if b = 0 then (if a = 0 then nan else if 0 < a then posInf else negInf)
    else round (a / b)
  | finite _, posInf => finite 0
  | finite _, negInf => finite 0
  | posInf, finite b => if 0 ≤ b then posInf else negInf
  | negInf, finite b => if 0 ≤ b then negInf else posInf
  | posInf, posInf => nan
  | posInf, negInf => nan
  | negInf, posInf => nan
  | negInf, negInf => nan

/-- The comparison `<`, false when an operand is a NaN. -/
def lt : Binary64 → Binary64 → Bool
  | nan, _ => false
  | _, nan => false
  | finite a, finite b => decide (a < b)
  | finite _, posInf => true
  | finite _, negInf => false
  | posInf, _ => false
  | negInf, negInf => false
  | negInf, _ => true

/-- The bits of the integer square root of `n` from bit `b - 1` down, `r` being the bits
found above them. -/
def sqrtBits (n : ℕ) : ℕ → ℕ → ℕ
  | 0, r => r
  | b + 1, r => if (r + 2 ^ b) * (r + 2 ^ b) ≤ n then sqrtBits n b (r + 2 ^ b) else sqrtBits n b r

/-- The integer square root: the largest `k` with `k * k ≤ n`. -/
def isqrt (n : ℕ) : ℕ := sqrtBits n (log2 n / 2 + 1) 0

/-- The correctly rounded square root. -/
def sqrt : Binary64 → Binary64
  | nan => nan
  | negInf => nan
  | posInf => posInf
  | finite a =>
    if a < 0 then nan
    else if a = 0 then finite 0
    else
      let e : ℤ := Int.fdiv (exponent a) 2
      let u : ℚ := pow2 (e - 52)
      let t : ℚ := a / (u * u)
      let k : ℕ := isqrt (t.num.toNat / t.den)
      let c : ℚ := 4 * t
      let h : ℚ := (((2 * k + 1) ^ 2 : ℕ) : ℚ)
      let n : ℕ := if c < h then k else if h < c then k + 1 else if k % 2 = 0 then k else k + 1
      finite ((n : ℚ) * u)

instance : Zero Binary64 := ⟨finite 0⟩
instance : One Binary64 := ⟨finite 1⟩
instance : Add Binary64 := ⟨add⟩
instance : Sub Binary64 := ⟨fun a b => add a (neg b)⟩
instance : Mul Binary64 := ⟨mul⟩
instance : Div Binary64 := ⟨div⟩
instance : Neg Binary64 := ⟨neg⟩
instance : NatCast Binary64 := ⟨fun n => round (n : ℚ)⟩
instance : LT Binary64 := ⟨fun a b => lt a b = true⟩
instance : DecidableRel (fun a b : Binary64 => a < b) :=
  fun a b => inferInstanceAs (Decidable (lt a b = true))

end Binary64

instance : HasSqrt Binary64 := ⟨Binary64.sqrt⟩

/-! ## Sample data

Rational numbers with the rational square root, which is exact on squares, serve to
evaluate the queries on concrete tables. -/

instance : HasSqrt ℚ := ⟨Rat.sqrt⟩

/-- Four movies with two features each; the user `u` rated two of them, the user `w` all
of them.  Nothing is cached. -/
def sample : RecommenderSystem ℚ :=
  { _dataCharacteristics := [("A", [3, 0]), ("B", [0, 4]), ("C", [1, 0]), ("E", [0, 1])]
    _userRating := [("u", [("A", 4), ("B", 2)]),
      ("w", [("A", 4), ("B", 2), ("C", 5), ("E", 1)])]
    _movieNamesByOrder := [(0, "A"), (1, "B"), (2, "C"), (3, "E")]
    _numOfMovies := 4
    _numOfCharacteristics := 2
    _keepsNorms := [] }

/-- Four movies on one axis; the user `u` rated `A`, `B` and `C` with 1, 3 and 1, and the
movie `B` points away from the unrated movie `Q`. -/
def signFlip : RecommenderSystem ℚ :=
  { _dataCharacteristics := [("A", [1, 0]), ("B", [-1, 0]), ("C", [2, 0]), ("Q", [1, 0])]
    _userRating := [("u", [("A", 1), ("B", 3), ("C", 1)])]
    _movieNamesByOrder := [(0, "A"), (1, "B"), (2, "C"), (3, "Q")]
    _numOfMovies := 4
    _numOfCharacteristics := 2
    _keepsNorms := [] }

/-- The tables of the scenario of three movies `A`, `B` and `C`, of which the user `u`
rated `A` with 5 and `B` with 1. -/
def scenario : RecommenderSystem ℚ :=
  { _dataCharacteristics := [("A", [1, 0]), ("B", [0, 1]), ("C", [1, 1])]
    _userRating := [("u", [("A", 5), ("B", 1)])]
    _movieNamesByOrder := [(0, "A"), (1, "B"), (2, "C")]
    _numOfMovies := 3
    _numOfCharacteristics := 2
    _keepsNorms := [] }

/-- The rated movies `A` and `B` are equally similar to the unrated movie `Q`; the ratings
of the user `u` are enumerated `A`, `B`. -/
def tie : RecommenderSystem ℚ :=
  { _dataCharacteristics := [("Q", [1, 0]), ("A", [1, 0]), ("B", [2, 0])]
    _userRating := [("u", [("A", 5), ("B", 1)])]
    _movieNamesByOrder := [(0, "A"), (1, "B"), (2, "Q")]
    _numOfMovies := 3
    _numOfCharacteristics := 2
    _keepsNorms := [] }

/-- The tables of `tie` with the ratings of the user `u` enumerated `B`, `A`. -/
def tieSwapped : RecommenderSystem ℚ :=
  { tie with _userRating := [("u", [("B", 1), ("A", 5)])] }

/-- Doubles: the movie `Q` at 45 degrees to the only rated movie `A`, which the user `u`
rated with 7. -/
def oneNeighbour : RecommenderSystem Binary64 :=
  { _dataCharacteristics := [("Q", [1, 1]), ("A", [1, 0])]
    _userRating := [("u", [("A", 7)])]
    _movieNamesByOrder := [(0, "A"), (1, "Q")]
    _numOfMovies := 2
    _numOfCharacteristics := 2
    _keepsNorms := [] }

/-- Doubles: the user `u` rated `A`, `B` and `C` with 1, 6 and 1; the features of `A` and
`C` mirror each other, so that in exact arithmetic the preference vector is `[5, 5]` and
the unrated movies `E` and `F` are equally similar to it.  The ratings are enumerated
`A`, `B`, `C`. -/
def mirrored : RecommenderSystem Binary64 :=
  { _dataCharacteristics :=
      [("A", [1, 2]), ("B", [3, 3]), ("C", [2, 1]), ("E", [1, 0]), ("F", [0, 1])]
    _userRating := [("u", [("A", 1), ("B", 6), ("C", 1)])]
    _movieNamesByOrder := [(0, "A"), (1, "B"), (2, "C"), (3, "E"), (4, "F")]
    _numOfMovies := 5
    _numOfCharacteristics := 2
    _keepsNorms := [] }

/-- The tables of `mirrored` with the ratings of the user `u` enumerated `C`, `B`, `A`. -/
def mirroredSwapped : RecommenderSystem Binary64 :=
  { mirrored with _userRating := [("u", [("C", 1), ("B", 6), ("A", 1)])] }

/-- The tables of `mirrored` in exact arithmetic. -/
def mirroredExact : RecommenderSystem ℚ :=
  { _dataCharacteristics :=
      [("A", [1, 2]), ("B", [3, 3]), ("C", [2, 1]), ("E", [1, 0]), ("F", [0, 1])]
    _userRating := [("u", [("A", 1), ("B", 6), ("C", 1)])]
    _movieNamesByOrder := [(0, "A"), (1, "B"), (2, "C"), (3, "E"), (4, "F")]
    _numOfMovies := 5
    _numOfCharacteristics := 2
    _keepsNorms := [] }

/-- The tables of `scenario` in doubles. -/
def scenario64 : RecommenderSystem Binary64 :=
  { _dataCharacteristics := [("A", [1, 0]), ("B", [0, 1]), ("C", [1, 1])]
    _userRating := [("u", [("A", 5), ("B", 1)])]
    _movieNamesByOrder := [(0, "A"), (1, "B"), (2, "C")]
    _numOfMovies := 3
    _numOfCharacteristics := 2
    _keepsNorms := [] }

/-- Doubles: three rated movies with one and the same feature vector, rated 1, 5 and 4 and
enumerated `A`, `B`, `C`, and the unrated movie `Q` at 45 degrees to them. -/
def equalNeighbours : RecommenderSystem Binary64 :=
  { _dataCharacteristics := [("Q", [1, 1]), ("A", [1, 0]), ("B", [1, 0]), ("C", [1, 0])]
    _userRating := [("u", [("A", 1), ("B", 5), ("C", 4)])]
    _movieNamesByOrder := [(0, "A"), (1, "B"), (2, "C"), (3, "Q")]
    _numOfMovies := 4
    _numOfCharacteristics := 2
    _keepsNorms := [] }

/-- The tables of `equalNeighbours` with the ratings of the user `u` enumerated `C`, `B`,
`A`. -/
def equalNeighboursSwapped : RecommenderSystem Binary64 :=
  { equalNeighbours with _userRating := [("u", [("C", 4), ("B", 5), ("A", 1)])] }

end RecSys

namespace RecSys

/-! ## Facts about the containers -/

section Containers
variable {κ β : Type} [DecidableEq κ]

theorem find_append (m m' : List (κ × β)) (k : κ) :
    find (m ++ m') k = (find m k).orElse (fun _ => find m' k) := by
  induction m with
  | nil => simp [find]
  | cons p m ih =>
    obtain ⟨k', v⟩ := p
    by_cases h : k' = k <;> simp [find, h, ih]

theorem subscript_fst (d : β) (m : List (κ × β)) (k : κ) :
    (subscript d m k).1 = (find m k).getD d := by
  unfold subscript
  cases h : find m k <;> simp

theorem subscript_snd_of_find {d : β} {m : List (κ × β)} {k : κ} {v : β}
    (h : find m k = some v) : (subscript d m k).2 = m := by
  simp [subscript, h]

theorem find_subscript_snd (d : β) (m : List (κ × β)) (k k' : κ) :
    (find (subscript d m k).2 k').getD d = (find m k').getD d := by
  unfold subscript
  cases h : find m k with
  | some v => simp
  | none =>
    simp only [find_append]
    cases h' : find m k' with
    | some w => simp
    | none =>
      by_cases hk : k = k'
      · simp [find, hk]
      · simp [find, hk]

theorem replaceValue_self {m : List (κ × β)} {k : κ} {v : β} (h : find m k = some v) :
    replaceValue m k v = m := by
  induction m with
  | nil => simp [find] at h
  | cons p m ih =>
    obtain ⟨k', v'⟩ := p
    by_cases hk : k' = k
    · simp [find, hk] at h
      simp [replaceValue, hk, h]
    · simp [find, hk] at h
      simp [replaceValue, hk, ih h]

theorem assign_self {m : List (κ × β)} {k : κ} {v : β} (h : find m k = some v) :
    assign m k v = m := by
  simp [assign, h, replaceValue_self h]

theorem find_assign_of_none {m : List (κ × β)} {k : κ} (v : β) (h : find m k = none)
    (k' : κ) : find (assign m k v) k' = if k' = k then some v else find m k' := by
  simp only [assign, h, find_append]
  by_cases hk : k' = k
  · subst hk
    simp [h, find]
  · have hk' : ¬ k = k' := fun e => hk e.symm
    cases h' : find m k' <;> simp [find, hk, hk']

theorem find_of_mem_keys {m : List (κ × β)} {p : κ × β} (h : p ∈ m) :
    ∃ v, find m p.1 = some v := by
  induction m with
  | nil => simp at h
  | cons q m ih =>
    obtain ⟨k', v'⟩ := q
    by_cases hk : k' = p.1
    · exact ⟨v', by simp [find, hk]⟩
    · rcases List.mem_cons.1 h with rfl | h'
      · exact absurd rfl hk
      · obtain ⟨v, hv⟩ := ih h'
        exact ⟨v, by simp [find, hk, hv]⟩

end Containers

namespace RecommenderSystem

variable {α : Type} [Zero α] [One α] [Add α] [Sub α] [Mul α] [Div α] [Neg α] [NatCast α]
  [LT α] [DecidableRel (fun a b : α => a < b)] [HasSqrt α]

/-! ## The accesses and what they observe -/

theorem Same.same_refl (s : RecommenderSystem α) : Same s s :=
  ⟨rfl, rfl, rfl, fun _ => rfl, fun _ => rfl, fun _ => rfl, rfl⟩

theorem Same.andThen {s₁ s₂ s₃ : RecommenderSystem α} (h₁ : Same s₁ s₂) (h₂ : Same s₂ s₃) :
    Same s₁ s₃ := by
  obtain ⟨a1, b1, c1, d1, e1, f1, g1⟩ := h₁
  obtain ⟨a2, b2, c2, d2, e2, f2, g2⟩ := h₂
  refine ⟨a2.trans a1, b2.trans b1, c2.trans c1, fun n => (d2 n).trans (d1 n),
    fun i => (e2 i).trans (e1 i), fun n => ?_, g2.trans g1⟩
  have := f2 n
  rw [d1 n] at this
  exact this.trans (f1 n)

theorem Same.ratingsOf_eq {s s' : RecommenderSystem α} (h : Same s s') (u : String) :
    ratingsOf s' u = ratingsOf s u := by
  simp [RecommenderSystem.ratingsOf, h.1]

theorem Same.normOf_notMovie_eq {s s' : RecommenderSystem α} (h : Same s s') (v : List α) :
    normOf s' v NOT_MOVIE = normOf s v NOT_MOVIE := by
  obtain ⟨_, _, c, _, _, _, g⟩ := h
  simp [normOf, g, c]

theorem Same.similarity_eq {s s' : RecommenderSystem α} (h : Same s s') (m₁ m₂ : String) :
    similarity s' m₁ m₂ = similarity s m₁ m₂ := by
  have hf := h.2.2.2.1
  have hn := h.2.2.2.2.2.1
  simp only [RecommenderSystem.similarity, hf, h.2.2.1, hn]

theorem Same.tasteSimilarity_eq {s s' : RecommenderSystem α} (h : Same s s') (v : List α)
    (m : String) : tasteSimilarity s' v m = tasteSimilarity s v m := by
  have hf := h.2.2.2.1
  have hn := h.2.2.2.2.2.1
  simp only [RecommenderSystem.tasteSimilarity, hf, h.2.2.1, hn, h.normOf_notMovie_eq]

theorem SameFor.sameFor_refl (u : String) (s : RecommenderSystem α) : SameFor u s s :=
  ⟨Same.same_refl s, fun _ _ => rfl⟩

theorem SameFor.andThenFor {u : String} {s₁ s₂ s₃ : RecommenderSystem α} (h₁ : SameFor u s₁ s₂)
    (h₂ : SameFor u s₂ s₃) : SameFor u s₁ s₃ := by
  refine ⟨h₁.1.andThen h₂.1, fun n hn => ?_⟩
  rw [h₂.2 n (by rw [h₁.1.ratingsOf_eq]; exact hn), h₁.2 n hn]

theorem userRatingAt_of_find {s : RecommenderSystem α} {u : String} {r : List (String × α)}
    (h : find s._userRating u = some r) : userRatingAt s u = (r, s) := by
  simp [userRatingAt, subscript, h]

theorem notRated_of_find {s : RecommenderSystem α} {u : String} {r : List (String × α)}
    (h : find s._userRating u = some r) (m : String) :
    notRated s u m = ((find r m).isNone, s) := by
  simp [notRated, userRatingAt_of_find h]

theorem ratingAt_of_find {s : RecommenderSystem α} {u m : String} {r : List (String × α)}
    {x : α} (h : find s._userRating u = some r) (hm : find r m = some x) :
    ratingAt s u m = (x, s) := by
  simp [ratingAt, userRatingAt_of_find h, subscript, hm, assign_self h]

theorem dataCharacteristicsAt_fst (s : RecommenderSystem α) (m : String) :
    (dataCharacteristicsAt s m).1 = feat s m := by
  simp [dataCharacteristicsAt, subscript_fst, feat]

theorem dataCharacteristicsAt_same (s : RecommenderSystem α) (m : String) :
    Same s (dataCharacteristicsAt s m).2 := by
  have hf : ∀ name, feat (dataCharacteristicsAt s m).2 name = feat s name := fun name => by
    simp [dataCharacteristicsAt, feat, find_subscript_snd]
  refine ⟨rfl, rfl, rfl, hf, fun _ => rfl, fun _ => rfl, rfl⟩

theorem dataCharacteristicsAt_find (s : RecommenderSystem α) (m name : String)
    (h : name ≠ m) : find (dataCharacteristicsAt s m).2._dataCharacteristics name =
      find s._dataCharacteristics name := by
  simp only [dataCharacteristicsAt, subscript]
  cases hm : find s._dataCharacteristics m with
  | some v => rfl
  | none =>
    have h' : ¬ m = name := fun e => h e.symm
    simp only [find_append]
    cases find s._dataCharacteristics name <;> simp [find, h']

theorem dataCharacteristicsAt_of_find {s : RecommenderSystem α} {m : String} {v : List α}
    (h : find s._dataCharacteristics m = some v) : dataCharacteristicsAt s m = (v, s) := by
  simp [dataCharacteristicsAt, subscript, h]

theorem movieNamesByOrderAt_fst (s : RecommenderSystem α) (i : Nat) :
    (movieNamesByOrderAt s i).1 = movieAt s i := by
  simp [movieNamesByOrderAt, subscript_fst, movieAt]

theorem movieNamesByOrderAt_same (s : RecommenderSystem α) (i : Nat) :
    Same s (movieNamesByOrderAt s i).2 := by
  have hf : ∀ j, movieAt (movieNamesByOrderAt s i).2 j = movieAt s j := fun j => by
    simp [movieNamesByOrderAt, movieAt, find_subscript_snd]
  refine ⟨rfl, rfl, rfl, fun _ => rfl, hf, fun _ => rfl, rfl⟩

theorem movieNamesByOrderAt_sameFor (u : String) (s : RecommenderSystem α) (i : Nat) :
    SameFor u s (movieNamesByOrderAt s i).2 :=
  ⟨movieNamesByOrderAt_same s i, fun _ _ => rfl⟩

theorem getNormAndKeepIfNotExit_fst (s : RecommenderSystem α) (vec : List α) (m : String) :
    (getNormAndKeepIfNotExit s vec m).1 = normOf s vec m := by
  unfold getNormAndKeepIfNotExit normOf
  cases h : find s._keepsNorms m with
  | some x => rfl
  | none => by_cases hm : m = NOT_MOVIE <;> simp [hm]

theorem getNormAndKeepIfNotExit_notMovie (s : RecommenderSystem α) (vec : List α) :
    (getNormAndKeepIfNotExit s vec NOT_MOVIE).2 = s := by
  unfold getNormAndKeepIfNotExit
  cases h : find s._keepsNorms NOT_MOVIE <;> simp

theorem getNormAndKeepIfNotExit_same (s : RecommenderSystem α) (m : String) :
    Same s (getNormAndKeepIfNotExit s (feat s m) m).2 := by
  unfold getNormAndKeepIfNotExit
  cases h : find s._keepsNorms m with
  | some x => exact Same.same_refl s
  | none =>
    by_cases hm : m = NOT_MOVIE
    · simp only [hm, ne_eq, not_true_eq_false, if_false]
      exact Same.same_refl s
    · simp only [ne_eq, hm, not_false_eq_true, if_true]
      refine ⟨rfl, rfl, rfl, fun _ => rfl, fun _ => rfl, fun name => ?_, ?_⟩
      · simp only [normOf, find_assign_of_none _ h]
        by_cases hn : name = m
        · subst hn
          simp [h]
        · simp [hn]
      · have : ¬ NOT_MOVIE = m := fun e => hm e.symm
        simp [find_assign_of_none _ h, this]

theorem getNormAndKeepIfNotExit_data (s : RecommenderSystem α) (vec : List α) (m : String) :
    (getNormAndKeepIfNotExit s vec m).2._dataCharacteristics = s._dataCharacteristics := by
  unfold getNormAndKeepIfNotExit
  cases h : find s._keepsNorms m with
  | some x => rfl
  | none => by_cases hm : m = NOT_MOVIE <;> simp [hm]

theorem getSimilierValue_movies (s : RecommenderSystem α) (m₁ m₂ : String) :
    (getSimilierValue s (feat s m₁) m₁ (feat s m₂) m₂).1 = similarity s m₁ m₂ ∧
    Same s (getSimilierValue s (feat s m₁) m₁ (feat s m₂) m₂).2 ∧
    (getSimilierValue s (feat s m₁) m₁ (feat s m₂) m₂).2._dataCharacteristics =
      s._dataCharacteristics := by
  have h1 := getNormAndKeepIfNotExit_same s m₁
  have h2 := getNormAndKeepIfNotExit_same (getNormAndKeepIfNotExit s (feat s m₁) m₁).2 m₂
  rw [h1.2.2.2.1 m₂] at h2
  refine ⟨?_, h1.andThen h2, ?_⟩
  · simp only [getSimilierValue, getNormAndKeepIfNotExit_fst, RecommenderSystem.similarity]
    rw [h1.2.2.2.2.2.1 m₂]
  · simp only [getSimilierValue, getNormAndKeepIfNotExit_data]

theorem getSimilierValue_taste (s : RecommenderSystem α) (v : List α) (m : String) :
    (getSimilierValue s v NOT_MOVIE (feat s m) m).1 = tasteSimilarity s v m ∧
    Same s (getSimilierValue s v NOT_MOVIE (feat s m) m).2 := by
  simp only [getSimilierValue, getNormAndKeepIfNotExit_fst, getNormAndKeepIfNotExit_notMovie,
    RecommenderSystem.tasteSimilarity, true_and]
  exact getNormAndKeepIfNotExit_same s m

end RecommenderSystem
end RecSys

namespace RecSys
namespace RecommenderSystem

variable {α : Type} [Zero α] [One α] [Add α] [Sub α] [Mul α] [Div α] [Neg α] [NatCast α]
  [LT α] [DecidableRel (fun a b : α => a < b)] [HasSqrt α]

/-! ## The loops -/

theorem preferenceStep_same (average : α) (rating : String × α)
    (acc : List α × RecommenderSystem α) (i : Nat) :
    Same acc.2 (preferenceStep average rating acc i).2 :=
  dataCharacteristicsAt_same acc.2 rating.1

theorem preferenceInner_same (average : α) (rating : String × α) (is : List Nat) :
    ∀ acc : List α × RecommenderSystem α,
      Same acc.2 (is.foldl (preferenceStep average rating) acc).2 := by
  induction is with
  | nil => intro acc; exact Same.same_refl _
  | cons i is ih =>
    intro acc
    simp only [List.foldl_cons]
    exact (preferenceStep_same average rating acc i).andThen (ih _)

theorem preferenceOuter_same (average : α) (n : Nat) (ratings : List (String × α)) :
    ∀ acc : List α × RecommenderSystem α,
      Same acc.2 (ratings.foldl
        (fun acc rating => (List.range n).foldl (preferenceStep average rating) acc) acc).2 := by
  induction ratings with
  | nil => intro acc; exact Same.same_refl _
  | cons r ratings ih =>
    intro acc
    simp only [List.foldl_cons]
    exact (preferenceInner_same average r _ acc).andThen (ih _)

theorem preferenceVector_same (s : RecommenderSystem α) (ratings : List (String × α))
    (average : α) : Same s (preferenceVector s ratings average).2 :=
  preferenceOuter_same average _ ratings _

theorem contentStep_spec {s : RecommenderSystem α} {u : String} {r : List (String × α)}
    (hu : find s._userRating u = some r) (v : List α)
    (acc : String × α × RecommenderSystem α) (hs : Same s acc.2.2) (i : Nat) :
    ((contentStep u v acc i).1, (contentStep u v acc i).2.1) =
      scanStep (movieAt s) (fun j => (find r (movieAt s j)).isNone)
        (fun j => tasteSimilarity s v (movieAt s j)) (acc.1, acc.2.1) i ∧
    Same s (contentStep u v acc i).2.2 := by
  obtain ⟨w, mx, s'⟩ := acc
  simp only at hs
  have hc := movieNamesByOrderAt_same s' i
  have hname : (movieNamesByOrderAt s' i).1 = movieAt s i := by
    rw [movieNamesByOrderAt_fst, hs.2.2.2.2.1]
  have hu' : find (movieNamesByOrderAt s' i).2._userRating u = some r := by
    rw [hc.1, hs.1]; exact hu
  have ht := notRated_of_find hu' (movieAt s i)
  have hsc := hs.andThen hc
  have hf := dataCharacteristicsAt_same (movieNamesByOrderAt s' i).2 (movieAt s i)
  have hsf := hsc.andThen hf
  have hfeat : (dataCharacteristicsAt (movieNamesByOrderAt s' i).2 (movieAt s i)).1 =
      feat (dataCharacteristicsAt (movieNamesByOrderAt s' i).2 (movieAt s i)).2 (movieAt s i) := by
    rw [dataCharacteristicsAt_fst, hf.2.2.2.1]
  have hg := getSimilierValue_taste
    (dataCharacteristicsAt (movieNamesByOrderAt s' i).2 (movieAt s i)).2 v (movieAt s i)
  rw [← hfeat, hsf.tasteSimilarity_eq] at hg
  simp only [contentStep, hname, ht, scanStep]
  cases hr : (find r (movieAt s i)).isNone
  · exact ⟨by simp, by simpa using hsc⟩
  · simp only [if_true, hg.1]
    by_cases hgt : tasteSimilarity s v (movieAt s i) > mx
    · simp only [hgt, if_true]
      exact ⟨trivial, hsf.andThen hg.2⟩
    · simp only [hgt, if_false]
      exact ⟨trivial, hsf.andThen hg.2⟩

theorem contentFold_spec {s : RecommenderSystem α} {u : String} {r : List (String × α)}
    (hu : find s._userRating u = some r) (v : List α) (is : List Nat) :
    ∀ acc : String × α × RecommenderSystem α, Same s acc.2.2 →
      ((is.foldl (contentStep u v) acc).1, (is.foldl (contentStep u v) acc).2.1) =
        is.foldl (scanStep (movieAt s) (fun j => (find r (movieAt s j)).isNone)
          (fun j => tasteSimilarity s v (movieAt s j))) (acc.1, acc.2.1) ∧
      Same s (is.foldl (contentStep u v) acc).2.2 := by
  induction is with
  | nil => intro acc hs; exact ⟨rfl, hs⟩
  | cons i is ih =>
    intro acc hs
    obtain ⟨h1, h2⟩ := contentStep_spec hu v acc hs i
    simp only [List.foldl_cons]
    have := ih _ h2
    rw [h1] at this
    exact this

theorem recommendByContent_spec {s : RecommenderSystem α} {u : String}
    {r : List (String × α)} (hu : find s._userRating u = some r) :
    (recommendByContent s u).1 =
      (scan (movieAt s) (fun j => unrated s u (movieAt s j))
        (fun j => tasteSimilarity s (tasteVector s u) (movieAt s j))
        INIT_SIMILIER s._numOfMovies).1 ∧
    Same s (recommendByContent s u).2 := by
  have hr : ratingsOf s u = r := by simp [ratingsOf, hu]
  have hv := preferenceVector_same s r
    (r.foldl (fun value p => value + p.2) 0 / (r.length : α))
  have hu' : find (preferenceVector s r
      (r.foldl (fun value p => value + p.2) 0 / (r.length : α))).2._userRating u = some r := by
    rw [hv.1]; exact hu
  have := contentFold_spec hu' (preferenceVector s r
      (r.foldl (fun value p => value + p.2) 0 / (r.length : α))).1
    (List.range s._numOfMovies) ("", INIT_SIMILIER, _) (Same.same_refl _)
  have hm : movieAt (preferenceVector s r
      (r.foldl (fun value p => value + p.2) 0 / (r.length : α))).2 = movieAt s :=
    funext hv.2.2.2.2.1
  simp only [recommendByContent, hu, Option.isNone_some, userRatingAt_of_find hu, hv.2.1,
    scan, tasteVector, hr, unrated]
  refine ⟨?_, hv.andThen this.2⟩
  have h1 := congrArg Prod.fst this.1
  simp only [hm, hv.tasteSimilarity_eq] at h1
  simpa using h1

end RecommenderSystem
end RecSys

namespace RecSys
namespace RecommenderSystem

variable {α : Type} [Zero α] [One α] [Add α] [Sub α] [Mul α] [Div α] [Neg α] [NatCast α]
  [LT α] [DecidableRel (fun a b : α => a < b)] [HasSqrt α]

theorem dataCharacteristicsAt_find_stable (s : RecommenderSystem α) (m name : String)
    (h : name ≠ m ∨ find s._dataCharacteristics m ≠ none) :
    find (dataCharacteristicsAt s m).2._dataCharacteristics name =
      find s._dataCharacteristics name := by
  cases hm : find s._dataCharacteristics m with
  | some v => rw [dataCharacteristicsAt_of_find hm]
  | none =>
    rcases h with h | h
    · exact dataCharacteristicsAt_find s m name h
    · exact absurd hm h

theorem dataCharacteristicsAt_sameFor {u : String} {s s' : RecommenderSystem α}
    (hs : SameFor u s s') (m : String)
    (h : find (ratingsOf s u) m ≠ none ∨ find s._dataCharacteristics m ≠ none) :
    SameFor u s (dataCharacteristicsAt s' m).2 := by
  refine ⟨hs.1.andThen (dataCharacteristicsAt_same s' m), fun name hn => ?_⟩
  rw [dataCharacteristicsAt_find_stable, hs.2 name hn]
  by_cases hnm : name = m
  · subst hnm
    right
    rw [hs.2 name hn]
    rcases h with h | h
    · exact absurd hn h
    · exact h
  · exact Or.inl hnm

theorem similarityStep_spec {u m : String} {s : RecommenderSystem α}
    (hm : find s._dataCharacteristics m ≠ none)
    (acc : List (α × String) × RecommenderSystem α) (hs : SameFor u s acc.2)
    (it : String × α) (hit : find (ratingsOf s u) it.1 ≠ none) :
    (similarityStep m acc it).1 = multimapInsert (similarity s m it.1, it.1) acc.1 ∧
    SameFor u s (similarityStep m acc it).2 := by
  obtain ⟨setK, s'⟩ := acc
  simp only at hs
  have h1 := dataCharacteristicsAt_sameFor hs m (Or.inr hm)
  have h2 := dataCharacteristicsAt_sameFor h1 it.1 (Or.inl hit)
  have e1 : (dataCharacteristicsAt s' m).1 =
      feat (dataCharacteristicsAt (dataCharacteristicsAt s' m).2 it.1).2 m := by
    rw [dataCharacteristicsAt_fst, h2.1.2.2.2.1, hs.1.2.2.2.1]
  have e2 : (dataCharacteristicsAt (dataCharacteristicsAt s' m).2 it.1).1 =
      feat (dataCharacteristicsAt (dataCharacteristicsAt s' m).2 it.1).2 it.1 := by
    rw [dataCharacteristicsAt_fst, h2.1.2.2.2.1, h1.1.2.2.2.1]
  obtain ⟨g1, g2, g3⟩ := getSimilierValue_movies
    (dataCharacteristicsAt (dataCharacteristicsAt s' m).2 it.1).2 m it.1
  rw [← e1, ← e2, h2.1.similarity_eq] at g1
  rw [← e1, ← e2] at g2 g3
  simp only [similarityStep, g1, true_and]
  refine ⟨h2.1.andThen g2, fun name hn => ?_⟩
  rw [g3, h2.2 name hn]

theorem similarityFold_spec {u m : String} {s : RecommenderSystem α}
    (hm : find s._dataCharacteristics m ≠ none) (its : List (String × α)) :
    (∀ it ∈ its, find (ratingsOf s u) it.1 ≠ none) →
    ∀ acc : List (α × String) × RecommenderSystem α, SameFor u s acc.2 →
      (its.foldl (similarityStep m) acc).1 =
        its.foldl (fun setK it => multimapInsert (similarity s m it.1, it.1) setK) acc.1 ∧
      SameFor u s (its.foldl (similarityStep m) acc).2 := by
  induction its with
  | nil => intro _ acc hs; exact ⟨rfl, hs⟩
  | cons it its ih =>
    intro hall acc hs
    obtain ⟨h1, h2⟩ := similarityStep_spec hm acc hs it (hall it (List.mem_cons_self _ _))
    simp only [List.foldl_cons]
    have := ih (fun x hx => hall x (List.mem_cons_of_mem _ hx)) _ h2
    rw [h1] at this
    exact this

theorem weightFold_spec {u : String} {r : List (String × α)} (sel : List (α × String)) :
    (∀ p ∈ sel, find r p.2 ≠ none) →
    ∀ (acc : α × α × RecommenderSystem α), find acc.2.2._userRating u = some r →
      sel.foldl (weightStep u) acc =
        ((sel.foldl (fun a it => (a.1 + it.1 * (find r it.2).getD 0, a.2 + it.1))
            (acc.1, acc.2.1)).1,
         (sel.foldl (fun a it => (a.1 + it.1 * (find r it.2).getD 0, a.2 + it.1))
            (acc.1, acc.2.1)).2, acc.2.2) := by
  induction sel with
  | nil => intro _ acc _; rfl
  | cons p sel ih =>
    intro hall acc hu
    obtain ⟨a, b, s'⟩ := acc
    simp only at hu
    have hp := hall p (List.mem_cons_self _ _)
    obtain ⟨x, hx⟩ := Option.ne_none_iff_exists'.1 hp
    have hstep : weightStep u (a, b, s') p = (a + p.1 * x, b + p.1, s') := by
      simp [weightStep, ratingAt_of_find hu hx]
    simp only [List.foldl_cons, hstep]
    rw [ih (fun q hq => hall q (List.mem_cons_of_mem _ hq)) _ hu]
    simp [hx]

theorem multimapInsert_perm (p : α × String) (l : List (α × String)) :
    (multimapInsert p l).Perm (p :: l) := by
  induction l with
  | nil => simp [multimapInsert]
  | cons q l ih =>
    simp only [multimapInsert]
    split
    · exact List.Perm.refl _
    · exact (List.Perm.cons q ih).trans (List.Perm.swap p q l)

theorem neighboursFold_perm (f : String × α → α × String) (its : List (String × α)) :
    ∀ init : List (α × String),
      (its.foldl (fun setK it => multimapInsert (f it) setK) init).Perm
        (its.map f ++ init) := by
  induction its with
  | nil => intro init; simp
  | cons it its ih =>
    intro init
    simp only [List.foldl_cons, List.map_cons, List.cons_append]
    refine (ih _).trans ?_
    refine (List.Perm.append_left _ (multimapInsert_perm _ _)).trans ?_
    exact List.perm_middle

theorem neighbours_perm (s : RecommenderSystem α) (m : String) (r : List (String × α)) :
    (neighbours s m r).Perm (r.map (fun it => (similarity s m it.1, it.1))) := by
  simpa [neighbours] using
    neighboursFold_perm (fun it : String × α => (similarity s m it.1, it.1)) r []

theorem neighbours_rated (s : RecommenderSystem α) (m : String) (r : List (String × α))
    (p : α × String) (hp : p ∈ neighbours s m r) : find r p.2 ≠ none := by
  have := (neighbours_perm s m r).subset hp
  obtain ⟨it, hit, rfl⟩ := List.mem_map.1 this
  obtain ⟨v, hv⟩ := find_of_mem_keys hit
  simp [hv]

theorem predictMovieScoreForUser_spec (s : RecommenderSystem α) (m u : String) (k : Nat) :
    (predictMovieScoreForUser s m u k).1 = predictScore s m u k ∧
    SameFor u s (predictMovieScoreForUser s m u k).2 := by
  unfold predictMovieScoreForUser predictScore
  by_cases hg : (find s._dataCharacteristics m).isNone ∨ (find s._userRating u).isNone
  · simp only [hg, if_true]
    exact ⟨trivial, SameFor.sameFor_refl u s⟩
  · simp only [hg, if_false]
    have hm : find s._dataCharacteristics m ≠ none := fun e => hg (Or.inl (by simp [e]))
    have hu : find s._userRating u ≠ none := fun e => hg (Or.inr (by simp [e]))
    obtain ⟨r, hr⟩ := Option.ne_none_iff_exists'.1 hu
    have hro : ratingsOf s u = r := by simp [ratingsOf, hr]
    have hrated : ∀ it ∈ r, find (ratingsOf s u) it.1 ≠ none := fun it hit => by
      obtain ⟨v, hv⟩ := find_of_mem_keys hit
      simp [hro, hv]
    obtain ⟨f1, f2⟩ := similarityFold_spec hm r hrated ([], s) (SameFor.sameFor_refl u s)
    have hsel : ∀ p ∈ ((r.foldl (similarityStep m) ([], s)).1.reverse.take k),
        find r p.2 ≠ none := fun p hp => by
      have hp' := List.mem_reverse.1 ((List.take_subset _ _) hp)
      rw [f1] at hp'
      exact neighbours_rated s m r p hp'
    have hu' : find (r.foldl (similarityStep m) ([], s)).2._userRating u = some r := by
      rw [f2.1.1]; exact hr
    have hw := weightFold_spec _ hsel (0, 0, (r.foldl (similarityStep m) ([], s)).2) hu'
    rw [userRatingAt_of_find hr, hw]
    simp only [hro, weighted, neighbours, f1]
    exact ⟨trivial, f2⟩

theorem predictScore_sameFor {u : String} {s s' : RecommenderSystem α} (hs : SameFor u s s')
    (m : String) (hm : find (ratingsOf s u) m = none) (k : Nat) :
    predictScore s' m u k = predictScore s m u k := by
  have hsim : similarity s' = similarity s := by
    funext a b; exact hs.1.similarity_eq a b
  simp only [predictScore, hs.2 m hm, hs.1.1, hs.1.ratingsOf_eq, neighbours, hsim]

theorem cfStep_spec {s : RecommenderSystem α} {u : String} {r : List (String × α)}
    (hu : find s._userRating u = some r) (k : Nat)
    (acc : String × α × RecommenderSystem α) (hs : SameFor u s acc.2.2) (i : Nat) :
    ((cfStep u k acc i).1, (cfStep u k acc i).2.1) =
      scanStep (movieAt s) (fun j => (find r (movieAt s j)).isNone)
        (fun j => predictScore s (movieAt s j) u k) (acc.1, acc.2.1) i ∧
    SameFor u s (cfStep u k acc i).2.2 := by
  obtain ⟨w, mx, s'⟩ := acc
  simp only at hs
  have hr : ratingsOf s u = r := by simp [ratingsOf, hu]
  have hc := movieNamesByOrderAt_sameFor u s' i
  have hname : (movieNamesByOrderAt s' i).1 = movieAt s i := by
    rw [movieNamesByOrderAt_fst, hs.1.2.2.2.2.1]
  have hu' : find (movieNamesByOrderAt s' i).2._userRating u = some r := by
    rw [hc.1.1, hs.1.1]; exact hu
  have ht := notRated_of_find hu' (movieAt s i)
  have hsc := hs.andThenFor hc
  obtain ⟨p1, p2⟩ := predictMovieScoreForUser_spec (movieNamesByOrderAt s' i).2 (movieAt s i) u k
  simp only [cfStep, hname, ht, scanStep]
  cases hn : (find r (movieAt s i)).isNone
  · exact ⟨by simp, by simpa using hsc⟩
  · have hun : find (ratingsOf s u) (movieAt s i) = none := by
      rw [hr]; simpa using hn
    rw [predictScore_sameFor hsc _ hun] at p1
    simp only [if_true, p1]
    by_cases hgt : predictScore s (movieAt s i) u k > mx
    · simp only [hgt, if_true]
      exact ⟨trivial, hsc.andThenFor p2⟩
    · simp only [hgt, if_false]
      exact ⟨trivial, hsc.andThenFor p2⟩

theorem cfFold_spec {s : RecommenderSystem α} {u : String} {r : List (String × α)}
    (hu : find s._userRating u = some r) (k : Nat) (is : List Nat) :
    ∀ acc : String × α × RecommenderSystem α, SameFor u s acc.2.2 →
      ((is.foldl (cfStep u k) acc).1, (is.foldl (cfStep u k) acc).2.1) =
        is.foldl (scanStep (movieAt s) (fun j => (find r (movieAt s j)).isNone)
          (fun j => predictScore s (movieAt s j) u k)) (acc.1, acc.2.1) ∧
      SameFor u s (is.foldl (cfStep u k) acc).2.2 := by
  induction is with
  | nil => intro acc hs; exact ⟨rfl, hs⟩
  | cons i is ih =>
    intro acc hs
    obtain ⟨h1, h2⟩ := cfStep_spec hu k acc hs i
    simp only [List.foldl_cons]
    have := ih _ h2
    rw [h1] at this
    exact this

theorem recommendByCF_spec {s : RecommenderSystem α} {u : String}
    {r : List (String × α)} (hu : find s._userRating u = some r) (k : Nat) :
    (recommendByCF s u k).1 =
      (scan (movieAt s) (fun j => unrated s u (movieAt s j))
        (fun j => predictScore s (movieAt s j) u k) 0 s._numOfMovies).1 ∧
    SameFor u s (recommendByCF s u k).2 := by
  have hr : ratingsOf s u = r := by simp [ratingsOf, hu]
  have := cfFold_spec hu k (List.range s._numOfMovies) ("", 0, s) (SameFor.sameFor_refl u s)
  simp only [recommendByCF, hu, Option.isNone_some, scan, hr, unrated]
  refine ⟨?_, this.2⟩
  have h1 := congrArg Prod.fst this.1
  simpa using h1

end RecommenderSystem
end RecSys

namespace RecSys
namespace RecommenderSystem

variable {α : Type} [LinearOrderedField α] [HasSqrt α]

/-! ## The scan for the best candidate -/

theorem scan_succ (name : Nat → String) (ok : Nat → Bool) (score : Nat → α) (init : α)
    (n : Nat) :
    scan name ok score init (n + 1) = scanStep name ok score (scan name ok score init n) n := by
  simp [scan, List.range_succ, List.foldl_append]

/-- After `n` rounds the scan either still has the empty name and no admissible candidate
beat `init`, or it has the first admissible candidate of maximal score. -/
theorem scan_inv (name : Nat → String) (ok : Nat → Bool) (score : Nat → α) (init : α)
    (n : Nat) :
    (scan name ok score init n = ("", init) ∧ ∀ j < n, ok j = true → score j ≤ init) ∨
    (∃ i < n, ok i = true ∧ scan name ok score init n = (name i, score i) ∧ init < score i ∧
      (∀ j < n, ok j = true → score j ≤ score i) ∧
      (∀ j < i, ok j = true → score j < score i)) := by
  induction n with
  | zero => left; exact ⟨rfl, fun j hj => absurd hj (Nat.not_lt_zero j)⟩
  | succ n ih =>
    rw [scan_succ]
    cases hok : ok n with
    | false =>
      rcases ih with ⟨h1, h2⟩ | ⟨i, hi, h1, h2, h3, h4, h5⟩
      · left
        refine ⟨by simp [scanStep, hok, h1], fun j hj hj' => ?_⟩
        rcases Nat.lt_succ_iff_lt_or_eq.1 hj with h | h
        · exact h2 j h hj'
        · subst h; simp [hok] at hj'
      · right
        refine ⟨i, Nat.lt_succ_of_lt hi, h1, by simp [scanStep, hok, h2], h3, fun j hj hj' => ?_, h5⟩
        rcases Nat.lt_succ_iff_lt_or_eq.1 hj with h | h
        · exact h4 j h hj'
        · subst h; simp [hok] at hj'
    | true =>
      rcases ih with ⟨h1, h2⟩ | ⟨i, hi, h1, h2, h3, h4, h5⟩
      · by_cases hgt : score n > init
        · right
          refine ⟨n, Nat.lt_succ_self n, hok, by simp [scanStep, hok, h1, hgt], hgt,
            fun j hj hj' => ?_, fun j hj hj' => lt_of_le_of_lt (h2 j hj hj') hgt⟩
          rcases Nat.lt_succ_iff_lt_or_eq.1 hj with h | h
          · exact le_of_lt (lt_of_le_of_lt (h2 j h hj') hgt)
          · subst h; exact le_refl _
        · left
          refine ⟨by simp [scanStep, hok, h1, hgt], fun j hj hj' => ?_⟩
          rcases Nat.lt_succ_iff_lt_or_eq.1 hj with h | h
          · exact h2 j h hj'
          · subst h; exact not_lt.1 hgt
      · by_cases hgt : score n > score i
        · right
          refine ⟨n, Nat.lt_succ_self n, hok, by simp [scanStep, hok, h2, hgt],
            lt_trans h3 hgt, fun j hj hj' => ?_, fun j hj hj' => lt_of_le_of_lt (h4 j hj hj') hgt⟩
          rcases Nat.lt_succ_iff_lt_or_eq.1 hj with h | h
          · exact le_of_lt (lt_of_le_of_lt (h4 j h hj') hgt)
          · subst h; exact le_refl _
        · right
          refine ⟨i, Nat.lt_succ_of_lt hi, h1, by simp [scanStep, hok, h2, hgt], h3,
            fun j hj hj' => ?_, h5⟩
          rcases Nat.lt_succ_iff_lt_or_eq.1 hj with h | h
          · exact h4 j h hj'
          · subst h; exact not_lt.1 hgt

theorem movieAt_eq_of_ne {s : RecommenderSystem α} {i : Nat} (h : movieAt s i ≠ "") :
    find s._movieNamesByOrder i = some (movieAt s i) := by
  unfold movieAt at h ⊢
  cases hf : find s._movieNamesByOrder i with
  | none => simp [hf] at h
  | some x => simp

end RecommenderSystem
end RecSys

namespace RecSys
namespace RecommenderSystem

variable {α : Type} [LinearOrderedField α] [HasSqrt α]

/-! ## The recommenders never return a rated movie -/

/-- C1: for a user of `_userRating`, the name that `recommendByContent` returns is the
empty name or a movie of `_movieNamesByOrder`, at an index below `_numOfMovies`, that the
user has not rated; when the empty name is not a rated movie, the result is never a rated
movie.  This holds for all tables, also without the invariants of the stores. -/
theorem recommendByContent_never_rated (s : RecommenderSystem α) (u : String)
    (r : List (String × α)) (hu : find s._userRating u = some r) :
    ((recommendByContent s u).1 = "" ∨
      ((∃ i < s._numOfMovies,
          find s._movieNamesByOrder i = some (recommendByContent s u).1) ∧
        find r (recommendByContent s u).1 = none)) ∧
    (find r "" = none → find r (recommendByContent s u).1 = none) := by
  have hr : ratingsOf s u = r := by simp [ratingsOf, hu]
  have key : (recommendByContent s u).1 = "" ∨
      ((∃ i < s._numOfMovies,
          find s._movieNamesByOrder i = some (recommendByContent s u).1) ∧
        find r (recommendByContent s u).1 = none) := by
    rw [(recommendByContent_spec hu).1]
    rcases scan_inv (movieAt s) (fun j => unrated s u (movieAt s j))
      (fun j => tasteSimilarity s (tasteVector s u) (movieAt s j)) INIT_SIMILIER
      s._numOfMovies with ⟨h1, _⟩ | ⟨i, hi, hok, h2, _⟩
    · left; rw [h1]
    · rw [h2]
      by_cases he : movieAt s i = ""
      · left; exact he
      · right
        refine ⟨⟨i, hi, movieAt_eq_of_ne he⟩, ?_⟩
        simpa [unrated, hr] using hok
  refine ⟨key, fun h0 => ?_⟩
  rcases key with h | h
  · rw [h]; exact h0
  · exact h.2

/-- C2: when `recommendByCF` returns a non-empty name for a user of `_userRating`, the
user has not rated that movie and `predictMovieScoreForUser` gives it a score above 0,
both in the state before the call and in the state after it. -/
theorem recommendByCF_unrated_positive (s : RecommenderSystem α) (u : String) (k : Nat)
    (r : List (String × α)) (hu : find s._userRating u = some r)
    (hne : (recommendByCF s u k).1 ≠ "") :
    find r (recommendByCF s u k).1 = none ∧
    0 < (predictMovieScoreForUser s (recommendByCF s u k).1 u k).1 ∧
    0 < (predictMovieScoreForUser (recommendByCF s u k).2 (recommendByCF s u k).1 u k).1 := by
  have hr : ratingsOf s u = r := by simp [ratingsOf, hu]
  obtain ⟨hres, hsame⟩ := recommendByCF_spec hu k
  rcases scan_inv (movieAt s) (fun j => unrated s u (movieAt s j))
    (fun j => predictScore s (movieAt s j) u k) 0 s._numOfMovies with
    ⟨h1, _⟩ | ⟨i, _, hok, h2, hpos, _⟩
  · rw [hres, h1] at hne
    exact absurd rfl hne
  · have hname : (recommendByCF s u k).1 = movieAt s i := by rw [hres, h2]
    have hun : find (ratingsOf s u) (movieAt s i) = none := by
      simpa [unrated] using hok
    rw [hname, (predictMovieScoreForUser_spec _ _ _ _).1,
      (predictMovieScoreForUser_spec _ _ _ _).1, predictScore_sameFor hsame _ hun]
    exact ⟨by rw [← hr]; exact hun, hpos, hpos⟩

/-! ## Absent users and movies -/

/-- C3: for a user that `_userRating` does not have, `recommendByContent` and
`recommendByCF` return the string `USER NOT FOUND` and the object state, hence every store
and the norm cache, is as before. -/
theorem recommend_user_not_found (s : RecommenderSystem α) (u : String) (k : Nat)
    (hu : find s._userRating u = none) :
    recommendByContent s u = ("USER NOT FOUND", s) ∧
    recommendByCF s u k = ("USER NOT FOUND", s) := by
  simp [recommendByContent, recommendByCF, hu, MSG_ERROR_NOT_FOUND]

theorem predictMovieScoreForUser_of_absent (s : RecommenderSystem α) (m u : String) (k : Nat)
    (h : find s._dataCharacteristics m = none ∨ find s._userRating u = none) :
    predictMovieScoreForUser s m u k = (NOT_FOUND, s) := by
  have hg : (find s._dataCharacteristics m).isNone = true ∨
      (find s._userRating u).isNone = true := by
    rcases h with h | h
    · left; simp [h]
    · right; simp [h]
  unfold predictMovieScoreForUser
  rw [if_pos hg]

/-- C4: when the movie is not in `_dataCharacteristics` or the user is not in
`_userRating`, `predictMovieScoreForUser` returns -1 and the object state, hence every
store and the norm cache, is as before. -/
theorem predict_not_found (s : RecommenderSystem α) (m u : String) (k : Nat)
    (h : find s._dataCharacteristics m = none ∨ find s._userRating u = none) :
    predictMovieScoreForUser s m u k = (-1, s) :=
  predictMovieScoreForUser_of_absent s m u k h

end RecommenderSystem

open RecommenderSystem

theorem recommendByContent_never_rated_witness :
    find sample._userRating "u" = some [("A", 4), ("B", 2)] ∧
    (((recommendByContent sample "u").1 = "" ∨
      ((∃ i < sample._numOfMovies,
          find sample._movieNamesByOrder i = some (recommendByContent sample "u").1) ∧
        find [("A", (4 : ℚ)), ("B", 2)] (recommendByContent sample "u").1 = none)) ∧
    (find [("A", (4 : ℚ)), ("B", 2)] "" = none →
      find [("A", (4 : ℚ)), ("B", 2)] (recommendByContent sample "u").1 = none)) :=
  ⟨rfl, recommendByContent_never_rated sample "u" _ rfl⟩

theorem recommendByCF_unrated_positive_witness :
    find sample._userRating "u" = some [("A", 4), ("B", 2)] ∧
    (recommendByCF sample "u" 2).1 ≠ "" ∧
    find [("A", (4 : ℚ)), ("B", 2)] (recommendByCF sample "u" 2).1 = none ∧
    0 < (predictMovieScoreForUser sample (recommendByCF sample "u" 2).1 "u" 2).1 ∧
    0 < (predictMovieScoreForUser (recommendByCF sample "u" 2).2
      (recommendByCF sample "u" 2).1 "u" 2).1 :=
  ⟨rfl, by decide!, recommendByCF_unrated_positive sample "u" 2 _ rfl (by decide!)⟩

theorem recommend_user_not_found_witness :
    find sample._userRating "ghost" = none ∧
    recommendByContent sample "ghost" = ("USER NOT FOUND", sample) ∧
    recommendByCF sample "ghost" 3 = ("USER NOT FOUND", sample) :=
  ⟨rfl, recommend_user_not_found sample "ghost" 3 rfl⟩

theorem predict_not_found_witness :
    (find sample._dataCharacteristics "ghostMovie" = none ∨
      find sample._userRating "u" = none) ∧
    predictMovieScoreForUser sample "ghostMovie" "u" 3 = (-1, sample) :=
  ⟨Or.inl rfl, predict_not_found sample "ghostMovie" "u" 3 (Or.inl rfl)⟩

end RecSys

namespace RecSys
namespace RecommenderSystem

variable {α : Type} [LinearOrderedField α] [HasSqrt α]

/-! ## Which movie the collaborative filtering recommender returns -/

/-- C9: for a user of `_userRating`, when the unrated movie at index `i` has a score above
0 that no unrated movie of the scan exceeds and that no unrated movie at a smaller index
equals, `recommendByCF` returns the movie at index `i`; when no unrated movie of the scan
has a score above 0, in particular when there is no unrated movie, it returns the empty
name.  The scores are those of `predictMovieScoreForUser`. -/
theorem recommendByCF_first_maximum (s : RecommenderSystem α) (u : String) (k : Nat)
    (r : List (String × α)) (hu : find s._userRating u = some r) :
    (∀ i < s._numOfMovies, unrated s u (movieAt s i) = true →
      0 < (predictMovieScoreForUser s (movieAt s i) u k).1 →
      (∀ j < s._numOfMovies, unrated s u (movieAt s j) = true →
        (predictMovieScoreForUser s (movieAt s j) u k).1 ≤
          (predictMovieScoreForUser s (movieAt s i) u k).1) →
      (∀ j < i, unrated s u (movieAt s j) = true →
        (predictMovieScoreForUser s (movieAt s j) u k).1 ≠
          (predictMovieScoreForUser s (movieAt s i) u k).1) →
      (recommendByCF s u k).1 = movieAt s i) ∧
    ((∀ j < s._numOfMovies, unrated s u (movieAt s j) = true →
        (predictMovieScoreForUser s (movieAt s j) u k).1 ≤ 0) →
      (recommendByCF s u k).1 = "") := by
  have hp : ∀ m, (predictMovieScoreForUser s m u k).1 = predictScore s m u k :=
    fun m => (predictMovieScoreForUser_spec s m u k).1
  simp only [hp]
  rw [(recommendByCF_spec hu k).1]
  have inv := scan_inv (movieAt s) (fun j => unrated s u (movieAt s j))
    (fun j => predictScore s (movieAt s j) u k) 0 s._numOfMovies
  constructor
  · intro i hi hok hpos hmax hfirst
    rcases inv with ⟨_, h2⟩ | ⟨i', hi', hok', h2, _, h4, h5⟩
    · exact absurd (h2 i hi hok) (not_le.2 hpos)
    · rw [h2]
      have heq : predictScore s (movieAt s i') u k = predictScore s (movieAt s i) u k :=
        le_antisymm (hmax i' hi' hok') (h4 i hi hok)
      rcases Nat.lt_trichotomy i' i with h | h | h
      · exact absurd heq (hfirst i' h hok')
      · rw [h]
      · exact absurd heq.symm (ne_of_lt (h5 i h hok))
  · intro hall
    rcases inv with ⟨h1, _⟩ | ⟨i', hi', hok', _, h3, _⟩
    · rw [h1]
    · exact absurd (hall i' hi' hok') (not_le.2 h3)

/-! ## A user who rated every movie -/

/-- C10: for a user of `_userRating` who rated every movie of `_movieNamesByOrder` at an
index below `_numOfMovies`, `recommendByContent` returns the empty name, which is not the
string `USER NOT FOUND`. -/
theorem recommendByContent_all_rated (s : RecommenderSystem α) (u : String)
    (r : List (String × α)) (hu : find s._userRating u = some r)
    (hall : ∀ i < s._numOfMovies, ∀ name, find s._movieNamesByOrder i = some name →
      find r name ≠ none) :
    (recommendByContent s u).1 = "" ∧ (recommendByContent s u).1 ≠ MSG_ERROR_NOT_FOUND := by
  have hr : ratingsOf s u = r := by simp [ratingsOf, hu]
  have key : (recommendByContent s u).1 = "" := by
    rw [(recommendByContent_spec hu).1]
    rcases scan_inv (movieAt s) (fun j => unrated s u (movieAt s j))
      (fun j => tasteSimilarity s (tasteVector s u) (movieAt s j)) INIT_SIMILIER
      s._numOfMovies with ⟨h1, _⟩ | ⟨i, hi, hok, h2, _⟩
    · rw [h1]
    · rw [h2]
      by_contra he
      have hun : find r (movieAt s i) = none := by simpa [unrated, hr] using hok
      exact hall i hi _ (movieAt_eq_of_ne he) hun
  refine ⟨key, ?_⟩
  rw [key]
  decide

end RecommenderSystem

open RecommenderSystem

theorem recommendByCF_first_maximum_witness :
    find sample._userRating "u" = some [("A", 4), ("B", 2)] ∧
    (recommendByCF sample "u" 2).1 = movieAt sample 2 ∧
    (recommendByCF signFlip "u" 3).1 = "" :=
  ⟨rfl,
    (recommendByCF_first_maximum sample "u" 2 _ rfl).1 2 (by decide) (by decide!) (by decide!)
      (by decide!) (by decide!),
    (recommendByCF_first_maximum signFlip "u" 3 _ rfl).2 (by decide!)⟩

theorem recommendByContent_all_rated_witness :
    find sample._userRating "w" = some [("A", 4), ("B", 2), ("C", 5), ("E", 1)] ∧
    (recommendByContent sample "w").1 = "" ∧
    (recommendByContent sample "w").1 ≠ MSG_ERROR_NOT_FOUND :=
  ⟨rfl, recommendByContent_all_rated sample "w" _ rfl (by
    intro i hi name h
    have hi' : i < 4 := hi
    interval_cases i <;> simp [sample, find] at h <;> subst h <;> decide)⟩

end RecSys

namespace RecSys
namespace RecommenderSystem

variable {α : Type} [LinearOrderedField α] [HasSqrt α]

/-! ## Dot product, norm and cosine -/

theorem dotProduct_eq_sum (a b : List α) (n : Nat) :
    _dotProduct a b n = ∑ i in Finset.range n, a.getD i 0 * b.getD i 0 := by
  unfold _dotProduct
  induction n with
  | zero => simp
  | succ n ih => rw [List.range_succ, List.foldl_append, ih, Finset.sum_range_succ]; rfl

theorem dotProduct_self_nonneg (a : List α) (n : Nat) : 0 ≤ _dotProduct a a n := by
  rw [dotProduct_eq_sum]
  exact Finset.sum_nonneg (fun i _ => mul_self_nonneg _)

theorem dotProduct_sq_le (a b : List α) (n : Nat) :
    _dotProduct a b n ^ 2 ≤ _dotProduct a a n * _dotProduct b b n := by
  simp only [dotProduct_eq_sum]
  have := Finset.sum_mul_sq_le_sq_mul_sq (Finset.range n) (fun i => a.getD i 0)
    (fun i => b.getD i 0)
  simpa [pow_two] using this

/-- With exact square roots the cosine of two vectors is at least -1. -/
theorem neg_one_le_cosine (n : Nat) (a b : List α) (ha : ExactSqrt (_dotProduct a a n))
    (hb : ExactSqrt (_dotProduct b b n)) : -1 ≤ cosine n a b := by
  obtain ⟨ha0, ha2⟩ := ha
  obtain ⟨hb0, hb2⟩ := hb
  unfold cosine
  have hprod : 0 ≤ HasSqrt.sqrt (_dotProduct a a n) * HasSqrt.sqrt (_dotProduct b b n) :=
    mul_nonneg ha0 hb0
  have hsq : _dotProduct a b n ^ 2 ≤
      (HasSqrt.sqrt (_dotProduct a a n) * HasSqrt.sqrt (_dotProduct b b n)) ^ 2 := by
    calc _dotProduct a b n ^ 2 ≤ _dotProduct a a n * _dotProduct b b n := dotProduct_sq_le a b n
      _ = (HasSqrt.sqrt (_dotProduct a a n) * HasSqrt.sqrt (_dotProduct b b n)) ^ 2 := by
        rw [pow_two, mul_mul_mul_comm, ha2, hb2]
  have hle := (abs_le_of_sq_le_sq' hsq hprod).1
  rcases eq_or_lt_of_le hprod with h0 | hpos
  · rw [← h0, div_zero]
    exact neg_nonpos.2 zero_le_one
  · rw [le_div_iff₀ hpos]
    simpa using hle

theorem INIT_SIMILIER_lt_neg_one : (INIT_SIMILIER : α) < -1 := by
  unfold INIT_SIMILIER
  norm_num

theorem cacheCoherent_of_empty {s : RecommenderSystem α} (h : s._keepsNorms = []) :
    CacheCoherent s := by
  refine ⟨by simp [h, find], fun name x hx => ?_⟩
  simp [h, find] at hx

theorem normOf_of_coherent {s : RecommenderSystem α} (hc : CacheCoherent s) (m : String) :
    normOf s (feat s m) m =
      HasSqrt.sqrt (_dotProduct (feat s m) (feat s m) s._numOfCharacteristics) := by
  unfold normOf
  cases h : find s._keepsNorms m with
  | none => rfl
  | some x => exact hc.2 m x h

theorem normOf_notMovie_of_coherent {s : RecommenderSystem α} (hc : CacheCoherent s)
    (v : List α) :
    normOf s v NOT_MOVIE = HasSqrt.sqrt (_dotProduct v v s._numOfCharacteristics) := by
  simp [normOf, hc.1]

theorem similarity_of_coherent {s : RecommenderSystem α} (hc : CacheCoherent s)
    (m₁ m₂ : String) :
    similarity s m₁ m₂ = cosine s._numOfCharacteristics (feat s m₁) (feat s m₂) := by
  simp only [similarity, cosine, normOf_of_coherent hc]

theorem tasteSimilarity_of_coherent {s : RecommenderSystem α} (hc : CacheCoherent s)
    (v : List α) (m : String) :
    tasteSimilarity s v m = cosine s._numOfCharacteristics v (feat s m) := by
  simp only [tasteSimilarity, cosine, normOf_of_coherent hc, normOf_notMovie_of_coherent hc]

/-! ## Which movie the content based recommender returns -/

/-- C8: for a user of `_userRating` with an unrated movie among the scanned indices, a
coherent norm cache, exact square roots and non-zero vectors, `recommendByContent`
returns the movie at the smallest index `i` such that the movie is unrated and the cosine
of the preference vector and its feature vector is at least that of every unrated
movie. -/
theorem recommendByContent_first_maximum (s : RecommenderSystem α) (u : String)
    (r : List (String × α)) (hu : find s._userRating u = some r) (hc : CacheCoherent s)
    (hex : ∃ i < s._numOfMovies, unrated s u (movieAt s i) = true)
    (hv : ExactSqrt (_dotProduct (tasteVector s u) (tasteVector s u) s._numOfCharacteristics) ∧
      _dotProduct (tasteVector s u) (tasteVector s u) s._numOfCharacteristics ≠ 0)
    (hf : ∀ i < s._numOfMovies, unrated s u (movieAt s i) = true →
      ExactSqrt (_dotProduct (feat s (movieAt s i)) (feat s (movieAt s i))
        s._numOfCharacteristics) ∧
      _dotProduct (feat s (movieAt s i)) (feat s (movieAt s i)) s._numOfCharacteristics ≠ 0) :
    ∃ i < s._numOfMovies, (recommendByContent s u).1 = movieAt s i ∧
      unrated s u (movieAt s i) = true ∧
      (∀ j < s._numOfMovies, unrated s u (movieAt s j) = true →
        cosine s._numOfCharacteristics (tasteVector s u) (feat s (movieAt s j)) ≤
          cosine s._numOfCharacteristics (tasteVector s u) (feat s (movieAt s i))) ∧
      (∀ j < i, ¬ (unrated s u (movieAt s j) = true ∧
        ∀ l < s._numOfMovies, unrated s u (movieAt s l) = true →
          cosine s._numOfCharacteristics (tasteVector s u) (feat s (movieAt s l)) ≤
            cosine s._numOfCharacteristics (tasteVector s u) (feat s (movieAt s j)))) := by
  rw [(recommendByContent_spec hu).1]
  simp only [tasteSimilarity_of_coherent hc]
  have inv := scan_inv (movieAt s) (fun j => unrated s u (movieAt s j))
    (fun j => cosine s._numOfCharacteristics (tasteVector s u) (feat s (movieAt s j)))
    INIT_SIMILIER s._numOfMovies
  rcases inv with ⟨_, h2⟩ | ⟨i, hi, hok, h2, _, h4, h5⟩
  · obtain ⟨i, hi, hok⟩ := hex
    have h1 := neg_one_le_cosine s._numOfCharacteristics (tasteVector s u)
      (feat s (movieAt s i)) hv.1 (hf i hi hok).1
    have := lt_of_lt_of_le (lt_of_le_of_lt (h2 i hi hok) INIT_SIMILIER_lt_neg_one) h1
    exact absurd this (lt_irrefl _)
  · refine ⟨i, hi, by rw [h2], hok, h4, fun j hj hP => ?_⟩
    exact absurd (hP.2 i hi hok) (not_le.2 (h5 j hj hP.1))

end RecommenderSystem

open RecommenderSystem

theorem recommendByContent_first_maximum_witness :
    find sample._userRating "u" = some [("A", 4), ("B", 2)] ∧
    ∃ i < sample._numOfMovies, (recommendByContent sample "u").1 = movieAt sample i ∧
      unrated sample "u" (movieAt sample i) = true ∧
      (∀ j < sample._numOfMovies, unrated sample "u" (movieAt sample j) = true →
        cosine sample._numOfCharacteristics (tasteVector sample "u")
            (feat sample (movieAt sample j)) ≤
          cosine sample._numOfCharacteristics (tasteVector sample "u")
            (feat sample (movieAt sample i))) ∧
      (∀ j < i, ¬ (unrated sample "u" (movieAt sample j) = true ∧
        ∀ l < sample._numOfMovies, unrated sample "u" (movieAt sample l) = true →
          cosine sample._numOfCharacteristics (tasteVector sample "u")
              (feat sample (movieAt sample l)) ≤
            cosine sample._numOfCharacteristics (tasteVector sample "u")
              (feat sample (movieAt sample j)))) :=
  ⟨rfl, recommendByContent_first_maximum sample "u" _ rfl
    ⟨rfl, fun name x h => by simp [sample, find] at h⟩
    ⟨2, by decide, by decide⟩
    (by unfold ExactSqrt; decide!)
    (by unfold ExactSqrt; decide!)⟩

end RecSys

namespace RecSys

section Containers
variable {κ β : Type} [DecidableEq κ]

theorem mem_of_find {m : List (κ × β)} {k : κ} {v : β} (h : find m k = some v) :
    (k, v) ∈ m := by
  induction m with
  | nil => simp [find] at h
  | cons p m ih =>
    obtain ⟨k', v'⟩ := p
    by_cases hk : k' = k
    · simp [find, hk] at h
      simp [hk, h]
    · simp [find, hk] at h
      exact List.mem_cons_of_mem _ (ih h)

theorem find_of_mem_nodup {m : List (κ × β)} (hnd : (m.map Prod.fst).Nodup) {p : κ × β}
    (h : p ∈ m) : find m p.1 = some p.2 := by
  induction m with
  | nil => simp at h
  | cons q m ih =>
    obtain ⟨k', v'⟩ := q
    simp only [List.map_cons, List.nodup_cons] at hnd
    rcases List.mem_cons.1 h with rfl | h'
    · simp [find]
    · have hne : ¬ k' = p.1 := fun e => hnd.1 (e ▸ List.mem_map_of_mem Prod.fst h')
      simp [find, hne, ih hnd.2 h']

end Containers

namespace RecommenderSystem

section AnyArithmetic

variable {α : Type} [Zero α] [One α] [Add α] [Sub α] [Mul α] [Div α] [Neg α] [NatCast α]
  [LT α] [DecidableRel (fun a b : α => a < b)] [HasSqrt α]

theorem neighbours_mem {s : RecommenderSystem α} {m : String} {r : List (String × α)}
    {t : α × String} (ht : t ∈ neighbours s m r) :
    ∃ it ∈ r, t = (similarity s m it.1, it.1) := by
  have := (neighbours_perm s m r).subset ht
  obtain ⟨it, hit, rfl⟩ := List.mem_map.1 this
  exact ⟨it, hit, rfl⟩

end AnyArithmetic

variable {α : Type} [LinearOrderedField α] [HasSqrt α]

/-! ## The weighted average of the predictor -/

theorem weightedFold_eq (r : List (String × α)) (sel : List (α × String)) :
    ∀ a b : α,
      sel.foldl (fun acc it => (acc.1 + it.1 * (find r it.2).getD 0, acc.2 + it.1)) (a, b) =
        (a + (sel.map (fun it => it.1 * (find r it.2).getD 0)).sum,
          b + (sel.map Prod.fst).sum) := by
  induction sel with
  | nil => intro a b; simp
  | cons t sel ih =>
    intro a b
    simp only [List.foldl_cons, ih, List.map_cons, List.sum_cons, add_assoc]

theorem weighted_eq_sum (r : List (String × α)) (sel : List (α × String)) :
    weighted r sel =
      ((sel.map (fun it => it.1 * (find r it.2).getD 0)).sum, (sel.map Prod.fst).sum) := by
  unfold weighted
  rw [weightedFold_eq]
  simp

theorem predictScore_of_found {s : RecommenderSystem α} {m u : String}
    {r : List (String × α)} (hm : find s._dataCharacteristics m ≠ none)
    (hu : find s._userRating u = some r) (k : Nat) :
    predictScore s m u k =
      (((neighbours s m r).reverse.take k).map (fun it => it.1 * (find r it.2).getD 0)).sum /
        (((neighbours s m r).reverse.take k).map Prod.fst).sum := by
  have hr : ratingsOf s u = r := by simp [ratingsOf, hu]
  have hg : ¬ ((find s._dataCharacteristics m).isNone = true ∨
      (find s._userRating u).isNone = true) := by
    rintro (h | h)
    · exact hm (by simpa using h)
    · simp [hu] at h
  unfold predictScore
  rw [if_neg hg]
  simp only [hr, weighted_eq_sum]

/-! ## The sentinel of the predictor -/

/-- C5, as amended: when every rating of the user is at least 0 and the similarity of
the movie to every movie the user rated is at least 0, `predictMovieScoreForUser` returns
-1 if and only if the movie is not in `_dataCharacteristics` or the user is not in
`_userRating`. -/
theorem sentinel_iff_absent (s : RecommenderSystem α) (m u : String) (k : Nat)
    (hpos : ∀ it ∈ ratingsOf s u, 0 ≤ it.2 ∧ 0 ≤ similarity s m it.1) :
    (predictMovieScoreForUser s m u k).1 = NOT_FOUND ↔
      (find s._dataCharacteristics m = none ∨ find s._userRating u = none) := by
  constructor
  · intro h
    by_contra hcon
    push_neg at hcon
    obtain ⟨hm, hu⟩ := hcon
    obtain ⟨r, hr⟩ := Option.ne_none_iff_exists'.1 hu
    have hro : ratingsOf s u = r := by simp [ratingsOf, hr]
    rw [hro] at hpos
    rw [(predictMovieScoreForUser_spec s m u k).1, predictScore_of_found hm hr] at h
    have hsel : ∀ t ∈ (neighbours s m r).reverse.take k,
        0 ≤ t.1 ∧ 0 ≤ (find r t.2).getD 0 := fun t ht => by
      have ht' := List.mem_reverse.1 ((List.take_subset _ _) ht)
      obtain ⟨it, hit, rfl⟩ := neighbours_mem ht'
      refine ⟨(hpos it hit).2, ?_⟩
      obtain ⟨x, hx⟩ := find_of_mem_keys hit
      simp only [hx, Option.getD_some]
      exact (hpos _ (mem_of_find hx)).1
    have h1 : 0 ≤ (((neighbours s m r).reverse.take k).map
        (fun it => it.1 * (find r it.2).getD 0)).sum :=
      List.sum_nonneg (fun x hx => by
        obtain ⟨t, ht, rfl⟩ := List.mem_map.1 hx
        exact mul_nonneg (hsel t ht).1 (hsel t ht).2)
    have h2 : 0 ≤ (((neighbours s m r).reverse.take k).map Prod.fst).sum :=
      List.sum_nonneg (fun x hx => by
        obtain ⟨t, ht, rfl⟩ := List.mem_map.1 hx
        exact (hsel t ht).1)
    have h3 := div_nonneg h1 h2
    rw [h] at h3
    unfold NOT_FOUND at h3
    linarith
  · intro h
    rw [predictMovieScoreForUser_of_absent s m u k h]

end RecommenderSystem

open RecommenderSystem

/-- C5, as stated, fails: in `signFlip` the movie `Q` is in `_dataCharacteristics`, the
user `u` is in `_userRating` with three ratings, and the prediction for `k = 3` is
(1 * 1 + 1 * 1 + (-1) * 3) / (1 + 1 - 1) = -1, the value of `NOT_FOUND`. -/
theorem sentinel_for_present_movie_and_user :
    find signFlip._dataCharacteristics "Q" = some [1, 0] ∧
    find signFlip._userRating "u" = some [("A", 1), ("B", 3), ("C", 1)] ∧
    1 ≤ 3 ∧
    (predictMovieScoreForUser signFlip "Q" "u" 3).1 = NOT_FOUND := by
  decide!

theorem sentinel_iff_absent_witness :
    (∀ it ∈ ratingsOf sample "u", 0 ≤ it.2 ∧ 0 ≤ similarity sample "C" it.1) ∧
    ((predictMovieScoreForUser sample "C" "u" 2).1 = NOT_FOUND ↔
      (find sample._dataCharacteristics "C" = none ∨ find sample._userRating "u" = none)) :=
  ⟨by decide!, sentinel_iff_absent sample "C" "u" 2 (by decide!)⟩

end RecSys

namespace RecSys
namespace RecommenderSystem

variable {α : Type} [LinearOrderedField α] [HasSqrt α]

/-! ## The nearest neighbours of the predictor -/

theorem multimapInsert_sorted (p : α × String) (l : List (α × String))
    (h : l.Pairwise (fun a b => a.1 ≤ b.1)) :
    (multimapInsert p l).Pairwise (fun a b => a.1 ≤ b.1) := by
  induction l with
  | nil => simp [multimapInsert]
  | cons q l ih =>
    obtain ⟨hq, hl⟩ := List.pairwise_cons.1 h
    simp only [multimapInsert]
    split
    · rename_i hlt
      refine List.pairwise_cons.2 ⟨fun x hx => ?_, h⟩
      rcases List.mem_cons.1 hx with rfl | hx'
      · exact le_of_lt hlt
      · exact le_trans (le_of_lt hlt) (hq x hx')
    · rename_i hlt
      refine List.pairwise_cons.2 ⟨fun x hx => ?_, ih hl⟩
      rcases List.mem_cons.1 ((multimapInsert_perm p l).subset hx) with rfl | hx'
      · exact not_lt.1 hlt
      · exact hq x hx'

theorem neighboursFold_sorted (f : String × α → α × String) (its : List (String × α)) :
    ∀ init : List (α × String), init.Pairwise (fun a b => a.1 ≤ b.1) →
      (its.foldl (fun setK it => multimapInsert (f it) setK) init).Pairwise
        (fun a b => a.1 ≤ b.1) := by
  induction its with
  | nil => intro init h; exact h
  | cons it its ih =>
    intro init h
    simp only [List.foldl_cons]
    exact ih _ (multimapInsert_sorted _ _ h)

theorem neighbours_sorted (s : RecommenderSystem α) (m : String) (r : List (String × α)) :
    (neighbours s m r).Pairwise (fun a b => a.1 ≤ b.1) :=
  neighboursFold_sorted _ r [] List.Pairwise.nil

theorem neighbours_reverse_sorted (s : RecommenderSystem α) (m : String)
    (r : List (String × α)) :
    (neighbours s m r).reverse.Pairwise (fun a b => b.1 ≤ a.1) :=
  List.pairwise_reverse.2 (neighbours_sorted s m r)

/-- Reading a pair of `setK` back as an entry of the ratings. -/
theorem rating_of_neighbour {r : List (String × α)} (hnd : (r.map Prod.fst).Nodup)
    (f : String → α) :
    (r.map (fun it => (f it.1, it.1))).map (fun t => (t.2, (find r t.2).getD 0)) = r := by
  rw [List.map_map]
  conv_rhs => rw [← List.map_id r]
  refine List.map_congr_left (fun it hit => ?_)
  simp [find_of_mem_nodup hnd hit]

/-- The predictor in terms of the similarities held in the state: the weighted average
over the `min k n` rated movies of largest similarity. -/
theorem predictScore_top (s : RecommenderSystem α) (m u : String) (k : Nat)
    (r : List (String × α)) (hm : find s._dataCharacteristics m ≠ none)
    (hu : find s._userRating u = some r) (hnd : (r.map Prod.fst).Nodup) :
    ∃ S : List (String × α), S.Subperm r ∧ S.length = min k r.length ∧
      (∀ p ∈ S, ∀ q ∈ r, q ∉ S → similarity s m q.1 ≤ similarity s m p.1) ∧
      predictScore s m u k =
        (S.map (fun p => similarity s m p.1 * p.2)).sum /
          (S.map (fun p => similarity s m p.1)).sum := by
  have hperm := neighbours_perm s m r
  have hback := rating_of_neighbour hnd (similarity s m)
  have hsim : ∀ t ∈ neighbours s m r, t.1 = similarity s m t.2 := fun t ht => by
    obtain ⟨it, _, rfl⟩ := neighbours_mem ht
    rfl
  have hT : ∀ t ∈ (neighbours s m r).reverse.take k, t ∈ neighbours s m r := fun t ht =>
    List.mem_reverse.1 ((List.take_subset _ _) ht)
  refine ⟨((neighbours s m r).reverse.take k).map (fun t => (t.2, (find r t.2).getD 0)),
    ?_, ?_, ?_, ?_⟩
  · have h1 : (((neighbours s m r).reverse.take k).map
        (fun t => (t.2, (find r t.2).getD 0))).Sublist
        ((neighbours s m r).reverse.map (fun t => (t.2, (find r t.2).getD 0))) :=
      (List.take_sublist _ _).map _
    have h2 : ((neighbours s m r).reverse.map (fun t => (t.2, (find r t.2).getD 0))).Perm r := by
      have := (((List.reverse_perm (neighbours s m r)).trans hperm).map
        (fun t : α × String => (t.2, (find r t.2).getD 0)))
      rwa [hback] at this
    exact h1.subperm.trans h2.subperm
  · rw [List.length_map, List.length_take, List.length_reverse, hperm.length_eq,
      List.length_map]
  · intro p hp q hq hqS
    obtain ⟨t, ht, rfl⟩ := List.mem_map.1 hp
    have hgq : (similarity s m q.1, q.1) ∈ (neighbours s m r).reverse :=
      List.mem_reverse.2 (hperm.symm.subset (List.mem_map.2 ⟨q, hq, rfl⟩))
    rw [← List.take_append_drop k (neighbours s m r).reverse] at hgq
    rcases List.mem_append.1 hgq with hin | hin
    · exfalso
      apply hqS
      refine List.mem_map.2 ⟨_, hin, ?_⟩
      simp [find_of_mem_nodup hnd hq]
    · have hsorted := neighbours_reverse_sorted s m r
      rw [← List.take_append_drop k (neighbours s m r).reverse] at hsorted
      have := (List.pairwise_append.1 hsorted).2.2 t ht _ hin
      simpa [← hsim t (hT t ht)] using this
  · rw [predictScore_of_found hm hu, List.map_map, List.map_map]
    congr 1
    · refine congrArg List.sum (List.map_congr_left (fun t ht => ?_))
      simp [← hsim t (hT t ht)]
    · refine congrArg List.sum (List.map_congr_left (fun t ht => ?_))
      simp [← hsim t (hT t ht)]

/-- The predictor for `k` at least the number of ratings, in terms of the similarities held
in the state. -/
theorem predictScore_all (s : RecommenderSystem α) (m u : String) (k : Nat)
    (r : List (String × α)) (hm : find s._dataCharacteristics m ≠ none)
    (hu : find s._userRating u = some r) (hnd : (r.map Prod.fst).Nodup)
    (hk : r.length ≤ k) :
    predictScore s m u k =
      (r.map (fun p => similarity s m p.1 * p.2)).sum /
        (r.map (fun p => similarity s m p.1)).sum := by
  have hperm := neighbours_perm s m r
  have hlen : (neighbours s m r).reverse.length ≤ k := by
    rw [List.length_reverse, hperm.length_eq, List.length_map]; exact hk
  have hp2 := (List.reverse_perm (neighbours s m r)).trans hperm
  rw [predictScore_of_found hm hu, List.take_of_length_le hlen,
    (hp2.map _).sum_eq, (hp2.map _).sum_eq, List.map_map, List.map_map]
  congr 1
  refine congrArg List.sum (List.map_congr_left (fun it hit => ?_))
  simp [find_of_mem_nodup hnd hit]

/-- C6: for a movie of `_dataCharacteristics`, a user of `_userRating` with the ratings
`r` and a coherent norm cache, `predictMovieScoreForUser` returns the sum of cosine times
rating divided by the sum of the cosines, both over a selection `S` of `min k n` of the
`n` ratings, where no rating outside `S` has a larger cosine than one in `S`; the quotient
is returned as it is. -/
theorem predict_top_k (s : RecommenderSystem α) (m u : String) (k : Nat)
    (r : List (String × α)) (hm : find s._dataCharacteristics m ≠ none)
    (hu : find s._userRating u = some r) (hnd : (r.map Prod.fst).Nodup)
    (hc : CacheCoherent s) :
    ∃ S : List (String × α), S.Subperm r ∧ S.length = min k r.length ∧
      (∀ p ∈ S, ∀ q ∈ r, q ∉ S →
        cosine s._numOfCharacteristics (feat s m) (feat s q.1) ≤
          cosine s._numOfCharacteristics (feat s m) (feat s p.1)) ∧
      (predictMovieScoreForUser s m u k).1 =
        (S.map (fun p => cosine s._numOfCharacteristics (feat s m) (feat s p.1) * p.2)).sum /
          (S.map (fun p => cosine s._numOfCharacteristics (feat s m) (feat s p.1))).sum := by
  have h := predictScore_top s m u k r hm hu hnd
  simp only [similarity_of_coherent hc] at h
  rw [(predictMovieScoreForUser_spec s m u k).1]
  exact h

end RecommenderSystem

open RecommenderSystem

theorem predict_top_k_witness :
    find sample._dataCharacteristics "C" ≠ none ∧
    find sample._userRating "w" = some [("A", 4), ("B", 2), ("C", 5), ("E", 1)] ∧
    ∃ S : List (String × ℚ), S.Subperm [("A", 4), ("B", 2), ("C", 5), ("E", 1)] ∧
      S.length = min 2 [("A", (4 : ℚ)), ("B", 2), ("C", 5), ("E", 1)].length ∧
      (∀ p ∈ S, ∀ q ∈ [("A", (4 : ℚ)), ("B", 2), ("C", 5), ("E", 1)], q ∉ S →
        cosine sample._numOfCharacteristics (feat sample "C") (feat sample q.1) ≤
          cosine sample._numOfCharacteristics (feat sample "C") (feat sample p.1)) ∧
      (predictMovieScoreForUser sample "C" "w" 2).1 =
        (S.map (fun p =>
          cosine sample._numOfCharacteristics (feat sample "C") (feat sample p.1) * p.2)).sum /
        (S.map (fun p =>
          cosine sample._numOfCharacteristics (feat sample "C") (feat sample p.1))).sum :=
  ⟨by decide, rfl, predict_top_k sample "C" "w" 2 _ (by decide) rfl (by decide)
    ⟨rfl, fun name x h => by simp [sample, find] at h⟩⟩

end RecSys

namespace RecSys
namespace RecommenderSystem

variable {α : Type} [LinearOrderedField α] [HasSqrt α]

/-! ## The norm operation and the similarity for arbitrary vectors and names -/

theorem dotProduct_comm (a b : List α) (n : Nat) : _dotProduct a b n = _dotProduct b a n := by
  simp only [dotProduct_eq_sum]
  exact Finset.sum_congr rfl (fun i _ => mul_comm _ _)

theorem getNormAndKeepIfNotExit_numOfCharacteristics (s : RecommenderSystem α) (vec : List α)
    (m : String) :
    (getNormAndKeepIfNotExit s vec m).2._numOfCharacteristics = s._numOfCharacteristics := by
  unfold getNormAndKeepIfNotExit
  cases h : find s._keepsNorms m with
  | some x => rfl
  | none => by_cases hm : m = NOT_MOVIE <;> simp [hm]

theorem getNormAndKeepIfNotExit_of_cached {s : RecommenderSystem α} {m : String} {x : α}
    (h : find s._keepsNorms m = some x) (vec : List α) :
    getNormAndKeepIfNotExit s vec m = (x, s) := by
  simp [getNormAndKeepIfNotExit, h]

theorem getNormAndKeepIfNotExit_state_eq {s : RecommenderSystem α} {m : String}
    (h : m = NOT_MOVIE ∨ find s._keepsNorms m ≠ none) (vec : List α) :
    (getNormAndKeepIfNotExit s vec m).2 = s := by
  rcases h with h | h
  · rw [h]; exact getNormAndKeepIfNotExit_notMovie s vec
  · obtain ⟨x, hx⟩ := Option.ne_none_iff_exists'.1 h
    rw [getNormAndKeepIfNotExit_of_cached hx]

theorem getNormAndKeepIfNotExit_find_of_new {s : RecommenderSystem α} {m : String}
    (hm : m ≠ NOT_MOVIE) (h : find s._keepsNorms m = none) (vec : List α) (m' : String) :
    find (getNormAndKeepIfNotExit s vec m).2._keepsNorms m' =
      if m' = m then some (HasSqrt.sqrt (_dotProduct vec vec s._numOfCharacteristics))
      else find s._keepsNorms m' := by
  simp only [getNormAndKeepIfNotExit, h, ne_eq, hm, not_false_eq_true, if_true]
  exact find_assign_of_none _ h m'

theorem getNormAndKeepIfNotExit_find_other (s : RecommenderSystem α) (vec : List α)
    {m m' : String} (h : m' ≠ m) :
    find (getNormAndKeepIfNotExit s vec m).2._keepsNorms m' = find s._keepsNorms m' := by
  by_cases hc : m = NOT_MOVIE ∨ find s._keepsNorms m ≠ none
  · rw [getNormAndKeepIfNotExit_state_eq hc]
  · push_neg at hc
    rw [getNormAndKeepIfNotExit_find_of_new hc.1 hc.2, if_neg h]

theorem normOf_after_other (s : RecommenderSystem α) (v₁ v₂ : List α) {m₁ m₂ : String}
    (h : m₂ ≠ m₁) :
    normOf (getNormAndKeepIfNotExit s v₁ m₁).2 v₂ m₂ = normOf s v₂ m₂ := by
  simp only [normOf, getNormAndKeepIfNotExit_find_other s v₁ h,
    getNormAndKeepIfNotExit_numOfCharacteristics]

/-- A second request for the norm of the same vector under the same name yields the value
of the first. -/
theorem normOf_after_self (s : RecommenderSystem α) (v : List α) (m : String) :
    normOf (getNormAndKeepIfNotExit s v m).2 v m = normOf s v m := by
  by_cases hc : m = NOT_MOVIE ∨ find s._keepsNorms m ≠ none
  · rw [getNormAndKeepIfNotExit_state_eq hc]
  · push_neg at hc
    simp [normOf, getNormAndKeepIfNotExit_find_of_new hc.1 hc.2, hc.2]

theorem getSimilierValue_fst (s : RecommenderSystem α) (v₁ : List α) (m₁ : String)
    (v₂ : List α) (m₂ : String) :
    (getSimilierValue s v₁ m₁ v₂ m₂).1 =
      _dotProduct v₁ v₂ s._numOfCharacteristics /
        (normOf s v₁ m₁ * normOf (getNormAndKeepIfNotExit s v₁ m₁).2 v₂ m₂) := by
  simp only [getSimilierValue, getNormAndKeepIfNotExit_fst]

theorem cosine_le_one (n : Nat) (a b : List α) (ha : ExactSqrt (_dotProduct a a n))
    (hb : ExactSqrt (_dotProduct b b n)) : cosine n a b ≤ 1 := by
  obtain ⟨ha0, ha2⟩ := ha
  obtain ⟨hb0, hb2⟩ := hb
  unfold cosine
  have hprod : 0 ≤ HasSqrt.sqrt (_dotProduct a a n) * HasSqrt.sqrt (_dotProduct b b n) :=
    mul_nonneg ha0 hb0
  have hsq : _dotProduct a b n ^ 2 ≤
      (HasSqrt.sqrt (_dotProduct a a n) * HasSqrt.sqrt (_dotProduct b b n)) ^ 2 := by
    calc _dotProduct a b n ^ 2 ≤ _dotProduct a a n * _dotProduct b b n := dotProduct_sq_le a b n
      _ = (HasSqrt.sqrt (_dotProduct a a n) * HasSqrt.sqrt (_dotProduct b b n)) ^ 2 := by
        rw [pow_two, mul_mul_mul_comm, ha2, hb2]
  have hle := (abs_le_of_sq_le_sq' hsq hprod).2
  rcases eq_or_lt_of_le hprod with h0 | hpos
  · rw [← h0, div_zero]
    exact zero_le_one
  · rw [div_le_iff₀ hpos]
    simpa using hle

/-! ## Symmetry -/

/-- C11, as amended: from one and the same state, `getSimilierValue` gives the same number
for `(a, nameA, b, nameB)` and for `(b, nameB, a, nameA)` when the two names differ, or
the first name is `NOT_MOVIE`, or the first name has an entry in `_keepsNorms`. -/
theorem similarity_symmetric (s : RecommenderSystem α) (a b : List α) (nameA nameB : String)
    (h : nameA ≠ nameB ∨ nameA = NOT_MOVIE ∨ find s._keepsNorms nameA ≠ none) :
    (getSimilierValue s a nameA b nameB).1 = (getSimilierValue s b nameB a nameA).1 := by
  rw [getSimilierValue_fst, getSimilierValue_fst, dotProduct_comm a b]
  by_cases hne : nameA = nameB
  · subst hne
    have hc : nameA = NOT_MOVIE ∨ find s._keepsNorms nameA ≠ none := by
      rcases h with h | h
      · exact absurd rfl h
      · exact h
    rw [getNormAndKeepIfNotExit_state_eq hc, getNormAndKeepIfNotExit_state_eq hc, mul_comm]
  · rw [normOf_after_other s a b (fun e => hne e.symm), normOf_after_other s b a hne, mul_comm]

/-! ## Self-similarity -/

/-- C12, as amended: for a non-zero vector `v` with an exact square root and a name that
has no entry in `_keepsNorms` or has the norm of `v` as its entry, `getSimilierValue` of
`v` with itself under that name is 1. -/
theorem self_similarity_one (s : RecommenderSystem α) (v : List α) (m : String)
    (hv : ExactSqrt (_dotProduct v v s._numOfCharacteristics))
    (hv0 : _dotProduct v v s._numOfCharacteristics ≠ 0)
    (hc : find s._keepsNorms m = none ∨ find s._keepsNorms m =
      some (HasSqrt.sqrt (_dotProduct v v s._numOfCharacteristics))) :
    (getSimilierValue s v m v m).1 = 1 := by
  have hn : normOf s v m = HasSqrt.sqrt (_dotProduct v v s._numOfCharacteristics) := by
    rcases hc with hc | hc <;> simp [normOf, hc]
  rw [getSimilierValue_fst, normOf_after_self, hn, hv.2]
  exact div_self hv0

/-! ## Range -/

/-- C13, as amended: for two non-zero vectors with exact square roots whose names have no
entry in `_keepsNorms` or have the norm of their vector as entry, and which, when they go
under one name other than `NOT_MOVIE`, have the same norm, `getSimilierValue` lies between
-1 and 1 and above `INIT_SIMILIER`. -/
theorem similarity_range (s : RecommenderSystem α) (a b : List α) (nameA nameB : String)
    (ha : ExactSqrt (_dotProduct a a s._numOfCharacteristics))
    (hb : ExactSqrt (_dotProduct b b s._numOfCharacteristics))
    (ha0 : _dotProduct a a s._numOfCharacteristics ≠ 0)
    (hb0 : _dotProduct b b s._numOfCharacteristics ≠ 0)
    (hcA : find s._keepsNorms nameA = none ∨ find s._keepsNorms nameA =
      some (HasSqrt.sqrt (_dotProduct a a s._numOfCharacteristics)))
    (hcB : find s._keepsNorms nameB = none ∨ find s._keepsNorms nameB =
      some (HasSqrt.sqrt (_dotProduct b b s._numOfCharacteristics)))
    (hsame : nameA = nameB → nameA ≠ NOT_MOVIE →
      HasSqrt.sqrt (_dotProduct a a s._numOfCharacteristics) =
        HasSqrt.sqrt (_dotProduct b b s._numOfCharacteristics)) :
    -1 ≤ (getSimilierValue s a nameA b nameB).1 ∧ (getSimilierValue s a nameA b nameB).1 ≤ 1 ∧
    INIT_SIMILIER < (getSimilierValue s a nameA b nameB).1 := by
  have hnA : normOf s a nameA = HasSqrt.sqrt (_dotProduct a a s._numOfCharacteristics) := by
    rcases hcA with hc | hc <;> simp [normOf, hc]
  have hnB : normOf s b nameB = HasSqrt.sqrt (_dotProduct b b s._numOfCharacteristics) := by
    rcases hcB with hc | hc <;> simp [normOf, hc]
  have hnB' : normOf (getNormAndKeepIfNotExit s a nameA).2 b nameB =
      HasSqrt.sqrt (_dotProduct b b s._numOfCharacteristics) := by
    by_cases hne : nameB = nameA
    · by_cases hc : nameA = NOT_MOVIE ∨ find s._keepsNorms nameA ≠ none
      · rw [getNormAndKeepIfNotExit_state_eq hc, hnB]
      · push_neg at hc
        rw [hne]
        simp only [normOf, getNormAndKeepIfNotExit_find_of_new hc.1 hc.2, if_true]
        exact hsame hne.symm hc.1
    · rw [normOf_after_other s a b hne, hnB]
  have hval : (getSimilierValue s a nameA b nameB).1 = cosine s._numOfCharacteristics a b := by
    rw [getSimilierValue_fst, hnA, hnB']
    rfl
  rw [hval]
  have h1 := neg_one_le_cosine s._numOfCharacteristics a b ha hb
  exact ⟨h1, cosine_le_one s._numOfCharacteristics a b ha hb,
    lt_of_lt_of_le INIT_SIMILIER_lt_neg_one h1⟩

/-! ## Idempotence of the norm cache -/

/-- C14: for a name other than `NOT_MOVIE`, two calls of `getNormAndKeepIfNotExit` in a row
with the same vector and name return the same value; the value is the square root of the
dot product of the vector with itself when the name had no entry before; after the first
call the name has that value as its entry, so that the second call reads it, and the
second call leaves the object state, in particular `_keepsNorms`, as the first left it. -/
theorem norm_idempotent (s : RecommenderSystem α) (v : List α) (m : String)
    (hm : m ≠ NOT_MOVIE) :
    (getNormAndKeepIfNotExit (getNormAndKeepIfNotExit s v m).2 v m).1 =
      (getNormAndKeepIfNotExit s v m).1 ∧
    (find s._keepsNorms m = none → (getNormAndKeepIfNotExit s v m).1 =
      HasSqrt.sqrt (_dotProduct v v s._numOfCharacteristics)) ∧
    find (getNormAndKeepIfNotExit s v m).2._keepsNorms m =
      some (getNormAndKeepIfNotExit s v m).1 ∧
    (getNormAndKeepIfNotExit (getNormAndKeepIfNotExit s v m).2 v m).2 =
      (getNormAndKeepIfNotExit s v m).2 := by
  have hfind : find (getNormAndKeepIfNotExit s v m).2._keepsNorms m =
      some (getNormAndKeepIfNotExit s v m).1 := by
    cases h : find s._keepsNorms m with
    | some x => rw [getNormAndKeepIfNotExit_of_cached h]; exact h
    | none =>
      rw [getNormAndKeepIfNotExit_find_of_new hm h, if_pos rfl, getNormAndKeepIfNotExit_fst]
      simp [normOf, h]
  refine ⟨?_, fun h => ?_, hfind, ?_⟩
  · rw [getNormAndKeepIfNotExit_of_cached hfind]
  · rw [getNormAndKeepIfNotExit_fst]
    simp [normOf, h]
  · rw [getNormAndKeepIfNotExit_of_cached hfind]

end RecommenderSystem

open RecommenderSystem

/-- C11, as stated, fails for two vectors under one name that has no entry in
`_keepsNorms`: the norm of the first vector is stored and then read for the second, so
the vectors `[1, 0]` and `[5, 0]` under the name `X` give 5 / (1 * 1) in one order and
5 / (5 * 5) in the other. -/
theorem similarity_not_symmetric_under_one_name :
    [(1 : ℚ), 0].length = sample._numOfCharacteristics ∧
    [(5 : ℚ), 0].length = sample._numOfCharacteristics ∧
    (getSimilierValue sample [1, 0] "X" [5, 0] "X").1 = 5 ∧
    (getSimilierValue sample [5, 0] "X" [1, 0] "X").1 = 1 / 5 ∧
    (getSimilierValue sample [1, 0] "X" [5, 0] "X").1 ≠
      (getSimilierValue sample [5, 0] "X" [1, 0] "X").1 := by
  decide!

theorem similarity_symmetric_witness :
    ("A" ≠ "C" ∨ "A" = NOT_MOVIE ∨ find sample._keepsNorms "A" ≠ none) ∧
    (getSimilierValue sample [3, 0] "A" [1, 0] "C").1 =
      (getSimilierValue sample [1, 0] "C" [3, 0] "A").1 :=
  ⟨Or.inl (by decide), similarity_symmetric sample [3, 0] [1, 0] "A" "C" (Or.inl (by decide))⟩

/-- C12, as stated, fails when the name has an entry for another vector: after the query
`predictMovieScoreForUser("C", "u", 2)` the cache holds the norm 3 of the stored vector
`[3, 0]` of the movie `A`, and the non-zero vector `[1, 0]` under the name `A` has the
similarity 1 / (3 * 3) with itself. -/
theorem cached_name_self_similarity :
    find (predictMovieScoreForUser sample "C" "u" 2).2._keepsNorms "A" = some 3 ∧
    _dotProduct [(1 : ℚ), 0] [1, 0] sample._numOfCharacteristics ≠ 0 ∧
    (getSimilierValue (predictMovieScoreForUser sample "C" "u" 2).2 [1, 0] "A" [1, 0] "A").1 =
      1 / 9 ∧
    (getSimilierValue (predictMovieScoreForUser sample "C" "u" 2).2 [1, 0] "A" [1, 0] "A").1 ≠
      1 := by
  decide!

theorem self_similarity_one_witness :
    ExactSqrt (_dotProduct [(3 : ℚ), 4] [3, 4] sample._numOfCharacteristics) ∧
    _dotProduct [(3 : ℚ), 4] [3, 4] sample._numOfCharacteristics ≠ 0 ∧
    (find sample._keepsNorms "F" = none ∨ find sample._keepsNorms "F" =
      some (HasSqrt.sqrt (_dotProduct [(3 : ℚ), 4] [3, 4] sample._numOfCharacteristics))) ∧
    (getSimilierValue sample [3, 4] "F" [3, 4] "F").1 = 1 :=
  ⟨by unfold ExactSqrt; decide!, by decide!, Or.inl rfl,
    self_similarity_one sample [3, 4] "F" (by unfold ExactSqrt; decide!) (by decide!) (Or.inl rfl)⟩

/-- C13, as stated, fails for two vectors under one name: `[1, 0]` and `[5, 0]` are
non-zero, the name `X` has no entry in `_keepsNorms`, and the similarity is
5 / (1 * 1) = 5, above 1.  (Were the norm of the second vector requested first, the call
with the two vectors exchanged would return this 5.) -/
theorem similarity_above_one_under_one_name :
    _dotProduct [(1 : ℚ), 0] [1, 0] sample._numOfCharacteristics ≠ 0 ∧
    _dotProduct [(5 : ℚ), 0] [5, 0] sample._numOfCharacteristics ≠ 0 ∧
    find sample._keepsNorms "X" = none ∧
    ¬ (getSimilierValue sample [1, 0] "X" [5, 0] "X").1 ≤ 1 := by
  decide!

theorem similarity_range_witness :
    -1 ≤ (getSimilierValue sample [3, 4] "F" [0, 1] "E").1 ∧
    (getSimilierValue sample [3, 4] "F" [0, 1] "E").1 ≤ 1 ∧
    INIT_SIMILIER < (getSimilierValue sample [3, 4] "F" [0, 1] "E").1 :=
  similarity_range sample [3, 4] [0, 1] "F" "E" (by unfold ExactSqrt; decide!)
    (by unfold ExactSqrt; decide!) (by decide!) (by decide!) (Or.inl rfl) (Or.inl rfl)
    (fun h => absurd h (by decide))

theorem norm_idempotent_witness :
    "A" ≠ NOT_MOVIE ∧
    (getNormAndKeepIfNotExit (getNormAndKeepIfNotExit sample [3, 0] "A").2 [3, 0] "A").1 =
      (getNormAndKeepIfNotExit sample [3, 0] "A").1 ∧
    (find sample._keepsNorms "A" = none → (getNormAndKeepIfNotExit sample [3, 0] "A").1 =
      HasSqrt.sqrt (_dotProduct [(3 : ℚ), 0] [3, 0] sample._numOfCharacteristics)) ∧
    find (getNormAndKeepIfNotExit sample [3, 0] "A").2._keepsNorms "A" =
      some (getNormAndKeepIfNotExit sample [3, 0] "A").1 ∧
    (getNormAndKeepIfNotExit (getNormAndKeepIfNotExit sample [3, 0] "A").2 [3, 0] "A").2 =
      (getNormAndKeepIfNotExit sample [3, 0] "A").2 :=
  ⟨by decide, norm_idempotent sample [3, 0] "A" (by decide)⟩

end RecSys

namespace RecSys

theorem getD_set_eq {α : Type} [Zero α] (l : List α) (i j : Nat) (a : α) :
    (l.set i a).getD j 0 = if i = j ∧ i < l.length then a else l.getD j 0 := by
  simp only [List.getD_eq_getElem?_getD, List.getElem?_set]
  by_cases h : i = j
  · subst h
    by_cases h2 : i < l.length
    · simp [h2]
    · simp [h2, List.getElem?_eq_none (not_lt.1 h2)]
  · simp [h]

theorem list_eq_of_getD {α : Type} [Zero α] (a b : List α) (n : Nat) (ha : a.length = n)
    (hb : b.length = n) (h : ∀ j < n, a.getD j 0 = b.getD j 0) : a = b := by
  apply List.ext_getElem (ha.trans hb.symm)
  intro j h1 h2
  have := h j (ha ▸ h1)
  rwa [List.getD_eq_getElem _ _ h1, List.getD_eq_getElem _ _ h2] at this

namespace RecommenderSystem

section AnyArithmetic

variable {α : Type} [Zero α] [One α] [Add α] [Sub α] [Mul α] [Div α] [Neg α] [NatCast α]
  [LT α] [DecidableRel (fun a b : α => a < b)] [HasSqrt α]

theorem preferenceInner_fst {s : RecommenderSystem α} (average : α) (rating : String × α)
    (is : List Nat) :
    ∀ acc : List α × RecommenderSystem α, Same s acc.2 →
      (is.foldl (preferenceStep average rating) acc).1 =
        is.foldl (fun vec i =>
          vec.set i (vec.getD i 0 + (rating.2 - average) * (feat s rating.1).getD i 0)) acc.1 := by
  induction is with
  | nil => intro acc _; rfl
  | cons i is ih =>
    intro acc hs
    simp only [List.foldl_cons]
    rw [ih _ (hs.andThen (preferenceStep_same average rating acc i))]
    simp only [preferenceStep, dataCharacteristicsAt_fst, hs.2.2.2.1]

/-- The loop over the components adds `c * f[j]` to every component below `k`. -/
theorem axpy_range (c : α) (f vec : List α) (k : Nat) (hk : k ≤ vec.length) :
    ((List.range k).foldl (fun v i => v.set i (v.getD i 0 + c * f.getD i 0)) vec).length =
      vec.length ∧
    ∀ j, ((List.range k).foldl (fun v i => v.set i (v.getD i 0 + c * f.getD i 0)) vec).getD j 0 =
      if j < k then vec.getD j 0 + c * f.getD j 0 else vec.getD j 0 := by
  induction k with
  | zero => simp
  | succ k ih =>
    obtain ⟨h1, h2⟩ := ih (Nat.le_of_succ_le hk)
    rw [List.range_succ, List.foldl_append]
    simp only [List.foldl_cons, List.foldl_nil, List.length_set]
    refine ⟨h1, fun j => ?_⟩
    rw [getD_set_eq, h1, h2 k]
    by_cases hjk : k = j
    · subst hjk
      simp [Nat.lt_of_succ_le hk]
    · have : ¬ (k = j ∧ k < vec.length) := fun h => hjk h.1
      rw [if_neg this, h2 j]
      by_cases hlt : j < k
      · simp [hlt, Nat.lt_succ_of_lt hlt]
      · have : ¬ j < k + 1 := fun h =>
          (Nat.lt_succ_iff_lt_or_eq.1 h).elim hlt (fun e => hjk e.symm)
        simp [hlt, this]

end AnyArithmetic

variable {α : Type} [LinearOrderedField α] [HasSqrt α]

/-! ## The nearest neighbour -/

/-- In exact arithmetic, that of an ordered field and not that of `double`: for a movie
of `_dataCharacteristics` and a user of `_userRating` with at least one rating, some rated
movie has a similarity to the movie that no rated movie exceeds,
and when that similarity is not 0, `predictMovieScoreForUser` with `k = 1` returns the
rating of that movie.  The similarities are those of `getSimilierValue`. -/
theorem predict_nearest_neighbour (s : RecommenderSystem α) (m u : String)
    (r : List (String × α)) (hm : find s._dataCharacteristics m ≠ none)
    (hu : find s._userRating u = some r) (hne : r ≠ []) (hnd : (r.map Prod.fst).Nodup) :
    ∃ p ∈ r,
      (∀ q ∈ r, (getSimilierValue s (feat s m) m (feat s q.1) q.1).1 ≤
        (getSimilierValue s (feat s m) m (feat s p.1) p.1).1) ∧
      ((getSimilierValue s (feat s m) m (feat s p.1) p.1).1 ≠ 0 →
        (predictMovieScoreForUser s m u 1).1 = p.2) := by
  have hsim : ∀ x, (getSimilierValue s (feat s m) m (feat s x) x).1 = similarity s m x :=
    fun x => (getSimilierValue_movies s m x).1
  simp only [hsim]
  obtain ⟨S, hsub, hlen, htop, hval⟩ := predictScore_top s m u 1 r hm hu hnd
  have hpos : 1 ≤ r.length := Nat.succ_le_of_lt (List.length_pos.2 hne)
  rw [Nat.min_eq_left hpos] at hlen
  obtain ⟨p, rfl⟩ := List.length_eq_one.1 hlen
  refine ⟨p, hsub.subset (List.mem_singleton_self p), fun q hq => ?_, fun h0 => ?_⟩
  · by_cases hqp : q ∈ [p]
    · rw [List.mem_singleton.1 hqp]
    · exact htop p (List.mem_singleton_self p) q hq hqp
  · rw [(predictMovieScoreForUser_spec s m u 1).1, hval]
    simp only [List.map_cons, List.map_nil, List.sum_cons, List.sum_nil, add_zero]
    rw [mul_comm, mul_div_assoc, div_self h0, mul_one]

/-! ## The preference vector -/

theorem foldl_add_eq_sum (r : List (String × α)) :
    ∀ a : α, r.foldl (fun value p => value + p.2) a = a + (r.map Prod.snd).sum := by
  induction r with
  | nil => intro a; simp
  | cons p r ih => intro a; simp [ih, add_assoc]

/-- The loop over the ratings adds, to every component, the sum of
`(rating - average) * feature` over the ratings. -/
theorem preferenceOuter_fst {s : RecommenderSystem α} (average : α)
    (ratings : List (String × α)) :
    ∀ acc : List α × RecommenderSystem α, Same s acc.2 →
      acc.1.length = s._numOfCharacteristics →
      (ratings.foldl (fun acc rating =>
        (List.range s._numOfCharacteristics).foldl (preferenceStep average rating) acc)
          acc).1.length = s._numOfCharacteristics ∧
      ∀ j < s._numOfCharacteristics,
        (ratings.foldl (fun acc rating =>
          (List.range s._numOfCharacteristics).foldl (preferenceStep average rating) acc)
            acc).1.getD j 0 =
          acc.1.getD j 0 +
            (ratings.map (fun p => (p.2 - average) * (feat s p.1).getD j 0)).sum := by
  induction ratings with
  | nil => intro acc _ hl; exact ⟨hl, fun j _ => by simp⟩
  | cons p ratings ih =>
    intro acc hs hl
    simp only [List.foldl_cons]
    have hsame := hs.andThen (preferenceInner_same average p
      (List.range s._numOfCharacteristics) acc)
    have hfst := preferenceInner_fst (s := s) average p
      (List.range s._numOfCharacteristics) acc hs
    obtain ⟨a1, a2⟩ := axpy_range (p.2 - average) (feat s p.1) acc.1
      s._numOfCharacteristics (le_of_eq hl.symm)
    rw [← hfst] at a1 a2
    obtain ⟨b1, b2⟩ := ih _ hsame (a1.trans hl)
    refine ⟨b1, fun j hj => ?_⟩
    rw [b2 j hj, a2 j, if_pos hj, List.map_cons, List.sum_cons, add_assoc]

/-- The preference vector of a user in terms of the ratings `r` of the user. -/
theorem tasteVector_components {s : RecommenderSystem α} {u : String}
    {r : List (String × α)} (hu : find s._userRating u = some r) :
    (tasteVector s u).length = s._numOfCharacteristics ∧
    ∀ j < s._numOfCharacteristics, (tasteVector s u).getD j 0 =
      (r.map (fun p => (p.2 - (r.map Prod.snd).sum / (r.length : α)) *
        (feat s p.1).getD j 0)).sum := by
  have hr : ratingsOf s u = r := by simp [ratingsOf, hu]
  have h := preferenceOuter_fst (s := s) ((r.map Prod.snd).sum / (r.length : α)) r
    (List.replicate s._numOfCharacteristics 0, s) (Same.same_refl s) (by simp)
  simp only [tasteVector, hr, preferenceVector, foldl_add_eq_sum, zero_add]
  refine ⟨h.1, fun j hj => ?_⟩
  rw [h.2 j hj]
  simp [List.getD_eq_getElem?_getD, List.getElem?_replicate, hj]

/-- In exact arithmetic, that of an ordered field and not that of `double`: for a user of
`_userRating` with the ratings `r`, the preference vector that
`recommendByContent` builds has as many components as a movie has features, its
component `j` is the sum over `r` of `(rating - average) * feature j of the movie`, where
`average` is the sum of the ratings divided by their number, and a state with the same
feature vectors in which the ratings of the user are enumerated in another order has the
same preference vector. -/
theorem taste_vector_formula (s : RecommenderSystem α) (u : String) (r : List (String × α))
    (hu : find s._userRating u = some r) :
    (tasteVector s u).length = s._numOfCharacteristics ∧
    (∀ j < s._numOfCharacteristics, (tasteVector s u).getD j 0 =
      (r.map (fun p => (p.2 - (r.map Prod.snd).sum / (r.length : α)) *
        (feat s p.1).getD j 0)).sum) ∧
    (∀ (s' : RecommenderSystem α) (r' : List (String × α)),
      s'._dataCharacteristics = s._dataCharacteristics →
      s'._numOfCharacteristics = s._numOfCharacteristics →
      find s'._userRating u = some r' → r.Perm r' → tasteVector s' u = tasteVector s u) := by
  obtain ⟨h1, h2⟩ := tasteVector_components hu
  refine ⟨h1, h2, fun s' r' hdc hnc hu' hperm => ?_⟩
  obtain ⟨g1, g2⟩ := tasteVector_components hu'
  rw [hnc] at g1 g2
  refine list_eq_of_getD _ _ _ g1 h1 (fun j hj => ?_)
  rw [g2 j hj, h2 j hj]
  have hfeat : ∀ x, feat s' x = feat s x := fun x => by simp [feat, hdc]
  simp only [hfeat, (hperm.map Prod.snd).sum_eq, hperm.length_eq]
  exact ((hperm.map _).sum_eq).symm

end RecommenderSystem

open RecommenderSystem

theorem predict_nearest_neighbour_witness :
    find sample._dataCharacteristics "C" ≠ none ∧
    find sample._userRating "u" = some [("A", 4), ("B", 2)] ∧
    ∃ p ∈ [("A", (4 : ℚ)), ("B", 2)],
      (∀ q ∈ [("A", (4 : ℚ)), ("B", 2)],
        (getSimilierValue sample (feat sample "C") "C" (feat sample q.1) q.1).1 ≤
          (getSimilierValue sample (feat sample "C") "C" (feat sample p.1) p.1).1) ∧
      ((getSimilierValue sample (feat sample "C") "C" (feat sample p.1) p.1).1 ≠ 0 →
        (predictMovieScoreForUser sample "C" "u" 1).1 = p.2) :=
  ⟨by decide, rfl,
    predict_nearest_neighbour sample "C" "u" _ (by decide) rfl (by decide) (by decide)⟩

/-- In the rational table `scenario` the average is 3, the preference vector is `[2, -2]`, its
similarity to `C` is 0 and `recommendByContent` returns `C`. -/
theorem taste_vector_formula_witness :
    find scenario._userRating "u" = some [("A", 5), ("B", 1)] ∧
    ([("A", (5 : ℚ)), ("B", 1)].map Prod.snd).sum / 2 = 3 ∧
    tasteVector scenario "u" = [2, -2] ∧
    (getSimilierValue scenario (tasteVector scenario "u") NOT_MOVIE
      (feat scenario "C") "C").1 = 0 ∧
    (recommendByContent scenario "u").1 = "C" ∧
    (tasteVector scenario "u").length = scenario._numOfCharacteristics ∧
    (∀ j < scenario._numOfCharacteristics, (tasteVector scenario "u").getD j 0 =
      ([("A", (5 : ℚ)), ("B", 1)].map (fun p =>
        (p.2 - ([("A", (5 : ℚ)), ("B", 1)].map Prod.snd).sum /
          (([("A", (5 : ℚ)), ("B", 1)].length : ℕ) : ℚ)) *
        (feat scenario p.1).getD j 0)).sum) :=
  ⟨rfl, by decide!, by decide!, by decide!, by decide!,
    (taste_vector_formula scenario "u" _ rfl).1, (taste_vector_formula scenario "u" _ rfl).2.1⟩

end RecSys

namespace RecSys
namespace RecommenderSystem

variable {α : Type} [LinearOrderedField α] [HasSqrt α]

/-! ## The queries leave the tables as they are -/

theorem frame_refl (s : RecommenderSystem α) : Frame s s :=
  ⟨rfl, rfl, rfl, rfl, rfl, fun _ _ h => h⟩

theorem frame_andThen {s₁ s₂ s₃ : RecommenderSystem α} (h₁ : Frame s₁ s₂) (h₂ : Frame s₂ s₃) :
    Frame s₁ s₃ :=
  ⟨h₂.1.trans h₁.1, h₂.2.1.trans h₁.2.1, h₂.2.2.1.trans h₁.2.2.1,
    h₂.2.2.2.1.trans h₁.2.2.2.1, h₂.2.2.2.2.1.trans h₁.2.2.2.2.1,
    fun name x h => h₂.2.2.2.2.2 name x (h₁.2.2.2.2.2 name x h)⟩

theorem getNormAndKeepIfNotExit_frame (s : RecommenderSystem α) (vec : List α) (m : String) :
    Frame s (getNormAndKeepIfNotExit s vec m).2 := by
  by_cases hc : m = NOT_MOVIE ∨ find s._keepsNorms m ≠ none
  · rw [getNormAndKeepIfNotExit_state_eq hc]
    exact frame_refl s
  · push_neg at hc
    refine ⟨?_, ?_, ?_, ?_, ?_, fun name x h => ?_⟩
    · simp [getNormAndKeepIfNotExit, hc.1, hc.2]
    · simp [getNormAndKeepIfNotExit, hc.1, hc.2]
    · simp [getNormAndKeepIfNotExit, hc.1, hc.2]
    · simp [getNormAndKeepIfNotExit, hc.1, hc.2]
    · simp [getNormAndKeepIfNotExit, hc.1, hc.2]
    · have hne : name ≠ m := fun e => by rw [e, hc.2] at h; exact Option.noConfusion h
      rw [getNormAndKeepIfNotExit_find_other s vec hne]
      exact h

theorem getSimilierValue_frame (s : RecommenderSystem α) (v₁ : List α) (m₁ : String)
    (v₂ : List α) (m₂ : String) : Frame s (getSimilierValue s v₁ m₁ v₂ m₂).2 :=
  frame_andThen (getNormAndKeepIfNotExit_frame s v₁ m₁)
    (getNormAndKeepIfNotExit_frame _ v₂ m₂)

theorem dataCharacteristicsAt_of_ne_none {s : RecommenderSystem α} {m : String}
    (h : find s._dataCharacteristics m ≠ none) : (dataCharacteristicsAt s m).2 = s := by
  obtain ⟨v, hv⟩ := Option.ne_none_iff_exists'.1 h
  rw [dataCharacteristicsAt_of_find hv]

theorem movieNamesByOrderAt_of_find {s : RecommenderSystem α} {i : Nat} {name : String}
    (h : find s._movieNamesByOrder i = some name) : movieNamesByOrderAt s i = (name, s) := by
  simp [movieNamesByOrderAt, subscript, h]

theorem storesValid_rated {s : RecommenderSystem α} (hv : StoresValid s) {u : String}
    {r : List (String × α)} (hu : find s._userRating u = some r) :
    ∀ p ∈ r, find s._dataCharacteristics p.1 ≠ none :=
  hv.1 (u, r) (mem_of_find hu)

theorem storesValid_ordered {s : RecommenderSystem α} (hv : StoresValid s) {i : Nat}
    (hi : i < s._numOfMovies) :
    ∃ name, find s._movieNamesByOrder i = some name ∧
      find s._dataCharacteristics name ≠ none := by
  obtain ⟨name, hname⟩ := Option.ne_none_iff_exists'.1 (hv.2.2 i hi)
  exact ⟨name, hname, hv.2.1 (i, name) (mem_of_find hname)⟩

theorem preferenceInner_snd (average : α) (rating : String × α) (s : RecommenderSystem α)
    (h : find s._dataCharacteristics rating.1 ≠ none) (is : List Nat) :
    ∀ acc : List α × RecommenderSystem α, acc.2 = s →
      (is.foldl (preferenceStep average rating) acc).2 = s := by
  induction is with
  | nil => intro acc ha; exact ha
  | cons i is ih =>
    intro acc ha
    simp only [List.foldl_cons]
    apply ih
    simp only [preferenceStep, ha]
    exact dataCharacteristicsAt_of_ne_none h

theorem preferenceOuter_snd (average : α) (n : Nat) (s : RecommenderSystem α)
    (ratings : List (String × α)) :
    (∀ p ∈ ratings, find s._dataCharacteristics p.1 ≠ none) →
    ∀ acc : List α × RecommenderSystem α, acc.2 = s →
      (ratings.foldl (fun acc rating =>
        (List.range n).foldl (preferenceStep average rating) acc) acc).2 = s := by
  induction ratings with
  | nil => intro _ acc ha; exact ha
  | cons p ratings ih =>
    intro hall acc ha
    simp only [List.foldl_cons]
    exact ih (fun q hq => hall q (List.mem_cons_of_mem _ hq)) _
      (preferenceInner_snd average p s (hall p (List.mem_cons_self _ _)) _ acc ha)

theorem contentStep_frame {s : RecommenderSystem α} (hv : StoresValid s) {u : String}
    {r : List (String × α)} (hu : find s._userRating u = some r) (v : List α)
    (acc : String × α × RecommenderSystem α) (hs : Frame s acc.2.2) (i : Nat)
    (hi : i < s._numOfMovies) : Frame s (contentStep u v acc i).2.2 := by
  obtain ⟨w, mx, s'⟩ := acc
  simp only at hs
  obtain ⟨name, hname, hdc⟩ := storesValid_ordered hv hi
  have hname' : find s'._movieNamesByOrder i = some name := by rw [hs.2.2.1]; exact hname
  have hu' : find s'._userRating u = some r := by rw [hs.2.1]; exact hu
  have hdc' : find s'._dataCharacteristics name ≠ none := by rw [hs.1]; exact hdc
  simp only [contentStep, movieNamesByOrderAt_of_find hname', notRated_of_find hu',
    dataCharacteristicsAt_of_ne_none hdc']
  cases hr : (find r name).isNone
  · simpa using hs
  · simp only [if_true]
    have hg := frame_andThen hs (getSimilierValue_frame s' v NOT_MOVIE
      (dataCharacteristicsAt s' name).1 name)
    split <;> exact hg

theorem contentFold_frame {s : RecommenderSystem α} (hv : StoresValid s) {u : String}
    {r : List (String × α)} (hu : find s._userRating u = some r) (v : List α)
    (is : List Nat) :
    (∀ i ∈ is, i < s._numOfMovies) →
    ∀ acc : String × α × RecommenderSystem α, Frame s acc.2.2 →
      Frame s (is.foldl (contentStep u v) acc).2.2 := by
  induction is with
  | nil => intro _ acc hs; exact hs
  | cons i is ih =>
    intro hall acc hs
    simp only [List.foldl_cons]
    exact ih (fun j hj => hall j (List.mem_cons_of_mem _ hj)) _
      (contentStep_frame hv hu v acc hs i (hall i (List.mem_cons_self _ _)))

theorem recommendByContent_frame {s : RecommenderSystem α} (hv : StoresValid s) (u : String) :
    Frame s (recommendByContent s u).2 := by
  cases hu : find s._userRating u with
  | none => simp [recommendByContent, hu]; exact frame_refl s
  | some r =>
    have hp := preferenceOuter_snd (r.foldl (fun value p => value + p.2) 0 / (r.length : α))
      s._numOfCharacteristics s r (storesValid_rated hv hu)
      (List.replicate s._numOfCharacteristics 0, s) rfl
    have hp' : (preferenceVector s r
        (r.foldl (fun value p => value + p.2) 0 / (r.length : α))).2 = s := hp
    simp only [recommendByContent, hu, Option.isNone_some, userRatingAt_of_find hu, hp']
    exact contentFold_frame hv hu _ _ (fun i hi => List.mem_range.1 hi) _ (frame_refl s)

theorem similarityStep_frame {s : RecommenderSystem α} {m : String}
    (hm : find s._dataCharacteristics m ≠ none)
    (acc : List (α × String) × RecommenderSystem α) (hs : Frame s acc.2) (it : String × α)
    (hit : find s._dataCharacteristics it.1 ≠ none) :
    Frame s (similarityStep m acc it).2 := by
  obtain ⟨setK, s'⟩ := acc
  simp only at hs
  have hm' : find s'._dataCharacteristics m ≠ none := by rw [hs.1]; exact hm
  have hit' : find s'._dataCharacteristics it.1 ≠ none := by rw [hs.1]; exact hit
  simp only [similarityStep, dataCharacteristicsAt_of_ne_none hm',
    dataCharacteristicsAt_of_ne_none hit']
  exact frame_andThen hs (getSimilierValue_frame s' _ _ _ _)

theorem similarityFold_frame {s : RecommenderSystem α} {m : String}
    (hm : find s._dataCharacteristics m ≠ none) (its : List (String × α)) :
    (∀ it ∈ its, find s._dataCharacteristics it.1 ≠ none) →
    ∀ acc : List (α × String) × RecommenderSystem α, Frame s acc.2 →
      Frame s (its.foldl (similarityStep m) acc).2 := by
  induction its with
  | nil => intro _ acc hs; exact hs
  | cons it its ih =>
    intro hall acc hs
    simp only [List.foldl_cons]
    exact ih (fun x hx => hall x (List.mem_cons_of_mem _ hx)) _
      (similarityStep_frame hm acc hs it (hall it (List.mem_cons_self _ _)))

/-- The state after `predictMovieScoreForUser` is the state after its first loop. -/
theorem predictMovieScoreForUser_snd {s : RecommenderSystem α} {m u : String}
    {r : List (String × α)} (hm : find s._dataCharacteristics m ≠ none)
    (hu : find s._userRating u = some r) (k : Nat) :
    (predictMovieScoreForUser s m u k).2 = (r.foldl (similarityStep m) ([], s)).2 := by
  have hg : ¬ ((find s._dataCharacteristics m).isNone = true ∨
      (find s._userRating u).isNone = true) := by
    rintro (h | h)
    · exact hm (by simpa using h)
    · simp [hu] at h
  have hro : ratingsOf s u = r := by simp [ratingsOf, hu]
  have hrated : ∀ it ∈ r, find (ratingsOf s u) it.1 ≠ none := fun it hit => by
    obtain ⟨v, hv⟩ := find_of_mem_keys hit
    simp [hro, hv]
  obtain ⟨f1, f2⟩ := similarityFold_spec hm r hrated ([], s) (SameFor.sameFor_refl u s)
  have hsel : ∀ p ∈ ((r.foldl (similarityStep m) ([], s)).1.reverse.take k),
      find r p.2 ≠ none := fun p hp => by
    have hp' := List.mem_reverse.1 ((List.take_subset _ _) hp)
    rw [f1] at hp'
    exact neighbours_rated s m r p hp'
  have hu' : find (r.foldl (similarityStep m) ([], s)).2._userRating u = some r := by
    rw [f2.1.1]; exact hu
  have hw := weightFold_spec _ hsel (0, 0, (r.foldl (similarityStep m) ([], s)).2) hu'
  unfold predictMovieScoreForUser
  rw [if_neg hg, userRatingAt_of_find hu]
  simp only [hw]

theorem predictMovieScoreForUser_frame {s : RecommenderSystem α} (hv : StoresValid s)
    (m u : String) (k : Nat) : Frame s (predictMovieScoreForUser s m u k).2 := by
  by_cases hg : find s._dataCharacteristics m = none ∨ find s._userRating u = none
  · rw [predictMovieScoreForUser_of_absent s m u k hg]
    exact frame_refl s
  · push_neg at hg
    obtain ⟨r, hr⟩ := Option.ne_none_iff_exists'.1 hg.2
    rw [predictMovieScoreForUser_snd hg.1 hr]
    exact similarityFold_frame hg.1 r (storesValid_rated hv hr) _ (frame_refl s)

theorem storesValid_of_frame {s s' : RecommenderSystem α} (hv : StoresValid s)
    (hs : Frame s s') : StoresValid s' := by
  obtain ⟨h1, h2, h3, h4, _, _⟩ := hs
  unfold StoresValid
  rw [h1, h2, h3, h4]
  exact hv

theorem cfStep_frame {s : RecommenderSystem α} (hv : StoresValid s) {u : String}
    {r : List (String × α)} (hu : find s._userRating u = some r) (k : Nat)
    (acc : String × α × RecommenderSystem α) (hs : Frame s acc.2.2) (i : Nat)
    (hi : i < s._numOfMovies) : Frame s (cfStep u k acc i).2.2 := by
  obtain ⟨w, mx, s'⟩ := acc
  simp only at hs
  obtain ⟨name, hname, _⟩ := storesValid_ordered hv hi
  have hname' : find s'._movieNamesByOrder i = some name := by rw [hs.2.2.1]; exact hname
  have hu' : find s'._userRating u = some r := by rw [hs.2.1]; exact hu
  simp only [cfStep, movieNamesByOrderAt_of_find hname', notRated_of_find hu']
  cases hr : (find r name).isNone
  · simpa using hs
  · simp only [if_true]
    have hg := frame_andThen hs
      (predictMovieScoreForUser_frame (storesValid_of_frame hv hs) name u k)
    split <;> exact hg

theorem cfFold_frame {s : RecommenderSystem α} (hv : StoresValid s) {u : String}
    {r : List (String × α)} (hu : find s._userRating u = some r) (k : Nat) (is : List Nat) :
    (∀ i ∈ is, i < s._numOfMovies) →
    ∀ acc : String × α × RecommenderSystem α, Frame s acc.2.2 →
      Frame s (is.foldl (cfStep u k) acc).2.2 := by
  induction is with
  | nil => intro _ acc hs; exact hs
  | cons i is ih =>
    intro hall acc hs
    simp only [List.foldl_cons]
    exact ih (fun j hj => hall j (List.mem_cons_of_mem _ hj)) _
      (cfStep_frame hv hu k acc hs i (hall i (List.mem_cons_self _ _)))

theorem recommendByCF_frame {s : RecommenderSystem α} (hv : StoresValid s) (u : String)
    (k : Nat) : Frame s (recommendByCF s u k).2 := by
  cases hu : find s._userRating u with
  | none => simp [recommendByCF, hu]; exact frame_refl s
  | some r =>
    simp only [recommendByCF, hu, Option.isNone_some]
    exact cfFold_frame hv hu k _ (fun i hi => List.mem_range.1 hi) _ (frame_refl s)

/-- C17: on tables in which every rated movie and every movie of `_movieNamesByOrder` has
a feature vector and `_movieNamesByOrder` has a name at every index below `_numOfMovies`,
each of `recommendByContent`, `predictMovieScoreForUser` and `recommendByCF` leaves
`_dataCharacteristics`, `_userRating` and `_movieNamesByOrder` as they were, and every
entry of `_keepsNorms` before the call is an entry with the same value after it. -/
theorem queries_read_only (s : RecommenderSystem α) (hv : StoresValid s) (m u : String)
    (k : Nat) :
    Frame s (recommendByContent s u).2 ∧ Frame s (predictMovieScoreForUser s m u k).2 ∧
    Frame s (recommendByCF s u k).2 :=
  ⟨recommendByContent_frame hv u, predictMovieScoreForUser_frame hv m u k,
    recommendByCF_frame hv u k⟩

end RecommenderSystem

open RecommenderSystem

theorem queries_read_only_witness :
    StoresValid sample ∧
    Frame sample (recommendByContent sample "u").2 ∧
    Frame sample (predictMovieScoreForUser sample "C" "u" 2).2 ∧
    Frame sample (recommendByCF sample "u" 2).2 :=
  ⟨by unfold StoresValid; decide,
    queries_read_only sample (by unfold StoresValid; decide) "C" "u" 2⟩

end RecSys

namespace RecSys
namespace RecommenderSystem

variable {α : Type} [LinearOrderedField α] [HasSqrt α]

/-! ## Sequences of calls -/

theorem runQuery_same (s : RecommenderSystem α) (q : Query) : Same s (runQuery s q) := by
  cases q with
  | content u =>
    cases hu : find s._userRating u with
    | none => simp [runQuery, recommendByContent, hu]; exact Same.same_refl s
    | some r => exact (recommendByContent_spec hu).2
  | predict m u k => exact (predictMovieScoreForUser_spec s m u k).2.1
  | cf u k =>
    cases hu : find s._userRating u with
    | none => simp [runQuery, recommendByCF, hu]; exact Same.same_refl s
    | some r => exact (recommendByCF_spec hu k).2.1

theorem runQueries_same (qs : List Query) :
    ∀ s : RecommenderSystem α, Same s (runQueries s qs) := by
  induction qs with
  | nil => intro s; exact Same.same_refl s
  | cons q qs ih =>
    intro s
    exact (runQuery_same s q).andThen (ih _)

theorem runQuery_frame {s : RecommenderSystem α} (hv : StoresValid s) (q : Query) :
    Frame s (runQuery s q) := by
  cases q with
  | content u => exact recommendByContent_frame hv u
  | predict m u k => exact predictMovieScoreForUser_frame hv m u k
  | cf u k => exact recommendByCF_frame hv u k

theorem runQueries_frame (qs : List Query) :
    ∀ s : RecommenderSystem α, StoresValid s → Frame s (runQueries s qs) := by
  induction qs with
  | nil => intro s _; exact frame_refl s
  | cons q qs ih =>
    intro s hv
    have h1 := runQuery_frame hv q
    exact frame_andThen h1 (ih _ (storesValid_of_frame hv h1))

theorem getNormAndKeepIfNotExit_find_notMovie (s : RecommenderSystem α) (vec : List α)
    (m : String) :
    find (getNormAndKeepIfNotExit s vec m).2._keepsNorms NOT_MOVIE =
      find s._keepsNorms NOT_MOVIE := by
  by_cases hm : m = NOT_MOVIE
  · rw [hm, getNormAndKeepIfNotExit_notMovie]
  · exact getNormAndKeepIfNotExit_find_other s vec (fun e => hm e.symm)

theorem runCall_find_notMovie (s : RecommenderSystem α) (c : Call α) :
    find (runCall s c)._keepsNorms NOT_MOVIE = find s._keepsNorms NOT_MOVIE := by
  cases c with
  | norm vec m => exact getNormAndKeepIfNotExit_find_notMovie s vec m
  | similarity v₁ m₁ v₂ m₂ =>
    simp only [runCall, getSimilierValue, getNormAndKeepIfNotExit_find_notMovie]
  | query q => exact (runQuery_same s q).2.2.2.2.2.2

theorem runCalls_find_notMovie (cs : List (Call α)) :
    ∀ s : RecommenderSystem α,
      find (runCalls s cs)._keepsNorms NOT_MOVIE = find s._keepsNorms NOT_MOVIE := by
  induction cs with
  | nil => intro s; rfl
  | cons c cs ih =>
    intro s
    exact (ih (runCall s c)).trans (runCall_find_notMovie s c)

/-! ## The preference vector is never cached -/

/-- C18: from a state without an entry for `NOT_MOVIE` in `_keepsNorms`, after any sequence
of calls of `getNormAndKeepIfNotExit`, `getSimilierValue`, `recommendByContent`,
`predictMovieScoreForUser` and `recommendByCF` there is still no such entry; a norm
request under that name returns the square root of the dot product of the vector passed
with itself and leaves the state as it is; and `recommendByContent` scores every candidate
with that square root as the norm of the preference vector. -/
theorem not_movie_never_cached (s : RecommenderSystem α)
    (h : find s._keepsNorms NOT_MOVIE = none) (cs : List (Call α)) :
    find (runCalls s cs)._keepsNorms NOT_MOVIE = none ∧
    (∀ v : List α, getNormAndKeepIfNotExit (runCalls s cs) v NOT_MOVIE =
      (HasSqrt.sqrt (_dotProduct v v (runCalls s cs)._numOfCharacteristics), runCalls s cs)) ∧
    (∀ u r, find (runCalls s cs)._userRating u = some r →
      (recommendByContent (runCalls s cs) u).1 =
        (scan (movieAt (runCalls s cs)) (fun j => unrated (runCalls s cs) u
            (movieAt (runCalls s cs) j))
          (fun j => _dotProduct (tasteVector (runCalls s cs) u)
              (feat (runCalls s cs) (movieAt (runCalls s cs) j))
              (runCalls s cs)._numOfCharacteristics /
            (HasSqrt.sqrt (_dotProduct (tasteVector (runCalls s cs) u)
                (tasteVector (runCalls s cs) u) (runCalls s cs)._numOfCharacteristics) *
              normOf (runCalls s cs) (feat (runCalls s cs) (movieAt (runCalls s cs) j))
                (movieAt (runCalls s cs) j)))
          INIT_SIMILIER (runCalls s cs)._numOfMovies).1) := by
  have hst : find (runCalls s cs)._keepsNorms NOT_MOVIE = none :=
    (runCalls_find_notMovie cs s).trans h
  have hn : ∀ v : List α, normOf (runCalls s cs) v NOT_MOVIE =
      HasSqrt.sqrt (_dotProduct v v (runCalls s cs)._numOfCharacteristics) := fun v => by
    simp [normOf, hst]
  refine ⟨hst, fun v => ?_, fun u r hu => ?_⟩
  · have h1 := getNormAndKeepIfNotExit_fst (runCalls s cs) v NOT_MOVIE
    have h2 := getNormAndKeepIfNotExit_notMovie (runCalls s cs) v
    rw [hn v] at h1
    exact Prod.ext h1 h2
  · rw [(recommendByContent_spec hu).1]
    simp only [tasteSimilarity, hn]

/-! ## Memoisation is transparent -/

theorem cacheCoherent_of_same {s s' : RecommenderSystem α} (hc : CacheCoherent s)
    (hs : Same s s') : CacheCoherent s' := by
  obtain ⟨_, _, h3, h4, _, h6, h7⟩ := hs
  refine ⟨h7.trans hc.1, fun name x hx => ?_⟩
  have h := h6 name
  rw [normOf_of_coherent hc] at h
  rw [h4 name, h3, ← h]
  simp [normOf, hx]

theorem neighbours_eq_uncached {s : RecommenderSystem α} (hc : CacheCoherent s)
    (m : String) (r : List (String × α)) : neighbours s m r = uncachedNeighbours s m r := by
  simp only [neighbours, uncachedNeighbours, similarity_of_coherent hc]

theorem predictScore_eq_uncached {s : RecommenderSystem α} (hc : CacheCoherent s)
    (m u : String) (k : Nat) : predictScore s m u k = uncachedPredictScore s m u k := by
  simp only [predictScore, uncachedPredictScore, neighbours_eq_uncached hc]

theorem recommendByContent_eq_uncached {s : RecommenderSystem α} (hc : CacheCoherent s)
    (u : String) : (recommendByContent s u).1 = uncachedRecommendByContent s u := by
  cases hu : find s._userRating u with
  | none => simp [recommendByContent, uncachedRecommendByContent, hu]
  | some r =>
    rw [(recommendByContent_spec hu).1]
    simp [uncachedRecommendByContent, hu, tasteSimilarity_of_coherent hc]

theorem recommendByCF_eq_uncached {s : RecommenderSystem α} (hc : CacheCoherent s)
    (u : String) (k : Nat) : (recommendByCF s u k).1 = uncachedRecommendByCF s u k := by
  cases hu : find s._userRating u with
  | none => simp [recommendByCF, uncachedRecommendByCF, hu]
  | some r =>
    rw [(recommendByCF_spec hu k).1]
    simp [uncachedRecommendByCF, hu, predictScore_eq_uncached hc]

/-- C19: in the state after any sequence of calls of `recommendByContent`,
`predictMovieScoreForUser` and `recommendByCF` from a state with an empty `_keepsNorms`,
every entry of `_keepsNorms` is the square root of the dot product of the stored feature
vector of its movie with itself, and each of the three queries returns what the same
query returns when every similarity is computed as
`dot(a, b) / (sqrt(dot(a, a)) * sqrt(dot(b, b)))`; on tables that satisfy the store
invariants the tables of that state are those of the initial state. -/
theorem memoization_transparent (s : RecommenderSystem α) (h : s._keepsNorms = [])
    (qs : List Query) :
    (∀ name x, find (runQueries s qs)._keepsNorms name = some x →
      x = HasSqrt.sqrt (_dotProduct (feat (runQueries s qs) name) (feat (runQueries s qs) name)
        (runQueries s qs)._numOfCharacteristics)) ∧
    (∀ u, (recommendByContent (runQueries s qs) u).1 =
      uncachedRecommendByContent (runQueries s qs) u) ∧
    (∀ m u k, (predictMovieScoreForUser (runQueries s qs) m u k).1 =
      uncachedPredictScore (runQueries s qs) m u k) ∧
    (∀ u k, (recommendByCF (runQueries s qs) u k).1 =
      uncachedRecommendByCF (runQueries s qs) u k) ∧
    (StoresValid s → Frame s (runQueries s qs)) := by
  have hc : CacheCoherent (runQueries s qs) :=
    cacheCoherent_of_same (cacheCoherent_of_empty h) (runQueries_same qs s)
  refine ⟨hc.2, fun u => recommendByContent_eq_uncached hc u, fun m u k => ?_,
    fun u k => recommendByCF_eq_uncached hc u k, fun hv => runQueries_frame qs s hv⟩
  rw [(predictMovieScoreForUser_spec _ m u k).1, predictScore_eq_uncached hc]

end RecommenderSystem

open RecommenderSystem

theorem not_movie_never_cached_witness :
    find sample._keepsNorms NOT_MOVIE = none ∧
    find (runCalls sample [Call.norm [1, 2] "NOT_MOVIE",
      Call.similarity [1, 0] "NOT_MOVIE" [3, 0] "A", Call.query (Query.content "u"),
      Call.query (Query.cf "u" 2)])._keepsNorms NOT_MOVIE = none :=
  ⟨rfl, (not_movie_never_cached sample rfl [Call.norm [1, 2] "NOT_MOVIE",
    Call.similarity [1, 0] "NOT_MOVIE" [3, 0] "A", Call.query (Query.content "u"),
    Call.query (Query.cf "u" 2)]).1⟩

theorem memoization_transparent_witness :
    sample._keepsNorms = [] ∧
    (recommendByCF (runQueries sample [Query.content "u", Query.predict "C" "u" 2,
      Query.cf "w" 3]) "u" 2).1 =
      uncachedRecommendByCF (runQueries sample [Query.content "u", Query.predict "C" "u" 2,
        Query.cf "w" 3]) "u" 2 :=
  ⟨rfl, (memoization_transparent sample rfl [Query.content "u", Query.predict "C" "u" 2,
    Query.cf "w" 3]).2.2.2.1 "u" 2⟩

end RecSys

namespace RecSys
namespace RecommenderSystem

section AnyArithmetic

variable {α : Type} [Zero α] [One α] [Add α] [Sub α] [Mul α] [Div α] [Neg α] [NatCast α]
  [LT α] [DecidableRel (fun a b : α => a < b)] [HasSqrt α]

theorem similarity_congr {s s' : RecommenderSystem α}
    (hdc : s'._dataCharacteristics = s._dataCharacteristics)
    (hkn : s'._keepsNorms = s._keepsNorms)
    (hnc : s'._numOfCharacteristics = s._numOfCharacteristics) :
    similarity s' = similarity s := by
  funext a b
  simp only [similarity, feat, normOf, hdc, hkn, hnc]

theorem neighbours_congr {s s' : RecommenderSystem α} (h : similarity s' = similarity s)
    (m : String) (r : List (String × α)) : neighbours s' m r = neighbours s m r := by
  simp only [neighbours, h]

end AnyArithmetic

variable {α : Type} [LinearOrderedField α] [HasSqrt α]

/-! ## The order in which the ratings are enumerated -/

/-- Two multimaps built from the same ratings in two orders are the same list when the
similarities are pairwise different. -/
theorem neighbours_eq_of_perm (s : RecommenderSystem α) (m : String)
    {r r' : List (String × α)} (hperm : r.Perm r')
    (hdist : (r.map (fun p => similarity s m p.1)).Nodup) :
    neighbours s m r' = neighbours s m r := by
  have hN := neighbours_perm s m r
  have hN' := neighbours_perm s m r'
  have hNN : (neighbours s m r').Perm (neighbours s m r) :=
    hN'.trans ((hperm.symm.map _).trans hN.symm)
  have hkeys : ∀ l : List (String × α), (neighbours s m l).Perm
      (l.map (fun it => (similarity s m it.1, it.1))) →
      (l.map (fun p => similarity s m p.1)).Nodup →
      (neighbours s m l).Pairwise (fun a b => a.1 < b.1) := fun l hl hd => by
    have h1 : ((neighbours s m l).map Prod.fst).Nodup := by
      have := (hl.map Prod.fst).nodup_iff.2 (by simpa [List.map_map] using hd)
      exact this
    have h2 : (neighbours s m l).Pairwise (fun a b => a.1 ≠ b.1) :=
      List.pairwise_map.1 h1
    exact ((neighbours_sorted s m l).and h2).imp (fun h => lt_of_le_of_ne h.1 h.2)
  have hd' : (r'.map (fun p => similarity s m p.1)).Nodup :=
    (hperm.map _).nodup_iff.1 hdist
  haveI : IsAntisymm (α × String) (fun a b => a.1 < b.1) :=
    ⟨fun a b h1 h2 => absurd h1 (not_lt_of_gt h2)⟩
  exact List.eq_of_perm_of_sorted hNN (hkeys r' hN' hd') (hkeys r hN hdist)

theorem predictScore_order_independent {s s' : RecommenderSystem α} {m u : String} (k : Nat)
    {r r' : List (String × α)}
    (hdc : s'._dataCharacteristics = s._dataCharacteristics)
    (hkn : s'._keepsNorms = s._keepsNorms)
    (hnc : s'._numOfCharacteristics = s._numOfCharacteristics)
    (hu : find s._userRating u = some r) (hu' : find s'._userRating u = some r')
    (hperm : r.Perm r') (hnd : (r.map Prod.fst).Nodup)
    (hdist : (r.map (fun p => similarity s m p.1)).Nodup ∨ r.length ≤ k) :
    predictScore s' m u k = predictScore s m u k := by
  have hsim := similarity_congr hdc hkn hnc
  have hnd' : (r'.map Prod.fst).Nodup := (hperm.map Prod.fst).nodup_iff.1 hnd
  by_cases hm : find s._dataCharacteristics m = none
  · simp [predictScore, hdc, hm]
  · have hm' : find s'._dataCharacteristics m ≠ none := by rw [hdc]; exact hm
    rcases hdist with hdist | hk
    · rw [predictScore_of_found hm' hu', predictScore_of_found hm hu,
        neighbours_congr hsim, neighbours_eq_of_perm s m hperm hdist]
      have hfind : ∀ t ∈ (neighbours s m r).reverse.take k,
          (find r' t.2).getD 0 = (find r t.2).getD 0 := fun t ht => by
        have ht' := List.mem_reverse.1 ((List.take_subset _ _) ht)
        obtain ⟨it, hit, rfl⟩ := neighbours_mem ht'
        simp [find_of_mem_nodup hnd hit, find_of_mem_nodup hnd' (hperm.subset hit)]
      congr 2
      exact List.map_congr_left (fun t ht => by rw [hfind t ht])
    · rw [predictScore_all s' m u k r' hm' hu' hnd' (by rw [← hperm.length_eq]; exact hk),
        predictScore_all s m u k r hm hu hnd hk, hsim,
        (hperm.map _).sum_eq, (hperm.map _).sum_eq]

/-- In exact arithmetic, that of an ordered field and not that of `double`: two states
with the same feature vectors and norm cache, in which the
ratings of the user are the same pairs enumerated in two orders, give the same number from
`predictMovieScoreForUser` when the similarities of the movie to the rated movies are
pairwise different or `k` is at least the number of ratings. -/
theorem predict_order_independent (s s' : RecommenderSystem α) (m u : String) (k : Nat)
    (r r' : List (String × α))
    (hdc : s'._dataCharacteristics = s._dataCharacteristics)
    (hkn : s'._keepsNorms = s._keepsNorms)
    (hnc : s'._numOfCharacteristics = s._numOfCharacteristics)
    (hu : find s._userRating u = some r) (hu' : find s'._userRating u = some r')
    (hperm : r.Perm r') (hnd : (r.map Prod.fst).Nodup)
    (hdist : (r.map (fun p =>
        (getSimilierValue s (feat s m) m (feat s p.1) p.1).1)).Nodup ∨ r.length ≤ k) :
    (predictMovieScoreForUser s' m u k).1 = (predictMovieScoreForUser s m u k).1 := by
  have hsim : ∀ x, (getSimilierValue s (feat s m) m (feat s x) x).1 = similarity s m x :=
    fun x => (getSimilierValue_movies s m x).1
  simp only [hsim] at hdist
  rw [(predictMovieScoreForUser_spec s' m u k).1, (predictMovieScoreForUser_spec s m u k).1]
  exact predictScore_order_independent k hdc hkn hnc hu hu' hperm hnd hdist

end RecommenderSystem

open RecommenderSystem

/-- C20, as stated, fails when two rated movies are equally similar to the movie: in `tie`
and `tieSwapped` the user `u` has the ratings `A = 5` and `B = 1`, both movies have the
similarity 1 to `Q`, and for `k = 1` the prediction is the rating of the movie enumerated
last, 1 in `tie` and 5 in `tieSwapped`. -/
theorem predict_depends_on_enumeration_order :
    find tie._userRating "u" = some [("A", 5), ("B", 1)] ∧
    find tieSwapped._userRating "u" = some [("B", 1), ("A", 5)] ∧
    [("A", (5 : ℚ)), ("B", 1)].Perm [("B", 1), ("A", 5)] ∧
    tieSwapped._dataCharacteristics = tie._dataCharacteristics ∧
    (predictMovieScoreForUser tie "Q" "u" 1).1 = 1 ∧
    (predictMovieScoreForUser tieSwapped "Q" "u" 1).1 = 5 ∧
    (predictMovieScoreForUser tie "Q" "u" 1).1 ≠
      (predictMovieScoreForUser tieSwapped "Q" "u" 1).1 :=
  ⟨rfl, rfl, List.Perm.swap _ _ _, rfl, by decide!, by decide!, by decide!⟩

theorem predict_order_independent_witness :
    find sample._userRating "u" = some [("A", 4), ("B", 2)] ∧
    [("A", (4 : ℚ)), ("B", 2)].Perm [("B", 2), ("A", 4)] ∧
    (predictMovieScoreForUser
      { sample with _userRating := [("u", [("B", 2), ("A", 4)])] } "C" "u" 1).1 =
      (predictMovieScoreForUser sample "C" "u" 1).1 :=
  ⟨rfl, List.Perm.swap _ _ _,
    predict_order_independent sample { sample with _userRating := [("u", [("B", 2), ("A", 4)])] }
      "C" "u" 1 _ _ rfl rfl rfl rfl rfl (List.Perm.swap _ _ _) (by decide)
      (Or.inl (by decide!))⟩

end RecSys

namespace RecSys

/-! ## Statements for every arithmetic, that of doubles included -/

theorem strictTotalOn_of_linearOrder {α : Type} [LinearOrder α] (ks : List α) :
    StrictTotalOn ks :=
  ⟨fun x _ => lt_irrefl x, fun _ _ _ _ _ _ h₁ h₂ => lt_trans h₁ h₂,
    fun _ _ _ _ h => lt_or_gt_of_ne h⟩

theorem eq_of_perm_of_pairwise {β : Type} {R : β → β → Prop} :
    ∀ {l₁ l₂ : List β}, l₁.Perm l₂ → l₁.Pairwise R → l₂.Pairwise R →
      (∀ a ∈ l₁, ∀ b ∈ l₁, R a b → R b a → False) → l₁ = l₂ := by
  intro l₁
  induction l₁ with
  | nil => intro l₂ hp _ _ _; exact (List.nil_perm.1 hp).symm
  | cons a t₁ ih =>
    intro l₂ hp h₁ h₂ hasym
    cases l₂ with
    | nil => exact absurd (List.perm_nil.1 hp) (List.cons_ne_nil a t₁)
    | cons b t₂ =>
      have hab : a = b := by
        by_contra hne
        have ha : a ∈ t₂ := by
          rcases List.mem_cons.1 (hp.subset (List.mem_cons_self a t₁)) with h | h
          · exact absurd h hne
          · exact h
        have hb : b ∈ t₁ := by
          rcases List.mem_cons.1 (hp.symm.subset (List.mem_cons_self b t₂)) with h | h
          · exact absurd h.symm hne
          · exact h
        exact hasym a (List.mem_cons_self a t₁) b (List.mem_cons_of_mem a hb)
          ((List.pairwise_cons.1 h₁).1 b hb) ((List.pairwise_cons.1 h₂).1 a ha)
      subst hab
      rw [ih (List.Perm.cons_inv hp) (List.pairwise_cons.1 h₁).2 (List.pairwise_cons.1 h₂).2
        (fun x hx y hy => hasym x (List.mem_cons_of_mem a hx) y (List.mem_cons_of_mem a hy))]

theorem foldl_congr_of_mem {β γ : Type} (f g : γ → β → γ) (l : List β) :
    (∀ c, ∀ x ∈ l, f c x = g c x) → ∀ c, l.foldl f c = l.foldl g c := by
  induction l with
  | nil => intro _ c; rfl
  | cons x l ih =>
    intro h c
    simp only [List.foldl_cons]
    rw [h c x (List.mem_cons_self x l)]
    exact ih (fun c y hy => h c y (List.mem_cons_of_mem x hy)) _

namespace RecommenderSystem

variable {α : Type} [Zero α] [One α] [Add α] [Sub α] [Mul α] [Div α] [Neg α] [NatCast α]
  [LT α] [DecidableRel (fun a b : α => a < b)] [HasSqrt α]

theorem multimapInsert_notAfter {K : List α} (htot : StrictTotalOn K) (p : α × String)
    (l : List (α × String)) (hp : p.1 ∈ K) (hl : ∀ x ∈ l, x.1 ∈ K)
    (h : l.Pairwise (fun a b => ¬ b.1 < a.1)) :
    (multimapInsert p l).Pairwise (fun a b => ¬ b.1 < a.1) := by
  obtain ⟨hirr, htrans, _⟩ := htot
  induction l with
  | nil => simp [multimapInsert]
  | cons q l ih =>
    obtain ⟨hq, hrest⟩ := List.pairwise_cons.1 h
    have hqK : q.1 ∈ K := hl q (List.mem_cons_self q l)
    have hlK : ∀ x ∈ l, x.1 ∈ K := fun x hx => hl x (List.mem_cons_of_mem q hx)
    simp only [multimapInsert]
    split
    · rename_i hlt
      refine List.pairwise_cons.2 ⟨fun x hx hxp => ?_, h⟩
      rcases List.mem_cons.1 hx with rfl | hx'
      · exact hirr _ hp (htrans _ hp _ hqK _ hp hlt hxp)
      · exact hq x hx' (htrans _ (hlK x hx') _ hp _ hqK hxp hlt)
    · rename_i hlt
      refine List.pairwise_cons.2 ⟨fun x hx => ?_, ih hlK hrest⟩
      rcases List.mem_cons.1 ((multimapInsert_perm p l).subset hx) with rfl | hx'
      · exact hlt
      · exact hq x hx'

theorem neighboursFold_notAfter {K : List α} (htot : StrictTotalOn K)
    (f : String × α → α × String) (its : List (String × α)) :
    (∀ it ∈ its, (f it).1 ∈ K) →
    ∀ init : List (α × String), (∀ x ∈ init, x.1 ∈ K) →
      init.Pairwise (fun a b => ¬ b.1 < a.1) →
      (its.foldl (fun setK it => multimapInsert (f it) setK) init).Pairwise
        (fun a b => ¬ b.1 < a.1) := by
  induction its with
  | nil => intro _ init _ h; exact h
  | cons it its ih =>
    intro hits init hinit h
    simp only [List.foldl_cons]
    have hit := hits it (List.mem_cons_self it its)
    refine ih (fun x hx => hits x (List.mem_cons_of_mem it hx)) _ (fun x hx => ?_)
      (multimapInsert_notAfter htot _ _ hit hinit h)
    rcases List.mem_cons.1 ((multimapInsert_perm (f it) init).subset hx) with rfl | hx'
    · exact hit
    · exact hinit x hx'

/-- The multimap `setK` is in ascending order of similarity, whatever the arithmetic, when
the comparison is a strict total order on the similarities. -/
theorem neighbours_notAfter (s : RecommenderSystem α) (m : String) (r : List (String × α))
    (htot : StrictTotalOn (r.map (fun p => similarity s m p.1))) :
    (neighbours s m r).Pairwise (fun a b => ¬ b.1 < a.1) :=
  neighboursFold_notAfter htot (fun it => (similarity s m it.1, it.1)) r
    (fun it hit => List.mem_map.2 ⟨it, hit, rfl⟩) [] (fun x hx => by simp at hx)
    List.Pairwise.nil

theorem neighbours_key_mem {s : RecommenderSystem α} {m : String} {r : List (String × α)}
    {t : α × String} (ht : t ∈ neighbours s m r) :
    t.1 ∈ r.map (fun p => similarity s m p.1) := by
  obtain ⟨it, hit, rfl⟩ := neighbours_mem ht
  exact List.mem_map.2 ⟨it, hit, rfl⟩

theorem predictScore_of_tables {s : RecommenderSystem α} {m u : String}
    {r : List (String × α)} (hm : find s._dataCharacteristics m ≠ none)
    (hu : find s._userRating u = some r) (k : Nat) :
    predictScore s m u k =
      (weighted r ((neighbours s m r).reverse.take k)).1 /
        (weighted r ((neighbours s m r).reverse.take k)).2 := by
  have hr : ratingsOf s u = r := by simp [ratingsOf, hu]
  have hg : ¬ ((find s._dataCharacteristics m).isNone = true ∨
      (find s._userRating u).isNone = true) := by
    rintro (h | h)
    · exact hm (by simpa using h)
    · simp [hu] at h
  unfold predictScore
  rw [if_neg hg, hr]

theorem predictScore_of_no_movie {s : RecommenderSystem α} {m : String}
    (hm : find s._dataCharacteristics m = none) (u : String) (k : Nat) :
    predictScore s m u k = NOT_FOUND := by
  unfold predictScore
  rw [if_pos (Or.inl (by simp [hm]))]

/-! ## One neighbour -/

/-- C15, as amended: for a movie of `_dataCharacteristics` and a user of `_userRating` with
at least one rating, in every arithmetic in which the comparison is a strict total order
on the similarities, some rated movie has a similarity `s` to the movie that no rated
movie exceeds, and `predictMovieScoreForUser` with `k = 1` returns the quotient
`(0 + s * rating) / (0 + s)` for the rating of that movie. -/
theorem predict_one_neighbour (s : RecommenderSystem α) (m u : String)
    (r : List (String × α)) (hm : find s._dataCharacteristics m ≠ none)
    (hu : find s._userRating u = some r) (hne : r ≠ []) (hnd : (r.map Prod.fst).Nodup)
    (htot : StrictTotalOn (r.map (fun p =>
      (getSimilierValue s (feat s m) m (feat s p.1) p.1).1))) :
    ∃ p ∈ r,
      (∀ q ∈ r, ¬ (getSimilierValue s (feat s m) m (feat s p.1) p.1).1 <
        (getSimilierValue s (feat s m) m (feat s q.1) q.1).1) ∧
      (predictMovieScoreForUser s m u 1).1 =
        (0 + (getSimilierValue s (feat s m) m (feat s p.1) p.1).1 * p.2) /
          (0 + (getSimilierValue s (feat s m) m (feat s p.1) p.1).1) := by
  have hsim : ∀ x, (getSimilierValue s (feat s m) m (feat s x) x).1 = similarity s m x :=
    fun x => (getSimilierValue_movies s m x).1
  simp only [hsim] at htot ⊢
  have hperm := neighbours_perm s m r
  have hsorted := List.pairwise_reverse.2 (neighbours_notAfter s m r htot)
  cases hrev : (neighbours s m r).reverse with
  | nil =>
    have h0 : (neighbours s m r).length = 0 := by
      rw [← List.length_reverse, hrev]; rfl
    rw [hperm.length_eq, List.length_map] at h0
    exact absurd (List.length_eq_zero.1 h0) hne
  | cons t rest =>
    rw [hrev] at hsorted
    have ht : t ∈ neighbours s m r :=
      List.mem_reverse.1 (by rw [hrev]; exact List.mem_cons_self t rest)
    obtain ⟨p, hp, rfl⟩ := neighbours_mem ht
    refine ⟨p, hp, fun q hq => ?_, ?_⟩
    · have hq' : (similarity s m q.1, q.1) ∈ (neighbours s m r).reverse :=
        List.mem_reverse.2 (hperm.symm.subset (List.mem_map.2 ⟨q, hq, rfl⟩))
      rw [hrev] at hq'
      rcases List.mem_cons.1 hq' with h | h
      · have hkey : similarity s m q.1 = similarity s m p.1 := congrArg Prod.fst h
        rw [hkey]
        exact htot.1 _ (List.mem_map.2 ⟨p, hp, rfl⟩)
      · exact (List.pairwise_cons.1 hsorted).1 _ h
    · rw [(predictMovieScoreForUser_spec s m u 1).1, predictScore_of_tables hm hu, hrev]
      simp [weighted, find_of_mem_nodup hnd hp]

/-! ## The preference vector in the order of the ratings -/

theorem preferenceOuter_components {s : RecommenderSystem α} (average : α)
    (ratings : List (String × α)) :
    ∀ acc : List α × RecommenderSystem α, Same s acc.2 →
      acc.1.length = s._numOfCharacteristics →
      (ratings.foldl (fun acc rating =>
        (List.range s._numOfCharacteristics).foldl (preferenceStep average rating) acc)
          acc).1.length = s._numOfCharacteristics ∧
      ∀ j < s._numOfCharacteristics,
        (ratings.foldl (fun acc rating =>
          (List.range s._numOfCharacteristics).foldl (preferenceStep average rating) acc)
            acc).1.getD j 0 =
          ratings.foldl (fun a p => a + (p.2 - average) * (feat s p.1).getD j 0)
            (acc.1.getD j 0) := by
  induction ratings with
  | nil => intro acc _ hl; exact ⟨hl, fun j _ => rfl⟩
  | cons p ratings ih =>
    intro acc hs hl
    simp only [List.foldl_cons]
    have hsame := hs.andThen (preferenceInner_same average p
      (List.range s._numOfCharacteristics) acc)
    have hfst := preferenceInner_fst (s := s) average p
      (List.range s._numOfCharacteristics) acc hs
    obtain ⟨a1, a2⟩ := axpy_range (p.2 - average) (feat s p.1) acc.1
      s._numOfCharacteristics (le_of_eq hl.symm)
    rw [← hfst] at a1 a2
    obtain ⟨b1, b2⟩ := ih _ hsame (a1.trans hl)
    refine ⟨b1, fun j hj => ?_⟩
    rw [b2 j hj, a2 j, if_pos hj]

/-- C16, as amended: for a user of `_userRating` with the ratings `r`, in every arithmetic,
the preference vector that `recommendByContent` builds has as many components as a movie
has features, and its component `j` is what adding
`(rating - average) * feature j of the movie` for one rating after the other, in the order
of `r` and from 0, gives, where `average` is the ratings added in that order from 0 and
divided by their number. -/
theorem taste_vector_accumulation (s : RecommenderSystem α) (u : String)
    (r : List (String × α)) (hu : find s._userRating u = some r) :
    (tasteVector s u).length = s._numOfCharacteristics ∧
    ∀ j < s._numOfCharacteristics, (tasteVector s u).getD j 0 =
      r.foldl (fun a p =>
        a + (p.2 - r.foldl (fun value q => value + q.2) 0 / (r.length : α)) *
          (feat s p.1).getD j 0) 0 := by
  have hr : ratingsOf s u = r := by simp [ratingsOf, hu]
  have h := preferenceOuter_components (s := s)
    (r.foldl (fun value q => value + q.2) 0 / (r.length : α)) r
    (List.replicate s._numOfCharacteristics 0, s) (Same.same_refl s) (by simp)
  simp only [tasteVector, hr, preferenceVector]
  refine ⟨h.1, fun j hj => ?_⟩
  rw [h.2 j hj]
  simp [List.getD_eq_getElem?_getD, List.getElem?_replicate, hj]

/-! ## The order of the ratings and pairwise different similarities -/

theorem neighbours_eq_of_perm_of_distinct (s : RecommenderSystem α) (m : String)
    {r r' : List (String × α)} (hperm : r.Perm r')
    (htot : StrictTotalOn (r.map (fun p => similarity s m p.1)))
    (hdist : (r.map (fun p => similarity s m p.1)).Nodup) :
    neighbours s m r' = neighbours s m r := by
  have hN := neighbours_perm s m r
  have hN' := neighbours_perm s m r'
  have hNN : (neighbours s m r').Perm (neighbours s m r) :=
    hN'.trans ((hperm.symm.map _).trans hN.symm)
  have hkeysperm : (r'.map (fun p => similarity s m p.1)).Perm
      (r.map (fun p => similarity s m p.1)) := hperm.symm.map _
  have htot' : StrictTotalOn (r'.map (fun p => similarity s m p.1)) :=
    ⟨fun x hx => htot.1 x (hkeysperm.subset hx),
      fun x hx y hy z hz => htot.2.1 x (hkeysperm.subset hx) y (hkeysperm.subset hy) z
        (hkeysperm.subset hz),
      fun x hx y hy => htot.2.2 x (hkeysperm.subset hx) y (hkeysperm.subset hy)⟩
  have hstrict : ∀ l : List (String × α),
      StrictTotalOn (l.map (fun p => similarity s m p.1)) →
      (l.map (fun p => similarity s m p.1)).Nodup →
      (neighbours s m l).Pairwise (fun a b => a.1 < b.1) := fun l ht hd => by
    have h1 : ((neighbours s m l).map Prod.fst).Nodup := by
      have := ((neighbours_perm s m l).map Prod.fst).nodup_iff.2
        (by simpa [List.map_map] using hd)
      exact this
    have h2 : (neighbours s m l).Pairwise (fun a b => a.1 ≠ b.1) :=
      List.pairwise_map.1 h1
    refine ((neighbours_notAfter s m l ht).and h2).imp_of_mem (fun {a b} ha hb h => ?_)
    rcases ht.2.2 a.1 (neighbours_key_mem ha) b.1 (neighbours_key_mem hb) h.2 with h3 | h3
    · exact h3
    · exact absurd h3 h.1
  refine eq_of_perm_of_pairwise hNN (hstrict r' htot' (hkeysperm.nodup_iff.2 hdist))
    (hstrict r htot hdist) (fun a ha b hb hab hba => ?_)
  have haK := hkeysperm.subset (neighbours_key_mem ha)
  have hbK := hkeysperm.subset (neighbours_key_mem hb)
  exact htot.1 a.1 haK (htot.2.1 a.1 haK b.1 hbK a.1 haK hab hba)

/-- C20, as amended: two states with the same feature vectors and norm cache, in which the
ratings of the user are the same pairs enumerated in two orders, give the same number from
`predictMovieScoreForUser`, in every arithmetic, when the similarities of the movie to the
rated movies are pairwise different and the comparison is a strict total order on them. -/
theorem predict_same_for_distinct_similarities (s s' : RecommenderSystem α) (m u : String)
    (k : Nat) (r r' : List (String × α))
    (hdc : s'._dataCharacteristics = s._dataCharacteristics)
    (hkn : s'._keepsNorms = s._keepsNorms)
    (hnc : s'._numOfCharacteristics = s._numOfCharacteristics)
    (hu : find s._userRating u = some r) (hu' : find s'._userRating u = some r')
    (hperm : r.Perm r') (hnd : (r.map Prod.fst).Nodup)
    (htot : StrictTotalOn (r.map (fun p =>
      (getSimilierValue s (feat s m) m (feat s p.1) p.1).1)))
    (hdist : (r.map (fun p =>
      (getSimilierValue s (feat s m) m (feat s p.1) p.1).1)).Nodup) :
    (predictMovieScoreForUser s' m u k).1 = (predictMovieScoreForUser s m u k).1 := by
  have hsim : ∀ x, (getSimilierValue s (feat s m) m (feat s x) x).1 = similarity s m x :=
    fun x => (getSimilierValue_movies s m x).1
  simp only [hsim] at htot hdist
  rw [(predictMovieScoreForUser_spec s' m u k).1, (predictMovieScoreForUser_spec s m u k).1]
  have hnd' : (r'.map Prod.fst).Nodup := (hperm.map Prod.fst).nodup_iff.1 hnd
  by_cases hm : find s._dataCharacteristics m = none
  · rw [predictScore_of_no_movie hm, predictScore_of_no_movie (by rw [hdc]; exact hm)]
  · have hm' : find s'._dataCharacteristics m ≠ none := by rw [hdc]; exact hm
    rw [predictScore_of_tables hm' hu', predictScore_of_tables hm hu,
      neighbours_congr (similarity_congr hdc hkn hnc),
      neighbours_eq_of_perm_of_distinct s m hperm htot hdist]
    have hw : weighted r' ((neighbours s m r).reverse.take k) =
        weighted r ((neighbours s m r).reverse.take k) := by
      unfold weighted
      refine foldl_congr_of_mem _ _ _ (fun c t ht => ?_) _
      have ht' := List.mem_reverse.1 ((List.take_subset _ _) ht)
      obtain ⟨it, hit, rfl⟩ := neighbours_mem ht'
      simp [find_of_mem_nodup hnd hit, find_of_mem_nodup hnd' (hperm.subset hit)]
    rw [hw]

end RecommenderSystem

end RecSys

namespace RecSys

open RecommenderSystem Binary64

/-! ## The queries in the arithmetic of doubles -/

/-- C15, as stated, fails in doubles: in `oneNeighbour` the only rated movie `A` has the
rating 7 and a similarity to `Q` that is not 0, the double nearest to 1 / sqrt 2, and the
prediction for `k = 1`, the rounded quotient of the rounded product by the similarity, is
7 - 2 ^ -50 (6.999999999999999), not 7. -/
theorem nearest_neighbour_rating_is_rounded :
    find oneNeighbour._dataCharacteristics "Q" = some [1, 1] ∧
    find oneNeighbour._userRating "u" = some [("A", 7)] ∧
    (getSimilierValue oneNeighbour (feat oneNeighbour "Q") "Q"
      (feat oneNeighbour "A") "A").1 = finite (6369051672525772 / 2 ^ 53) ∧
    (getSimilierValue oneNeighbour (feat oneNeighbour "Q") "Q"
      (feat oneNeighbour "A") "A").1 ≠ 0 ∧
    (predictMovieScoreForUser oneNeighbour "Q" "u" 1).1 = finite (7 - 1 / 2 ^ 50) ∧
    (predictMovieScoreForUser oneNeighbour "Q" "u" 1).1 ≠ 7 := by
  decide!

theorem predict_one_neighbour_witness :
    find oneNeighbour._userRating "u" = some [("A", 7)] ∧
    StrictTotalOn ([("A", (7 : Binary64))].map (fun p =>
      (getSimilierValue oneNeighbour (feat oneNeighbour "Q") "Q"
        (feat oneNeighbour p.1) p.1).1)) ∧
    ∃ p ∈ [("A", (7 : Binary64))],
      (∀ q ∈ [("A", (7 : Binary64))],
        ¬ (getSimilierValue oneNeighbour (feat oneNeighbour "Q") "Q"
            (feat oneNeighbour p.1) p.1).1 <
          (getSimilierValue oneNeighbour (feat oneNeighbour "Q") "Q"
            (feat oneNeighbour q.1) q.1).1) ∧
      (predictMovieScoreForUser oneNeighbour "Q" "u" 1).1 =
        (0 + (getSimilierValue oneNeighbour (feat oneNeighbour "Q") "Q"
            (feat oneNeighbour p.1) p.1).1 * p.2) /
          (0 + (getSimilierValue oneNeighbour (feat oneNeighbour "Q") "Q"
            (feat oneNeighbour p.1) p.1).1) :=
  ⟨rfl, by unfold StrictTotalOn; decide!,
    predict_one_neighbour oneNeighbour "Q" "u" _ (by decide) rfl (by decide) (by decide)
      (by unfold StrictTotalOn; decide!)⟩

/-- C16, as stated, fails in doubles: `mirrored` and `mirroredSwapped` have the same
feature vectors and the same ratings of the user `u` in two orders; the preference vector
is `[5 + 2 ^ -50, 5]` for one order and `[5, 5 + 2 ^ -50]` for the other, and
`recommendByContent` returns `E` for one and `F` for the other.  In exact arithmetic the
vector is `[5, 5]`. -/
theorem taste_vector_depends_on_order :
    find mirrored._userRating "u" = some [("A", 1), ("B", 6), ("C", 1)] ∧
    find mirroredSwapped._userRating "u" = some [("C", 1), ("B", 6), ("A", 1)] ∧
    mirroredSwapped._dataCharacteristics = mirrored._dataCharacteristics ∧
    tasteVector mirrored "u" = [finite (5 + 1 / 2 ^ 50), finite 5] ∧
    tasteVector mirroredSwapped "u" = [finite 5, finite (5 + 1 / 2 ^ 50)] ∧
    tasteVector mirrored "u" ≠ tasteVector mirroredSwapped "u" ∧
    (recommendByContent mirrored "u").1 = "E" ∧
    (recommendByContent mirroredSwapped "u").1 = "F" ∧
    tasteVector mirroredExact "u" = [5, 5] := by
  decide!

/-- The scenario of C16 in doubles: the average is 3, the preference vector is `[2, -2]`,
its similarity to `C` is 0 and `recommendByContent` returns `C`. -/
theorem taste_vector_accumulation_witness :
    find scenario64._userRating "u" = some [("A", 5), ("B", 1)] ∧
    [("A", (5 : Binary64)), ("B", 1)].foldl (fun value q => value + q.2) 0 /
      (([("A", (5 : Binary64)), ("B", 1)].length : ℕ) : Binary64) = 3 ∧
    tasteVector scenario64 "u" = [2, -2] ∧
    (getSimilierValue scenario64 (tasteVector scenario64 "u") NOT_MOVIE
      (feat scenario64 "C") "C").1 = 0 ∧
    (recommendByContent scenario64 "u").1 = "C" ∧
    (tasteVector scenario64 "u").length = scenario64._numOfCharacteristics ∧
    (∀ j < scenario64._numOfCharacteristics, (tasteVector scenario64 "u").getD j 0 =
      [("A", (5 : Binary64)), ("B", 1)].foldl (fun a p =>
        a + (p.2 - [("A", (5 : Binary64)), ("B", 1)].foldl (fun value q => value + q.2) 0 /
          (([("A", (5 : Binary64)), ("B", 1)].length : ℕ) : Binary64)) *
          (feat scenario64 p.1).getD j 0) 0) :=
  ⟨rfl, by decide!, by decide!, by decide!, by decide!,
    (taste_vector_accumulation scenario64 "u" _ rfl).1,
    (taste_vector_accumulation scenario64 "u" _ rfl).2⟩

/-- In doubles the prediction depends on the order of the ratings also for `k` equal to
the number of ratings: the three rated movies of `equalNeighbours` have one and the same
similarity to `Q`, and the ratings 1, 5 and 4 give 7505999378950828 / 2 ^ 51 in one order
and 7505999378950827 / 2 ^ 51 in the other (3.333333333333334 and 3.3333333333333335). -/
theorem predict_all_ratings_depends_on_order :
    find equalNeighbours._userRating "u" = some [("A", 1), ("B", 5), ("C", 4)] ∧
    find equalNeighboursSwapped._userRating "u" = some [("C", 4), ("B", 5), ("A", 1)] ∧
    (predictMovieScoreForUser equalNeighbours "Q" "u" 3).1 =
      finite (7505999378950828 / 2 ^ 51) ∧
    (predictMovieScoreForUser equalNeighboursSwapped "Q" "u" 3).1 =
      finite (7505999378950827 / 2 ^ 51) := by
  decide!

theorem predict_same_for_distinct_similarities_witness :
    find mirrored._userRating "u" = some [("A", 1), ("B", 6), ("C", 1)] ∧
    find mirroredSwapped._userRating "u" = some [("C", 1), ("B", 6), ("A", 1)] ∧
    ([("A", (1 : Binary64)), ("B", 6), ("C", 1)].map (fun p =>
      (getSimilierValue mirrored (feat mirrored "E") "E" (feat mirrored p.1) p.1).1)).Nodup ∧
    (predictMovieScoreForUser mirroredSwapped "E" "u" 2).1 =
      (predictMovieScoreForUser mirrored "E" "u" 2).1 :=
  ⟨rfl, rfl, by decide!,
    predict_same_for_distinct_similarities mirrored mirroredSwapped "E" "u" 2 _ _ rfl rfl rfl
      rfl rfl (by decide!) (by decide) (by unfold StrictTotalOn; decide!) (by decide!)⟩

end RecSys
